import Mathlib

/-!
Matheque: the normaliser of watcher keywords, the storage operations, the webhook state machine
and the discovery pass.

A shallow embedding of `storage/storage.go`, `telegram/telegram.go` and `main.go`.

* A Go `string` that reaches the code below is valid UTF-8 (message texts come out of
  `json.Unmarshal`, which replaces invalid bytes by U+FFFD), so it is modelled by a Lean
  `String`: the sequence of its runes. `len` is the length in bytes.
* The database is a record of four tables, each a list of rows in insertion order; a statement
  is a function from the database to the new database and the number of rows affected. The
  database driver is taken not to fail, so the `err != nil` branches that only forward a driver
  error are not represented. SQL comparisons follow the SQLite documentation: `=` on text
  compares the texts as they are, `COLLATE NOCASE` folds the 26 upper-case letters of ASCII.
* The schema (`init.sql`) and the full-text index `watchers_fts` are not among the sources:
  the tables carry the columns that the statements name and no constraint, and the index, like
  the scraper and the transport, is a parameter of the model (`World`).
* `time.Now()` columns are left out: no statement reads them back.

The file has the definitions first (the code, then what the claims need to be stated), then
the lemmas and the claims `C1` to `C10`.
-/

namespace Matheque

/-! ## Go strings -/

/-- The builtin `len` of a Go string: its number of bytes. -/
def len (s : String) : Nat := s.utf8ByteSize

/-- The function `strings.HasPrefix`. Both arguments are valid UTF-8, so the byte prefix test
agrees with the prefix test on runes. -/
def HasPrefix (s pre : String) : Bool := pre.data.isPrefixOf s.data

/-- The function `strings.Trim(s, " ")`: all leading and trailing spaces are removed. -/
def Trim (s : String) : String :=
  ⟨((s.data.dropWhile (· = ' ')).reverse.dropWhile (· = ' ')).reverse⟩

/-! ## `unicode.ToLower` -/

/-- The entries of Go's `unicode.CaseRanges` that meet the character class of `NormaliseString`
(`A-Z`, U+00C0..U+024F, U+1E00..U+1EFF), as `(Lo, Hi, delta)` where `delta` is the entry's
`Delta[LowerCase]`; `none` stands for the `UpperLower` marker. Entries whose lower-case delta is
`0` are left out (the rune is returned as it is either way), and neighbouring entries that map
to lower case in the same way are written as one range. -/
def caseRanges : List (Nat × Nat × Option Int) :=
  [(0x0041, 0x005A, some 32), (0x00C0, 0x00D6, some 32), (0x00D8, 0x00DE, some 32),
   (0x0100, 0x012F, none), (0x0130, 0x0130, some (-199)), (0x0132, 0x0137, none),
   (0x0139, 0x0148, none), (0x014A, 0x0177, none), (0x0178, 0x0178, some (-121)),
   (0x0179, 0x017E, none), (0x0181, 0x0181, some 210), (0x0182, 0x0185, none),
   (0x0186, 0x0186, some 206), (0x0187, 0x0188, none), (0x0189, 0x018A, some 205),
   (0x018B, 0x018C, none), (0x018E, 0x018E, some 79), (0x018F, 0x018F, some 202),
   (0x0190, 0x0190, some 203), (0x0191, 0x0192, none), (0x0193, 0x0193, some 205),
   (0x0194, 0x0194, some 207), (0x0196, 0x0196, some 211), (0x0197, 0x0197, some 209),
   (0x0198, 0x0199, none), (0x019C, 0x019C, some 211), (0x019D, 0x019D, some 213),
   (0x019F, 0x019F, some 214), (0x01A0, 0x01A5, none), (0x01A6, 0x01A6, some 218),
   (0x01A7, 0x01A8, none), (0x01A9, 0x01A9, some 218), (0x01AC, 0x01AD, none),
   (0x01AE, 0x01AE, some 218), (0x01AF, 0x01B0, none), (0x01B1, 0x01B2, some 217),
   (0x01B3, 0x01B6, none), (0x01B7, 0x01B7, some 219), (0x01B8, 0x01B9, none),
   (0x01BC, 0x01BD, none), (0x01C4, 0x01C4, some 2), (0x01C5, 0x01C6, none),
   (0x01C7, 0x01C7, some 2), (0x01C8, 0x01C9, none), (0x01CA, 0x01CA, some 2),
   (0x01CB, 0x01DC, none), (0x01DE, 0x01EF, none), (0x01F1, 0x01F1, some 2),
   (0x01F2, 0x01F5, none), (0x01F6, 0x01F6, some (-97)), (0x01F7, 0x01F7, some (-56)),
   (0x01F8, 0x021F, none), (0x0220, 0x0220, some (-130)), (0x0222, 0x0233, none),
   (0x023A, 0x023A, some 10795), (0x023B, 0x023C, none), (0x023D, 0x023D, some (-163)),
   (0x023E, 0x023E, some 10792), (0x0241, 0x0242, none), (0x0243, 0x0243, some (-195)),
   (0x0244, 0x0244, some 69), (0x0245, 0x0245, some 71), (0x0246, 0x024F, none),
   (0x1E00, 0x1E95, none), (0x1E9E, 0x1E9E, some (-7615)), (0x1EA0, 0x1EFF, none)]

/-- The lookup `unicode.to(LowerCase, r, caseRange)`: the entry whose range holds `r` decides.
For an `UpperLower` entry the runes at even offsets from `Lo` are upper case and those at odd
offsets lower case, and the result is `Lo + ((r - Lo) &^ 1 | 1)`: the offset with its low bit
set. Otherwise the delta is added. A rune in no range is returned unchanged. (Go searches the
sorted table by bisection; the ranges are disjoint, so a scan finds the same entry.) -/
def unicodeTo (r : Nat) : List (Nat × Nat × Option Int) → Nat
  | [] => r
  | (lo, hi, d) :: rest =>
    if lo ≤ r ∧ r ≤ hi then
      match d with
      | none => lo + ((r - lo) / 2 * 2 + 1)
      | some d => (r + d).toNat
    else unicodeTo r rest

/-- The function `unicode.ToLower` on a code point. It is exact on the character class of
`NormaliseString`, the only place where the code applies it. -/
def toLowerCode (r : Nat) : Nat := unicodeTo r caseRanges

/-- The function `unicode.ToLower` on a rune. -/
def ToLowerRune (c : Char) : Char := Char.ofNat (toLowerCode c.toNat)

/-- The function `strings.ToLower`: `unicode.ToLower` mapped over the runes of the string. -/
def ToLower (l : List Char) : List Char := l.map ToLowerRune


/-- The function `unicode.IsSpace`: the runes `\t`, `\n`, `\v`, `\f`, `\r`, space, U+0085 and
U+00A0 of Latin-1, and the runes of the table `unicode.White_Space` above Latin-1. -/
def IsSpace (c : Char) : Bool :=
  let n := c.toNat
  (0x09 ≤ n && n ≤ 0x0D) || n == 0x20 || n == 0x85 || n == 0xA0 || n == 0x1680 ||
    (0x2000 ≤ n && n ≤ 0x200A) || n == 0x2028 || n == 0x2029 || n == 0x202F || n == 0x205F ||
    n == 0x3000

/-- The function `strings.TrimSpace`: all leading and trailing runes of `unicode.IsSpace` are
removed. -/
def TrimSpace (s : String) : String :=
  ⟨((s.data.dropWhile IsSpace).reverse.dropWhile IsSpace).reverse⟩

/-- The function `strings.Trim(s, cutset)`: all leading and trailing runes that occur in
`cutset` are removed. -/
def TrimCutset (s cutset : String) : String :=
  ⟨((s.data.dropWhile (fun c => cutset.data.contains c)).reverse.dropWhile
    (fun c => cutset.data.contains c)).reverse⟩

/-- The pieces of `strings.Split` for a separator of one rune, on runes: the text is cut at
every separator, so `n` separators give `n + 1` pieces, empty ones included. -/
def splitRunes (sep : Char) : List Char → List (List Char)
  | [] => [[]]
  | c :: rest =>
    if c = sep then [] :: splitRunes sep rest
    else match splitRunes sep rest with
      | [] => [[c]]
      | piece :: pieces => (c :: piece) :: pieces

/-- The function `strings.Split(s, sep)` for a separator of one rune. -/
def Split (s : String) (sep : Char) : List String :=
  (splitRunes sep s.data).map String.mk

/-- The function `strings.Join`. -/
def Join (elems : List String) (sep : String) : String := sep.intercalate elems
namespace storage

/-! ## `storage.NormaliseString` -/

/-- Membership of a code point in the class `a-zA-Z\u00C0-\u024F\u1E00-\u1EFF ` (the last
member is the space) that the first pattern of `NormaliseString` negates. -/
def inClassCode (n : Nat) : Bool :=
  (0x61 ≤ n && n ≤ 0x7A) || (0x41 ≤ n && n ≤ 0x5A) || (0xC0 ≤ n && n ≤ 0x24F) ||
    (0x1E00 ≤ n && n ≤ 0x1EFF) || n == 0x20

/-- Membership of a rune in the class `a-zA-Z\u00C0-\u024F\u1E00-\u1EFF `. -/
def inClass (c : Char) : Bool := inClassCode c.toNat

/-- The call `r1.ReplaceAllString(s, "")` for `r1 = [^a-zA-Z\u00C0-\u024F\u1E00-\u1EFF ]+`:
every maximal run of runes outside the class is replaced by nothing, so exactly the runes of
the class stay, in order. -/
def replaceR1 (l : List Char) : List Char := l.filter inClass

/-- The call `r2.ReplaceAllString(s1, " ")` for `r2 = " {2,}"`: the greedy match takes a whole
maximal run of two or more spaces and one space is written for it. Read rune by rune: a space
that is followed by another space is dropped, so of every run only its last space stays. -/
def replaceR2 : List Char → List Char
  | [] => []
  | c :: rest =>
    if c = ' ' ∧ rest.head? = some ' ' then replaceR2 rest else c :: replaceR2 rest

/-- The body of `NormaliseString` on the runes of its argument. Both patterns are constants
that compile, so the two `err != nil` returns are never taken. -/
def normaliseRunes (l : List Char) : List Char := ToLower (replaceR2 (replaceR1 l))

/-- The function `storage.NormaliseString`. -/
def NormaliseString (s : String) : String := ⟨normaliseRunes s.data⟩

/-! ## `storage`: tables -/

/-- The type `storage.ChatStatus`, an `int8` with three named values. -/
inductive ChatStatus
  | ChatIdle
  | ChatWaitingForWatcherToAdd
  | ChatWaitingForWatcherToRemove
  deriving DecidableEq, Repr

/-- The struct `storage.Film`, also the row of table `films` (`Id` is column `original_id`). -/
structure Film where
  Id : String
  Name : String
  OriginalName : String
  Link : String
  PosterLink : String
  deriving DecidableEq, Repr

/-- The struct `storage.Message`, also the row of table `messages`. -/
structure Message where
  MessageId : Int
  FromId : Int
  FromFirstName : String
  ChatId : Int
  ChatFirstName : String
  Text : String
  deriving DecidableEq, Repr

/-- Modelled from the spec: the schema of the database (`init.sql`) is not among the sources.
A row of table `chats` holds the columns that the statements of `storage.go` name; per the
spec `subscribed` is a boolean flag tracked independently of `status`. No statement gives
`subscribed` a value on `INSERT`, so a fresh row holds the schema's default, written `none`.
The tables are taken to carry no constraint of their own (an `INSERT` always adds a row) and
their text columns to compare byte by byte unless the statement names a collation. -/
structure ChatRow where
  chat_id : Int
  user_id : Int
  status : ChatStatus
  subscribed : Option Bool
  deriving DecidableEq, Repr

/-- Modelled from the spec: the schema of the database (`init.sql`) is not among the sources.
A row of table `watchers`, with the columns of the `INSERT` in `InsertWatcher`. -/
structure WatcherRow where
  chat_id : Int
  keywords : String
  keywords_normalised : String
  deriving DecidableEq, Repr

/-- The database behind `env.DB`: four tables, rows in insertion order. -/
structure DB where
  films : List Film
  messages : List Message
  chats : List ChatRow
  watchers : List WatcherRow
  deriving DecidableEq, Repr

/-- The database right after it is created. -/
def DB.empty : DB := ⟨[], [], [], []⟩

/-! ## `storage`: SQL comparison -/

/-- The folding of SQLite's `NOCASE` collation on one rune: the 26 upper-case letters of ASCII
are replaced by their lower-case letters, every other rune is kept. -/
def nocaseRune (c : Char) : Char :=
  if 0x41 ≤ c.toNat ∧ c.toNat ≤ 0x5A then Char.ofNat (c.toNat + 32) else c

/-- The key by which `COLLATE NOCASE` compares a text. -/
def nocaseKey (s : String) : List Char := s.data.map nocaseRune

/-- The comparison `a = b COLLATE NOCASE`. -/
def nocaseEq (a b : String) : Bool := nocaseKey a == nocaseKey b

/-- The order of `ORDER BY ... COLLATE NOCASE` on two keys: lexicographic on the folded text (on
UTF-8 the order of the bytes is the order of the code points), a proper prefix first. -/
def nocaseLe : List Char → List Char → Bool
  | [], _ => true
  | _ :: _, [] => false
  | a :: as, b :: bs => if a.toNat < b.toNat then true else if b.toNat < a.toNat then false
      else nocaseLe as bs

/-! ## `storage`: operations -/

/-- The function `storage.FilmExists`: is there a row with this `original_id`. -/
def FilmExists (db : DB) (filmId : String) : Bool :=
  db.films.any (fun f => f.Id == filmId)

/-- The function `storage.InsertFilm`: one row is added; returns the rows affected. -/
def InsertFilm (db : DB) (film : Film) : DB × Int :=
  (⟨db.films ++ [film], db.messages, db.chats, db.watchers⟩, 1)

/-- The function `storage.InsertMessage`. -/
def InsertMessage (db : DB) (m : Message) : DB × Int :=
  (⟨db.films, db.messages ++ [m], db.chats, db.watchers⟩, 1)

/-- The condition `WHERE chat_id=? AND user_id=?` on a row of `chats`. -/
def isChat (chatId userId : Int) (r : ChatRow) : Bool :=
  r.chat_id == chatId && r.user_id == userId

/-- The function `storage.chatExists`. -/
def chatExists (db : DB) (chatId userId : Int) : Bool :=
  db.chats.any (isChat chatId userId)

/-- The function `storage.updateChat`: `UPDATE chats SET status = ? WHERE chat_id=? AND
user_id=?`; the rows affected are the rows that match. -/
def updateChat (db : DB) (chatId userId : Int) (status : ChatStatus) : DB × Int :=
  (⟨db.films, db.messages,
      db.chats.map (fun r => if isChat chatId userId r then { r with status := status } else r),
      db.watchers⟩,
   (db.chats.countP (isChat chatId userId) : Nat))

/-- The function `storage.insertChat`: the `INSERT` names `chat_id`, `user_id` and `status`. -/
def insertChat (db : DB) (chatId userId : Int) (status : ChatStatus) : DB × Int :=
  (⟨db.films, db.messages, db.chats ++ [⟨chatId, userId, status, none⟩], db.watchers⟩, 1)

/-- The function `storage.UpdateChatStatus`: update the row if there is one, else insert. -/
def UpdateChatStatus (db : DB) (chatId userId : Int) (status : ChatStatus) : DB × Int :=
  if chatExists db chatId userId then updateChat db chatId userId status
  else insertChat db chatId userId status

/-- The statement `UPDATE chats SET subscribed = ? WHERE chat_id=? AND user_id=?` shared by
`Subscribe` (value 1) and `Unsubscribe` (value 0). -/
def setSubscribed (db : DB) (chatId userId : Int) (v : Bool) : DB × Int :=
  (⟨db.films, db.messages,
      db.chats.map (fun r => if isChat chatId userId r then { r with subscribed := some v } else r),
      db.watchers⟩,
   (db.chats.countP (isChat chatId userId) : Nat))

/-- The function `storage.Subscribe`: nothing is done when the chat has no row. -/
def Subscribe (db : DB) (chatId userId : Int) : DB × Int :=
  if !chatExists db chatId userId then (db, 0) else setSubscribed db chatId userId true

/-- The function `storage.Unsubscribe`: nothing is done when the chat has no row. -/
def Unsubscribe (db : DB) (chatId userId : Int) : DB × Int :=
  if !chatExists db chatId userId then (db, 0) else setSubscribed db chatId userId false

/-- The function `storage.GetChatStatus`: the status of the first row found; when `Scan` fails
because there is no row, the status is `0`, which is `ChatIdle`. -/
def GetChatStatus (db : DB) (chatId userId : Int) : ChatStatus :=
  match db.chats.find? (isChat chatId userId) with
  | some r => r.status
  | none => ChatStatus.ChatIdle

/-- The function `storage.watcherExists`: `WHERE chat_id=$1 AND keywords=$2 COLLATE NOCASE`. -/
def watcherExists (db : DB) (chatId : Int) (keywords : String) : Bool :=
  db.watchers.any (fun w => w.chat_id == chatId && nocaseEq w.keywords keywords)

/-- The function `storage.InsertWatcher`. -/
def InsertWatcher (db : DB) (chatId : Int) (keywords : String) : DB × Int :=
  let keywords := Trim keywords
  if len keywords = 0 then (db, 0)
  else if watcherExists db chatId keywords then (db, 0)
  else (⟨db.films, db.messages, db.chats,
      db.watchers ++ [⟨chatId, keywords, NormaliseString keywords⟩]⟩, 1)

/-- The condition `WHERE chat_id=? AND keywords=?` of the `DELETE` in `RemoveWatcher`: no
collation is named, so the texts are compared as they are. -/
def isWatcher (chatId : Int) (keywords : String) (w : WatcherRow) : Bool :=
  w.chat_id == chatId && w.keywords == keywords

/-- The function `storage.RemoveWatcher`: when `watcherExists` finds a row, the `DELETE`
removes the rows that match its own condition and reports their number. -/
def RemoveWatcher (db : DB) (chatId : Int) (keywords : String) : DB × Int :=
  if !watcherExists db chatId keywords then (db, 0)
  else (⟨db.films, db.messages, db.chats,
      db.watchers.filter (fun w => !isWatcher chatId keywords w)⟩,
    (db.watchers.countP (isWatcher chatId keywords) : Nat))

/-- The function `storage.GetWatchers`: the keywords of the chat's rows,
`ORDER BY keywords COLLATE NOCASE`. -/
def GetWatchers (db : DB) (chatId : Int) : List String :=
  ((db.watchers.filter (fun w => w.chat_id == chatId)).map (·.keywords)).insertionSort
    (fun a b => nocaseLe (nocaseKey a) (nocaseKey b) = true)

/-- The text that `GetWatchersMatchingQuery` hands to the full-text index: the normalised
titles split at every space, the pieces joined by `" OR "`. -/
def preparedQuery (query1 query2 : String) : String :=
  Join (Split (NormaliseString (query1 ++ " " ++ query2)) ' ') " OR "

/-- The function `storage.GetWatchersMatchingQuery`. The full-text index `watchers_fts` is not
part of the sources; `fts` stands for it: given the rows of `watchers` and the query text it
answers with the chat ids, or with `none` when the query fails. -/
def GetWatchersMatchingQuery (fts : List WatcherRow → String → Option (List Int)) (db : DB)
    (query1 query2 : String) : Option (List Int) :=
  fts db.watchers (preparedQuery query1 query2)

end storage

/-! ## `telegram` -/

namespace telegram

/-- The struct `telegram.ReplyMarkupWithKeyboard`. -/
structure ReplyMarkupWithKeyboard where
  Keyboard : List (List String)
  OneTimeKeyboard : Bool
  ResizeKeyboard : Bool
  deriving DecidableEq, Repr

/-- The struct `telegram.ReplyMarkupWithoutKeyboard`. -/
structure ReplyMarkupWithoutKeyboard where
  RemoveKeyboard : Bool
  deriving DecidableEq, Repr

/-- The struct `telegram.MethodSendPhoto`. -/
structure MethodSendPhoto where
  Method : String
  ChatId : Int
  Photo : String
  Caption : String
  ParseMode : String
  deriving DecidableEq, Repr

/-- The struct `telegram.MethodSendMessageWithKeyboard`. -/
structure MethodSendMessageWithKeyboard where
  Method : String
  ChatId : Int
  Text : String
  ParseMode : String
  ReplyMarkup : ReplyMarkupWithKeyboard
  deriving DecidableEq, Repr

/-- The struct `telegram.MethodSendMessageWithoutKeyboard`. -/
structure MethodSendMessageWithoutKeyboard where
  Method : String
  ChatId : Int
  Text : String
  ParseMode : String
  ReplyMarkup : ReplyMarkupWithoutKeyboard
  deriving DecidableEq, Repr

/-- The struct `telegram.WebhookUpdateMessageFrom`. -/
structure WebhookUpdateMessageFrom where
  Id : Int
  IsBot : Bool
  FirstName : String
  LanguageCode : String
  deriving DecidableEq, Repr

/-- The struct `telegram.WebhookUpdateMessageChat`; `ChatType` is its field `Type`. -/
structure WebhookUpdateMessageChat where
  Id : Int
  FirstName : String
  ChatType : String
  deriving DecidableEq, Repr

/-- The struct `telegram.WebhookUpdateMessage`. -/
structure WebhookUpdateMessage where
  MessageId : Int
  From : WebhookUpdateMessageFrom
  Chat : WebhookUpdateMessageChat
  Date : Int
  Text : String
  deriving DecidableEq, Repr

/-- The function `telegram.NewMessage`. -/
def NewMessage (chatId : Int) (text : String) : MethodSendMessageWithoutKeyboard :=
  { Method := "sendMessage", ChatId := chatId, Text := text, ParseMode := "markdown",
    ReplyMarkup := { RemoveKeyboard := true } }

/-- The function `telegram.NewMessageWithKeyboard`. -/
def NewMessageWithKeyboard (chatId : Int) (text : String) (keyboard : List (List String)) :
    MethodSendMessageWithKeyboard :=
  { Method := "sendMessage", ChatId := chatId, Text := text, ParseMode := "markdown",
    ReplyMarkup := { Keyboard := keyboard, OneTimeKeyboard := true, ResizeKeyboard := false } }

/-- The function `telegram.MakeResponseForStartCommand`. -/
def MakeResponseForStartCommand (chatId : Int) : MethodSendMessageWithoutKeyboard :=
  NewMessage chatId "You are now subscribed to updates! 👍"

/-- The function `telegram.MakeResponseForStopCommand`. -/
def MakeResponseForStopCommand (chatId : Int) : MethodSendMessageWithoutKeyboard :=
  NewMessage chatId "You are now unsubscribed."

/-- The function `telegram.MakeResponseForListCommand`: one line per watcher is written to the
buffer; the list is shown when the buffer is not empty. -/
def MakeResponseForListCommand (watchers : List String) (chatId : Int) :
    MethodSendMessageWithoutKeyboard :=
  let buf := watchers.foldl (fun buf watcher => buf ++ ("✔︎ _" ++ watcher ++ "_\n")) ""
  let responseText :=
    if len buf > 0 then
      "These are your watchers:\n\n" ++ buf ++
        "\nUse `/add` and `/remove` commands to manage them."
    else "You have no watchers. Use `/add` to add one now."
  NewMessage chatId responseText

/-- The function `telegram.MakeResponseForAddCommand`. -/
def MakeResponseForAddCommand (chatId : Int) : MethodSendMessageWithoutKeyboard :=
  NewMessage chatId
    "What's the film name? \n\nYou can add multiple keywords separated by commas, like this:\n_Fight Club, Clubul batausilor, Fight_."

/-- The function `telegram.charsInSliceOfStrings`: the sum of the byte lengths. -/
def charsInSliceOfStrings (s : List String) : Nat :=
  s.foldl (fun l v => l + len v) 0

/-- The loop of `MakeResponseForRemoveCommand` over the watchers, on the pair
`(buttonRows, row)`: a row that has reached `maxCharsPerRow = 30` bytes is closed before the
next watcher is put on a new row. -/
def buttonLoop : List String → List (List String) × List String → List (List String) × List String
  | [], st => st
  | v :: rest, (buttonRows, row) =>
    if charsInSliceOfStrings row ≥ 30 then buttonLoop rest (buttonRows ++ [row], [v])
    else buttonLoop rest (buttonRows, row ++ [v])

/-- The function `telegram.MakeResponseForRemoveCommand`. -/
def MakeResponseForRemoveCommand (watchers : List String) (chatId : Int) :
    MethodSendMessageWithKeyboard :=
  if watchers.length = 0 then
    NewMessageWithKeyboard chatId "You have no watchers, add some using `/add`" []
  else
    let st := buttonLoop watchers ([], [])
    NewMessageWithKeyboard chatId
      "Which watcher do you want to remove? Type it or click one of the buttons below."
      (st.1 ++ [st.2])

/-- The function `telegram.MakeResponseForWatcherAdded`. -/
def MakeResponseForWatcherAdded (chatId : Int) (msg : String) : MethodSendMessageWithoutKeyboard :=
  NewMessage chatId
    (if len msg = 0 then "Watcher added ✨. Use `/list` to list your watchers." else msg)

/-- The function `telegram.MakeResponseForWatcherRemoved`. -/
def MakeResponseForWatcherRemoved (chatId : Int) (msg : String) :
    MethodSendMessageWithoutKeyboard :=
  NewMessage chatId (if len msg > 0 then msg else "Watcher removed 🗑.")

/-- The function `telegram.MakeResponseForUnknownCommand`. -/
def MakeResponseForUnknownCommand (chatId : Int) : MethodSendMessageWithoutKeyboard :=
  NewMessage chatId "Sorry, I didn't understand that. Type `/` to list the available commands."

/-- The function `telegram.NewNotification`. -/
def NewNotification (chatId : Int) (filmName filmLink filmPosterLink : String) : MethodSendPhoto :=
  { Method := "sendPhoto", ChatId := chatId, Photo := filmPosterLink,
    Caption := "🎉 Tickets for a film matching one of your watchers are now on sale:\n\n[" ++
      filmName ++ "](" ++ filmLink ++ ")",
    ParseMode := "markdown" }

end telegram

/-! ## `cinemacity` -/

namespace cinemacity

/-- The struct `cinemacity.Film`: one poster of the feed. -/
structure Film where
  Id : String
  Name : String
  Link : String
  PosterLink : String
  deriving DecidableEq, Repr

end cinemacity

/-! ## `main` -/

open storage telegram

/-- The value of `response` in the webhook handler: one of the two message structs. -/
inductive Response
  | withoutKeyboard (m : MethodSendMessageWithoutKeyboard)
  | withKeyboard (m : MethodSendMessageWithKeyboard)
  deriving DecidableEq, Repr

/-- The reply to a text that is not a command, by the chat status: the branch
`chatStatus == ChatWaitingForWatcherToAdd`, the branch `ChatWaitingForWatcherToRemove` and the
branch of a random message. `msg` stays empty unless no row was affected. -/
def freeText (db : DB) (chatId : Int) (text : String) (chatStatus : ChatStatus) :
    DB × MethodSendMessageWithoutKeyboard :=
  if chatStatus = ChatStatus.ChatWaitingForWatcherToAdd then
    let r := InsertWatcher db chatId text
    let msg := if r.2 = 0 then "This looks like an invalid or already existing watcher. 🧐" else ""
    (r.1, MakeResponseForWatcherAdded chatId msg)
  else if chatStatus = ChatStatus.ChatWaitingForWatcherToRemove then
    let r := RemoveWatcher db chatId text
    let msg := if r.2 = 0 then "Couldn't find a watcher named like that." else ""
    (r.1, MakeResponseForWatcherRemoved chatId msg)
  else (db, MakeResponseForUnknownCommand chatId)

/-- The handler of `POST /webhook` in `main`, from the decoded `u.Message` on: the message is
logged, then the text is dispatched by its prefix. Returns the database and the response. -/
def webhook (db : DB) (m : WebhookUpdateMessage) : DB × Response :=
  let db := (InsertMessage db
    ⟨m.MessageId, m.From.Id, m.From.FirstName, m.Chat.Id, m.Chat.FirstName, m.Text⟩).1
  let text := m.Text
  let chatId := m.Chat.Id
  let userId := m.From.Id
  if HasPrefix text "/start" then
    let db := (UpdateChatStatus db chatId userId ChatStatus.ChatIdle).1
    let db := (Subscribe db chatId userId).1
    (db, Response.withoutKeyboard (MakeResponseForStartCommand chatId))
  else if HasPrefix text "/stop" then
    let db := (UpdateChatStatus db chatId userId ChatStatus.ChatIdle).1
    let db := (Unsubscribe db chatId userId).1
    (db, Response.withoutKeyboard (MakeResponseForStopCommand chatId))
  else if HasPrefix text "/list" then
    let db := (UpdateChatStatus db chatId userId ChatStatus.ChatIdle).1
    let watchers := GetWatchers db chatId
    (db, Response.withoutKeyboard (MakeResponseForListCommand watchers chatId))
  else if HasPrefix text "/add" then
    let db := (UpdateChatStatus db chatId userId ChatStatus.ChatWaitingForWatcherToAdd).1
    (db, Response.withoutKeyboard (MakeResponseForAddCommand chatId))
  else if HasPrefix text "/remove" then
    let db := (UpdateChatStatus db chatId userId ChatStatus.ChatWaitingForWatcherToRemove).1
    let watchers := GetWatchers db chatId
    (db, Response.withKeyboard (MakeResponseForRemoveCommand watchers chatId))
  else
    let chatStatus := GetChatStatus db chatId userId
    let r := freeText db chatId text chatStatus
    let db := (UpdateChatStatus r.1 chatId userId ChatStatus.ChatIdle).1
    (db, Response.withoutKeyboard r.2)

/-- What `fetchMoviesAndSendUpdates` reaches outside the database: the scraper
`cinemacity.GetRomanianName` (by the film's link), the full-text index behind
`GetWatchersMatchingQuery`, and the `http.Post` of `sendNotification`. A `none`, or `false` for
the post, is the error on which the code calls `log.Fatal`. -/
structure World where
  GetRomanianName : String → Option String
  fts : List WatcherRow → String → Option (List Int)
  post : MethodSendPhoto → Bool

/-- The calls of one pass that the claims count. -/
inductive Event
  | insertFilm (film : storage.Film)
  | matchQuery (filmId : String)
  | sendNotification (n : MethodSendPhoto)
  deriving DecidableEq, Repr

/-- The outcome of a pass: the database, the calls made in order, and whether the pass ran to
its end (`false`: it stopped in `log.Fatal`). -/
structure Pass where
  db : DB
  events : List Event
  completed : Bool
  deriving DecidableEq, Repr

/-- The loop `for _, chatId := range watcherMatches` with `sendNotification` in it: the calls
made, and whether every post went through. -/
def sendNotifications (w : World) : List MethodSendPhoto → List Event × Bool
  | [] => ([], true)
  | n :: rest =>
    if w.post n then
      let r := sendNotifications w rest
      (Event.sendNotification n :: r.1, r.2)
    else ([Event.sendNotification n], false)

/-- The function `fetchMoviesAndSendUpdates` of `main`, from the list that
`cinemacity.GetFilms` returned on: a film whose id is stored is skipped; for the others the
Romanian name is scraped, the film is inserted, the watchers are matched and notified. -/
def fetchMoviesAndSendUpdates (w : World) : DB → List cinemacity.Film → Pass
  | db, [] => ⟨db, [], true⟩
  | db, film :: rest =>
    if FilmExists db film.Id then fetchMoviesAndSendUpdates w db rest
    else
      match w.GetRomanianName film.Link with
      | none => ⟨db, [], false⟩
      | some romanianName =>
        let row : storage.Film := ⟨film.Id, romanianName, film.Name, film.Link, film.PosterLink⟩
        let db1 := (InsertFilm db row).1
        let calls := [Event.insertFilm row, Event.matchQuery film.Id]
        match GetWatchersMatchingQuery w.fts db1 film.Name romanianName with
        | none => ⟨db1, calls, false⟩
        | some watcherMatches =>
          let s := sendNotifications w (watcherMatches.map
            (fun chatId => NewNotification chatId film.Name film.Link film.PosterLink))
          if s.2 then
            let p := fetchMoviesAndSendUpdates w db1 rest
            ⟨p.db, calls ++ s.1 ++ p.events, p.completed⟩
          else ⟨db1, calls ++ s.1, false⟩

/-! ## `config` -/

namespace config

/-- The constant `bufio.MaxScanTokenSize`: the size to which the buffer of a `bufio.Scanner`
grows. -/
def MaxScanTokenSize : Nat := 65536

/-- The pieces that `bufio.ScanLines` cuts the input into, before the carriage return is
dropped: the text up to each `\n`, and the text after the last `\n` when it is not empty.
`cur` holds the runes of the current piece in reverse. -/
def rawLines : List Char → List Char → List (List Char)
  | cur, [] => if cur = [] then [] else [cur.reverse]
  | cur, c :: rest =>
    if c = '\n' then cur.reverse :: rawLines [] rest else rawLines (c :: cur) rest

/-- The function `dropCR` of `bufio`: one trailing `\r` is dropped. -/
def dropCR (l : List Char) : List Char :=
  if l.getLast? = some '\r' then l.dropLast else l

/-- The texts that `scanner.Text()` returns while `scanner.Scan()` is true: the lines of the
input in order. A piece of `MaxScanTokenSize` bytes or more does not fit the buffer together
with its `\n`; there `Scan` stops with `ErrTooLong` and returns false, which ends the loop of
`readFile` (the error is not looked at). -/
def scanLines (text : String) : List String :=
  ((rawLines [] text.data).takeWhile (fun l => len ⟨l⟩ < MaxScanTokenSize)).map
    (fun l => ⟨dropCR l⟩)

/-- The class `[A-Za-z0-9_]` of the first pattern. -/
def isWordRune (c : Char) : Bool :=
  let n := c.toNat
  (0x41 ≤ n && n ≤ 0x5A) || (0x61 ≤ n && n ≤ 0x7A) || (0x30 ≤ n && n ≤ 0x39) || n == 0x5F

/-- The class `\s` of Go's `regexp`: `\t`, `\n`, `\f`, `\r` and the space. -/
def isReSpace (c : Char) : Bool :=
  c = '\t' || c = '\n' || c = '\x0c' || c = '\r' || c = ' '

/-- A match of `([A-Za-z0-9_]+)\s*=\s*(.+)$` that starts at the head of `l`, for a text with
no `\n` in it (a line), as the two groups. The first group is greedy and what follows it is
neither of its class, so it is the whole run of word runes; then all runes of `\s` are taken,
an `=` has to follow, all runes of `\s` are taken again and the second group is the rest of
the line, which has to be non-empty. When only runes of `\s` follow the `=`, the greedy `\s*`
gives the last of them back to the second group. -/
def matchAssignmentAt (l : List Char) : Option (List Char × List Char) :=
  let key := l.takeWhile isWordRune
  if key = [] then none
  else
    match ((l.dropWhile isWordRune).dropWhile isReSpace) with
    | [] => none
    | c :: v =>
      if c = '=' then
        if v.dropWhile isReSpace ≠ [] then some (key, v.dropWhile isReSpace)
        else match v.getLast? with
          | none => none
          | some last => some (key, [last])
      else none

/-- The call `re.FindStringSubmatch(line)` for `re = ([A-Za-z0-9_]+)\s*=\s*(.+)$`: the match
at the leftmost position that has one; `none` when `len(matches) != 3`. -/
def findAssignment : List Char → Option (List Char × List Char)
  | [] => none
  | c :: rest =>
    match matchAssignmentAt (c :: rest) with
    | some groups => some groups
    | none => findAssignment rest

/-- The group of a match of `"(.+[^\\])"` whose opening quote has just been read, for a text
with no `\n` in it: `n` runes of the group have been read, the last of them `last`. The greedy
`.+` is tried with the longer group first; the group can end before the head `c` when `c` is a
quote, the group has two runes or more and its last rune is not a backslash. -/
def closeQuoted (n : Nat) (last : Char) : List Char → Option (List Char)
  | [] => none
  | c :: rest =>
    match closeQuoted (n + 1) c rest with
    | some group => some (c :: group)
    | none => if c = '"' ∧ 2 ≤ n ∧ last ≠ '\\' then some [] else none

/-- The call `re2.FindStringSubmatch(value)` for `re2 = "(.+[^\\])"`: the group of the match
at the leftmost quote that has one; `none` when `len(matches2) != 2`. -/
def findQuoted : List Char → Option (List Char)
  | [] => none
  | c :: rest =>
    if c = '"' then
      match closeQuoted 0 c rest with
      | some group => some group
      | none => findQuoted rest
    else findQuoted rest

/-- The body of the loop of `readFile` on one line: `none` for `continue`, and the key and
the value of the assignment `values[key] = value` otherwise. -/
def parseLine (text : String) : Option (String × String) :=
  let line := TrimSpace text
  if len line = 0 then none
  else
    match findAssignment line.data with
    | none => none
    | some (m1, m2) =>
      let key := TrimSpace ⟨m1⟩
      let value := TrimSpace ⟨m2⟩
      let value :=
        match findQuoted value.data with
        | none => (Split value '#').headD ""
        | some group => ⟨group⟩
      some (key, TrimCutset value "\" ")

/-- The assignment `values[key] = value` on a Go map, kept as the list of its entries in the
order in which the keys were first set. -/
def mapSet : List (String × String) → String → String → List (String × String)
  | [], key, value => [(key, value)]
  | (k, v) :: rest, key, value =>
    if k = key then (k, value) :: rest else (k, v) :: mapSet rest key value

/-- One pass through the loop of `readFile`: the map after the line. -/
def setLine (values : List (String × String)) (line : String) : List (String × String) :=
  match parseLine line with
  | none => values
  | some (key, value) => mapSet values key value

/-- The function `config.readFile` on the text of the file: the map of the values. -/
def readFile (text : String) : List (String × String) :=
  (scanLines text).foldl setLine []

end config

/-! ## Definitions used to state the claims -/

/-- The code points of the class whose lower-case form lies outside the class: capital letters
of U+0180..U+024F whose small form is in the IPA block (U+0250..U+02AF) or is U+2C65, U+2C66. -/
def escapingCodes : List Nat :=
  [0x181, 0x186, 0x189, 0x18A, 0x18F, 0x190, 0x193, 0x194, 0x196, 0x197, 0x19C, 0x19D,
   0x19F, 0x1A6, 0x1A9, 0x1AE, 0x1B1, 0x1B2, 0x1B7, 0x23A, 0x23E, 0x244, 0x245]

/-- The facts about `toLowerCode` that are checked code point by code point over the ranges of
the case table: the result is a valid rune below the surrogates, lower-casing it again changes
nothing, neither the rune nor its result is the space, and the result leaves the class exactly
for the code points of `escapingCodes`. -/
def LowerFacts (n : Nat) : Prop :=
  toLowerCode n < 0xD800 ∧ toLowerCode (toLowerCode n) = toLowerCode n ∧
    toLowerCode n ≠ 0x20 ∧ n ≠ 0x20 ∧
    (inClassCode (toLowerCode n) = false ↔ n ∈ escapingCodes)

instance instDecidableLowerFacts (n : Nat) : Decidable (LowerFacts n) := by
  unfold LowerFacts; infer_instance

/-- One edit of a string of the kinds under which the normaliser is claimed not to change:
the case of one ASCII letter is changed (`lower`, `upper`), one rune that is neither a letter
of the class nor a space is inserted or deleted, or a run of `m ≥ 1` spaces is given another
length `n ≥ 1`. -/
inductive Edit : String → String → Prop
  | lower (l r : List Char) (c d : Char) :
      0x41 ≤ c.toNat → c.toNat ≤ 0x5A → d.toNat = c.toNat + 32 → Edit ⟨l ++ c :: r⟩ ⟨l ++ d :: r⟩
  | upper (l r : List Char) (c d : Char) :
      0x41 ≤ c.toNat → c.toNat ≤ 0x5A → d.toNat = c.toNat + 32 → Edit ⟨l ++ d :: r⟩ ⟨l ++ c :: r⟩
  | insert (l r : List Char) (j : Char) : inClass j = false → Edit ⟨l ++ r⟩ ⟨l ++ j :: r⟩
  | delete (l r : List Char) (j : Char) : inClass j = false → Edit ⟨l ++ j :: r⟩ ⟨l ++ r⟩
  | spaces (l r : List Char) (m n : Nat) : 1 ≤ m → 1 ≤ n →
      Edit ⟨l ++ List.replicate m ' ' ++ r⟩ ⟨l ++ List.replicate n ' ' ++ r⟩

/-- Any number of edits, one after the other. -/
def Edits : String → String → Prop := Relation.ReflTransGen Edit

/-- One call of an exported operation of `storage` that writes to the database. -/
inductive Step : DB → DB → Prop
  | insertFilm (db : DB) (film : storage.Film) : Step db (InsertFilm db film).1
  | insertMessage (db : DB) (m : Message) : Step db (InsertMessage db m).1
  | updateChatStatus (db : DB) (chatId userId : Int) (status : ChatStatus) :
      Step db (UpdateChatStatus db chatId userId status).1
  | subscribe (db : DB) (chatId userId : Int) : Step db (Subscribe db chatId userId).1
  | unsubscribe (db : DB) (chatId userId : Int) : Step db (Unsubscribe db chatId userId).1
  | insertWatcher (db : DB) (chatId : Int) (keywords : String) :
      Step db (InsertWatcher db chatId keywords).1
  | removeWatcher (db : DB) (chatId : Int) (keywords : String) :
      Step db (RemoveWatcher db chatId keywords).1

/-- The databases that calls of the operations produce from the empty database. -/
def Reachable (db : DB) : Prop := Relation.ReflTransGen Step DB.empty db

/-- The rows of table `chats` for one `(chatId, userId)`. -/
def chatRows (db : DB) (chatId userId : Int) : List ChatRow :=
  db.chats.filter (isChat chatId userId)

/-- The text starts with one of the five command prefixes of the webhook handler. -/
def isCommand (text : String) : Bool :=
  HasPrefix text "/start" || HasPrefix text "/stop" || HasPrefix text "/list" ||
    HasPrefix text "/add" || HasPrefix text "/remove"

/-- The ids handed to `InsertFilm` in a pass, in order. -/
def insertedIds (p : Pass) : List String :=
  p.events.filterMap (fun e => match e with
    | Event.insertFilm film => some film.Id
    | _ => none)

/-- The rows handed to `InsertFilm` in a pass, in order. -/
def insertedFilms (p : Pass) : List storage.Film :=
  p.events.filterMap (fun e => match e with
    | Event.insertFilm film => some film
    | _ => none)

/-- The ids of the films for which the match-and-notify step ran in a pass, in order. -/
def matchedIds (p : Pass) : List String :=
  p.events.filterMap (fun e => match e with
    | Event.matchQuery filmId => some filmId
    | _ => none)

/-- A webhook message with the given chat, sender and text (the other fields empty). -/
def textMessage (chatId userId : Int) (text : String) : WebhookUpdateMessage :=
  ⟨0, ⟨userId, false, "", ""⟩, ⟨chatId, "", ""⟩, 0, text⟩

/-- A world for the examples: the scraper answers `RO ` followed by the link, the index
answers with the chats of all watchers, and every post goes through. -/
def exampleWorld : World :=
  ⟨fun link => some ("RO " ++ link), fun ws _ => some (ws.map (·.chat_id)), fun _ => true⟩

/-- The text that `TestReadFile` writes to the buffer. -/
def testText : String :=
  "\nKEY_01=VALUE_01\n  WITH_SPACES = stuff  \n\n# the above line is ignored and this one is ignored as well\nin_quotes=\"quoted!\" ignored\nhas_comments=actual_value5 # comment\nHAS_HASH_IN_QUOTES=\"ab#cd\" # comment\nHAS_ESCAPED_QUOTES_AND_HASHES=\"ab#c\\\"de\\#fg\" #comment\nHAS_ESCAPED_QUOTES_AND_HASHES_AND_SPACES = \"  ab#c\\\"d e\\#fg \" # comment\nHAS_VARIOUS_CHARS_IN_QUOTES = \"±!@#$%^&*()\\\")~<>?|👁:\" # comment\n\t"

/-- The table of `TestReadFile`: the entries it expects, in the order of the lines. -/
def testTable : List (String × String) :=
  [("KEY_01", "VALUE_01"), ("WITH_SPACES", "stuff"), ("in_quotes", "quoted!"),
   ("has_comments", "actual_value5"), ("HAS_HASH_IN_QUOTES", "ab#cd"),
   ("HAS_ESCAPED_QUOTES_AND_HASHES", "ab#c\\\"de\\#fg"),
   ("HAS_ESCAPED_QUOTES_AND_HASHES_AND_SPACES", "ab#c\\\"d e\\#fg"),
   ("HAS_VARIOUS_CHARS_IN_QUOTES", "±!@#$%^&*()\\\")~<>?|👁:")]

/-- What holds of a row that the loop has closed: it is not empty, it has reached 30 bytes,
and its buttons before the last one total fewer than 30 bytes. -/
def ClosedRow (r : List String) : Prop :=
  r ≠ [] ∧ charsInSliceOfStrings r.dropLast < 30 ∧ 30 ≤ charsInSliceOfStrings r

/-- No space of the text is followed by another space. -/
def noDoubleSpace : List Char → Prop
  | [] => True
  | c :: rest => ¬(c = ' ' ∧ rest.head? = some ' ') ∧ noDoubleSpace rest

/-! ## Lemmas on `unicode.ToLower` -/

theorem unicodeTo_of_not_mem (r : Nat) (tbl : List (Nat × Nat × Option Int))
    (h : ∀ e ∈ tbl, ¬(e.1 ≤ r ∧ r ≤ e.2.1)) : unicodeTo r tbl = r := by
  induction tbl with
  | nil => rfl
  | cons e rest ih =>
    obtain ⟨lo, hi, d⟩ := e
    have h1 : ¬(lo ≤ r ∧ r ≤ hi) := h (lo, hi, d) (List.mem_cons_self _ _)
    simp only [unicodeTo, if_neg h1]
    exact ih (fun e he => h e (List.mem_cons_of_mem _ he))

theorem caseRanges_within : ∀ e ∈ caseRanges,
    (0x41 ≤ e.1 ∧ e.2.1 ≤ 0x5A) ∨ (0xC0 ≤ e.1 ∧ e.2.1 ≤ 0x24F) ∨
      (0x1E00 ≤ e.1 ∧ e.2.1 ≤ 0x1EFF) := by
  decide

theorem toLowerCode_outside (n : Nat)
    (h : ¬(0x41 ≤ n ∧ n ≤ 0x5A) ∧ ¬(0xC0 ≤ n ∧ n ≤ 0x24F) ∧ ¬(0x1E00 ≤ n ∧ n ≤ 0x1EFF)) :
    toLowerCode n = n := by
  apply unicodeTo_of_not_mem
  intro e he
  have := caseRanges_within e he
  omega

theorem lowerFacts_ascii : ∀ k, k < 26 → LowerFacts (0x41 + k) ∧ toLowerCode (0x41 + k) = 0x61 + k := by
  decide!

set_option maxRecDepth 100000 in
theorem lowerFacts_latin : ∀ k, k < 400 → LowerFacts (0xC0 + k) := by
  decide!

set_option maxRecDepth 100000 in
theorem lowerFacts_additional : ∀ k, k < 256 → LowerFacts (0x1E00 + k) := by
  decide!

theorem escapingCodes_within : ∀ e ∈ escapingCodes, 0xC0 ≤ e ∧ e ≤ 0x24F := by
  decide

/-- The checked facts, for every code point that lies in a range of the case table. -/
theorem lowerFacts_of_inRange (n : Nat)
    (h : (0x41 ≤ n ∧ n ≤ 0x5A) ∨ (0xC0 ≤ n ∧ n ≤ 0x24F) ∨ (0x1E00 ≤ n ∧ n ≤ 0x1EFF)) :
    LowerFacts n := by
  rcases h with h | h | h
  · have := (lowerFacts_ascii (n - 0x41) (by omega)).1
    rwa [show 0x41 + (n - 0x41) = n by omega] at this
  · have := lowerFacts_latin (n - 0xC0) (by omega)
    rwa [show 0xC0 + (n - 0xC0) = n by omega] at this
  · have := lowerFacts_additional (n - 0x1E00) (by omega)
    rwa [show 0x1E00 + (n - 0x1E00) = n by omega] at this

theorem toLowerCode_cases (n : Nat) : LowerFacts n ∨ toLowerCode n = n := by
  by_cases h : (0x41 ≤ n ∧ n ≤ 0x5A) ∨ (0xC0 ≤ n ∧ n ≤ 0x24F) ∨ (0x1E00 ≤ n ∧ n ≤ 0x1EFF)
  · exact Or.inl (lowerFacts_of_inRange n h)
  · exact Or.inr (toLowerCode_outside n (by omega))

theorem toLowerCode_idem (n : Nat) : toLowerCode (toLowerCode n) = toLowerCode n := by
  rcases toLowerCode_cases n with h | h
  · exact h.2.1
  · rw [h, h]

theorem toLowerCode_eq_space (n : Nat) : toLowerCode n = 0x20 ↔ n = 0x20 := by
  rcases toLowerCode_cases n with h | h
  · exact ⟨fun e => absurd e h.2.2.1, fun e => absurd e h.2.2.2.1⟩
  · rw [h]

theorem toLowerCode_upper (n : Nat) (h : 0x41 ≤ n ∧ n ≤ 0x5A) : toLowerCode n = n + 32 := by
  have := (lowerFacts_ascii (n - 0x41) (by omega)).2
  rw [show 0x41 + (n - 0x41) = n by omega] at this
  omega

theorem toLowerCode_small (n : Nat) (h : 0x61 ≤ n ∧ n ≤ 0x7A) : toLowerCode n = n :=
  toLowerCode_outside n (by omega)

/-- A code point of the class leaves it under `toLowerCode` exactly when it is listed. -/
theorem escapes_iff (n : Nat) :
    (inClassCode n = true ∧ inClassCode (toLowerCode n) = false) ↔ n ∈ escapingCodes := by
  by_cases h : (0x41 ≤ n ∧ n ≤ 0x5A) ∨ (0xC0 ≤ n ∧ n ≤ 0x24F) ∨ (0x1E00 ≤ n ∧ n ≤ 0x1EFF)
  · have hf := (lowerFacts_of_inRange n h).2.2.2.2
    have hc : inClassCode n = true := by
      simp only [inClassCode, Bool.or_eq_true, Bool.and_eq_true, decide_eq_true_eq, beq_iff_eq]
      omega
    constructor
    · exact fun hh => hf.1 hh.2
    · exact fun hh => ⟨hc, hf.2 hh⟩
  · have hid := toLowerCode_outside n (by omega)
    rw [hid]
    constructor
    · rintro ⟨h1, h2⟩
      rw [h1] at h2
      exact absurd h2 (by decide)
    · intro hm
      have := escapingCodes_within n hm
      omega

/-! ## Lemmas on runes -/

theorem toNat_ofNat_of_lt (m : Nat) (h : m < 0xD800) : (Char.ofNat m).toNat = m := by
  unfold Char.ofNat
  have hv : m.isValidChar := Or.inl h
  rw [dif_pos hv]
  simp only [Char.ofNatAux, Char.toNat]
  show (UInt32.ofNat' m _).toNat = m
  simp [UInt32.ofNat', UInt32.toNat]

theorem toNat_ToLowerRune (c : Char) : (ToLowerRune c).toNat = toLowerCode c.toNat := by
  unfold ToLowerRune
  rcases toLowerCode_cases c.toNat with h | h
  · exact toNat_ofNat_of_lt _ h.1
  · rw [h, Char.ofNat_toNat]

theorem eq_of_toNat_eq {c d : Char} (h : c.toNat = d.toNat) : c = d := by
  rw [← Char.ofNat_toNat c, ← Char.ofNat_toNat d, h]

theorem ToLowerRune_idem (c : Char) : ToLowerRune (ToLowerRune c) = ToLowerRune c := by
  apply eq_of_toNat_eq
  rw [toNat_ToLowerRune, toNat_ToLowerRune, toLowerCode_idem]

theorem ToLowerRune_eq_space (c : Char) : ToLowerRune c = ' ' ↔ c = ' ' := by
  constructor
  · intro h
    apply eq_of_toNat_eq
    have := congrArg Char.toNat h
    rw [toNat_ToLowerRune] at this
    exact (toLowerCode_eq_space _).1 this
  · rintro rfl
    decide

theorem inClass_ToLowerRune (c : Char) : inClass (ToLowerRune c) = inClassCode (toLowerCode c.toNat) := by
  unfold inClass
  rw [toNat_ToLowerRune]

/-- A rune of the class stays in the class under `ToLowerRune` unless its code point is
listed in `escapingCodes`. -/
theorem inClass_ToLowerRune_of_not_escaping (c : Char) (hc : inClass c = true)
    (he : c.toNat ∉ escapingCodes) : inClass (ToLowerRune c) = true := by
  rw [inClass_ToLowerRune]
  by_contra hcon
  exact he ((escapes_iff _).1 ⟨hc, by simpa using hcon⟩)

theorem not_inClass_ToLowerRune_of_escaping (c : Char) (he : c.toNat ∈ escapingCodes) :
    inClass c = true ∧ inClass (ToLowerRune c) = false := by
  rw [inClass_ToLowerRune]
  exact (escapes_iff _).2 he

/-! ## Lemmas on the two replacements -/

theorem replaceR2_cons (c : Char) (rest : List Char) :
    replaceR2 (c :: rest) =
      if c = ' ' ∧ rest.head? = some ' ' then replaceR2 rest else c :: replaceR2 rest := by
  rw [replaceR2]

theorem head?_replaceR2 (l : List Char) : (replaceR2 l).head? = l.head? := by
  induction l with
  | nil => rfl
  | cons c rest ih =>
    unfold replaceR2
    split
    · rename_i h
      rw [ih, h.2, h.1]; rfl
    · rfl

theorem replaceR2_idem (l : List Char) : replaceR2 (replaceR2 l) = replaceR2 l := by
  induction l with
  | nil => rfl
  | cons c rest ih =>
    by_cases h : c = ' ' ∧ rest.head? = some ' '
    · rw [show replaceR2 (c :: rest) = replaceR2 rest by simp only [replaceR2, if_pos h]]
      exact ih
    · rw [show replaceR2 (c :: rest) = c :: replaceR2 rest by simp only [replaceR2, if_neg h]]
      have h2 : ¬(c = ' ' ∧ (replaceR2 rest).head? = some ' ') := by
        rw [head?_replaceR2]; exact h
      simp only [replaceR2, if_neg h2, ih]

theorem map_replaceR2 (l : List Char) :
    (replaceR2 l).map ToLowerRune = replaceR2 (l.map ToLowerRune) := by
  induction l with
  | nil => rfl
  | cons c rest ih =>
    have hiff : (c = ' ' ∧ rest.head? = some ' ') ↔
        (ToLowerRune c = ' ' ∧ (rest.map ToLowerRune).head? = some ' ') := by
      rw [ToLowerRune_eq_space]
      cases rest with
      | nil => simp
      | cons d r => simp [ToLowerRune_eq_space]
    by_cases h : c = ' ' ∧ rest.head? = some ' '
    · simp only [replaceR2, if_pos h, List.map_cons, if_pos (hiff.1 h), ih]
    · simp only [replaceR2, if_neg h, List.map_cons, if_neg (fun hh => h (hiff.2 hh)), ih]

theorem mem_of_mem_replaceR2 (l : List Char) (c : Char) (h : c ∈ replaceR2 l) : c ∈ l := by
  induction l with
  | nil => simp [replaceR2] at h
  | cons d rest ih =>
    unfold replaceR2 at h
    split at h
    · exact List.mem_cons_of_mem _ (ih h)
    · rcases List.mem_cons.1 h with h | h
      · exact h ▸ List.mem_cons_self _ _
      · exact List.mem_cons_of_mem _ (ih h)

theorem mem_replaceR2_of_ne_space (l : List Char) (c : Char) (hc : c ≠ ' ') (h : c ∈ l) :
    c ∈ replaceR2 l := by
  induction l with
  | nil => simp at h
  | cons d rest ih =>
    unfold replaceR2
    rcases List.mem_cons.1 h with h | h
    · subst h
      rw [if_neg (fun hh => hc hh.1)]
      exact List.mem_cons_self _ _
    · split
      · exact ih h
      · exact List.mem_cons_of_mem _ (ih h)

/-- Two spaces in a row count as one for the second replacement. -/
theorem replaceR2_two_spaces (a b : List Char) :
    replaceR2 (a ++ ' ' :: ' ' :: b) = replaceR2 (a ++ ' ' :: b) := by
  induction a with
  | nil => simp [replaceR2]
  | cons x a ih =>
    have hh : (a ++ ' ' :: ' ' :: b).head? = (a ++ ' ' :: b).head? := by
      cases a <;> rfl
    rw [List.cons_append, List.cons_append, replaceR2_cons, replaceR2_cons, hh, ih]

theorem replaceR2_spaces (a b : List Char) (m : Nat) :
    replaceR2 (a ++ List.replicate (m + 1) ' ' ++ b) = replaceR2 (a ++ ' ' :: b) := by
  induction m with
  | zero => simp
  | succ m ih =>
    rw [← ih]
    have : a ++ List.replicate (m + 1 + 1) ' ' ++ b
        = a ++ ' ' :: ' ' :: (List.replicate m ' ' ++ b) := by
      simp [List.replicate_succ]
    rw [this, replaceR2_two_spaces]
    simp [List.replicate_succ]

/-- The normaliser with the lower-casing done before the second replacement. -/
theorem normaliseRunes_eq (l : List Char) :
    normaliseRunes l = replaceR2 ((replaceR1 l).map ToLowerRune) := by
  unfold normaliseRunes ToLower
  exact map_replaceR2 _

theorem replaceR1_eq_self (l : List Char) (h : ∀ c ∈ l, inClass c = true) : replaceR1 l = l :=
  List.filter_eq_self.2 h

theorem inClass_of_mem_normaliseRunes_of_not_escaping (l : List Char)
    (h : ∀ c ∈ l, c.toNat ∉ escapingCodes) :
    ∀ c ∈ (replaceR1 l).map ToLowerRune, inClass c = true := by
  intro c hc
  obtain ⟨d, hd, rfl⟩ := List.mem_map.1 hc
  have hd2 := List.mem_filter.1 hd
  exact inClass_ToLowerRune_of_not_escaping d hd2.2 (h d hd2.1)

theorem map_ToLowerRune_idem (l : List Char) :
    (l.map ToLowerRune).map ToLowerRune = l.map ToLowerRune := by
  rw [List.map_map]
  apply List.map_congr_left
  intro c _
  exact ToLowerRune_idem c

/-- Normalising twice is normalising once exactly when no rune of the string is one of the
capital letters whose lower-case form is outside the class. -/
theorem normaliseRunes_idem_iff (l : List Char) :
    normaliseRunes (normaliseRunes l) = normaliseRunes l ↔
      ∀ c ∈ l, c.toNat ∉ escapingCodes := by
  constructor
  · intro heq c hc hesc
    obtain ⟨hin, hout⟩ := not_inClass_ToLowerRune_of_escaping c hesc
    have hne : ToLowerRune c ≠ ' ' := by
      intro hsp
      rw [hsp] at hout
      exact absurd hout (by decide)
    have h1 : ToLowerRune c ∈ normaliseRunes l := by
      rw [normaliseRunes_eq]
      apply mem_replaceR2_of_ne_space _ _ hne
      exact List.mem_map.2 ⟨c, List.mem_filter.2 ⟨hc, hin⟩, rfl⟩
    rw [← heq] at h1
    unfold normaliseRunes ToLower at h1
    obtain ⟨d, hd, hdc⟩ := List.mem_map.1 h1
    have hd1 := List.mem_filter.1 (mem_of_mem_replaceR2 _ _ hd)
    obtain ⟨e, _, hed⟩ := List.mem_map.1 hd1.1
    have : ToLowerRune c = d := by
      rw [← hdc, ← hed, ToLowerRune_idem]
    rw [this, hd1.2] at hout
    exact absurd hout (by decide)
  · intro h
    have hy := inClass_of_mem_normaliseRunes_of_not_escaping l h
    have hN : normaliseRunes l = replaceR2 ((replaceR1 l).map ToLowerRune) :=
      normaliseRunes_eq l
    rw [normaliseRunes_eq (normaliseRunes l), hN]
    rw [replaceR1_eq_self _ (fun c hc => hy c (mem_of_mem_replaceR2 _ _ hc))]
    rw [map_replaceR2, map_ToLowerRune_idem, replaceR2_idem]

theorem inClass_upper (c : Char) (h1 : 0x41 ≤ c.toNat) (h2 : c.toNat ≤ 0x5A) :
    inClass c = true := by
  simp only [inClass, inClassCode, Bool.or_eq_true, Bool.and_eq_true, decide_eq_true_eq,
    beq_iff_eq]
  omega

theorem inClass_small (c : Char) (h1 : 0x61 ≤ c.toNat) (h2 : c.toNat ≤ 0x7A) :
    inClass c = true := by
  simp only [inClass, inClassCode, Bool.or_eq_true, Bool.and_eq_true, decide_eq_true_eq,
    beq_iff_eq]
  omega

/-- An ASCII capital and its small letter have the same lower-case form. -/
theorem ToLowerRune_upper_eq (c d : Char) (h1 : 0x41 ≤ c.toNat) (h2 : c.toNat ≤ 0x5A)
    (hd : d.toNat = c.toNat + 32) : ToLowerRune c = ToLowerRune d := by
  apply eq_of_toNat_eq
  rw [toNat_ToLowerRune, toNat_ToLowerRune, toLowerCode_upper _ ⟨h1, h2⟩,
    toLowerCode_small _ (by omega), hd]

theorem normaliseRunes_case (l r : List Char) (c d : Char) (h1 : 0x41 ≤ c.toNat)
    (h2 : c.toNat ≤ 0x5A) (hd : d.toNat = c.toNat + 32) :
    normaliseRunes (l ++ c :: r) = normaliseRunes (l ++ d :: r) := by
  have hc : inClass c = true := inClass_upper c h1 h2
  have hd2 : inClass d = true := inClass_small d (by omega) (by omega)
  rw [normaliseRunes_eq, normaliseRunes_eq]
  simp only [replaceR1, List.filter_append, List.filter_cons, hc, hd2, if_true, List.map_append,
    List.map_cons, ToLowerRune_upper_eq c d h1 h2 hd]

theorem normaliseRunes_junk (l r : List Char) (j : Char) (hj : inClass j = false) :
    normaliseRunes (l ++ j :: r) = normaliseRunes (l ++ r) := by
  unfold normaliseRunes replaceR1
  simp [List.filter_append, List.filter_cons, hj]

theorem replaceR1_replicate_space (m : Nat) :
    replaceR1 (List.replicate m ' ') = List.replicate m ' ' :=
  replaceR1_eq_self _ (fun c hc => by rw [List.eq_of_mem_replicate hc]; decide)

theorem map_ToLowerRune_replicate_space (m : Nat) :
    (List.replicate m ' ').map ToLowerRune = List.replicate m ' ' := by
  rw [List.map_replicate]; rfl

theorem normaliseRunes_spaces (l r : List Char) (m n : Nat) (hm : 1 ≤ m) (hn : 1 ≤ n) :
    normaliseRunes (l ++ List.replicate m ' ' ++ r) =
      normaliseRunes (l ++ List.replicate n ' ' ++ r) := by
  obtain ⟨m, rfl⟩ : ∃ k, m = k + 1 := ⟨m - 1, by omega⟩
  obtain ⟨n, rfl⟩ : ∃ k, n = k + 1 := ⟨n - 1, by omega⟩
  rw [normaliseRunes_eq, normaliseRunes_eq]
  have key : ∀ k, ((replaceR1 (l ++ List.replicate k ' ' ++ r)).map ToLowerRune)
      = (replaceR1 l).map ToLowerRune ++ List.replicate k ' ' ++ (replaceR1 r).map ToLowerRune := by
    intro k
    have : replaceR1 (l ++ List.replicate k ' ' ++ r)
        = replaceR1 l ++ replaceR1 (List.replicate k ' ') ++ replaceR1 r := by
      simp [replaceR1, List.filter_append]
    rw [this, replaceR1_replicate_space, List.map_append, List.map_append,
      map_ToLowerRune_replicate_space]
  rw [key, key, replaceR2_spaces, replaceR2_spaces]

theorem normaliseString_of_edit {s t : String} (h : Edit s t) :
    NormaliseString s = NormaliseString t := by
  unfold NormaliseString
  congr 1
  cases h with
  | lower l r c d h1 h2 hd => exact normaliseRunes_case l r c d h1 h2 hd
  | upper l r c d h1 h2 hd => exact (normaliseRunes_case l r c d h1 h2 hd).symm
  | insert l r j hj => exact (normaliseRunes_junk l r j hj).symm
  | delete l r j hj => exact normaliseRunes_junk l r j hj
  | spaces l r m n hm hn => exact normaliseRunes_spaces l r m n hm hn

theorem normaliseString_of_edits {s t : String} (h : Edits s t) :
    NormaliseString s = NormaliseString t := by
  induction h with
  | refl => rfl
  | tail _ hbc ih => exact ih.trans (normaliseString_of_edit hbc)

/-! ## The second replacement on runs of spaces

The three lemmas describe `replaceR2` run by run, as the pattern ` {2,}` reads the text: a
rune that is not a space is copied, and a maximal run of spaces, of any length, is written
as one space. -/

theorem replaceR2_cons_of_ne (c : Char) (rest : List Char) (hc : c ≠ ' ') :
    replaceR2 (c :: rest) = c :: replaceR2 rest := by
  rw [replaceR2_cons, if_neg (fun h => hc h.1)]

theorem replaceR2_run_end (n : Nat) : replaceR2 (List.replicate (n + 1) ' ') = [' '] := by
  have h := replaceR2_spaces [] [] n
  simp only [List.nil_append, List.append_nil] at h
  rw [h]
  rfl

theorem replaceR2_run (n : Nat) (c : Char) (rest : List Char) (hc : c ≠ ' ') :
    replaceR2 (List.replicate (n + 1) ' ' ++ c :: rest) = ' ' :: c :: replaceR2 rest := by
  have h := replaceR2_spaces [] (c :: rest) n
  simp only [List.nil_append] at h
  rw [h, replaceR2_cons, if_neg, replaceR2_cons_of_ne c rest hc]
  intro hh
  simp only [List.head?_cons, Option.some.injEq] at hh
  exact hc hh.2

/-! ## Claims on the normaliser -/

/-- C1, as stated, fails: the capital letter U+0181 is in the class, its lower-case form
U+0253 is not, so normalising once gives U+0253 and normalising again gives the empty
string. -/
theorem C1_not_idempotent :
    NormaliseString (NormaliseString "Ɓ") ≠ NormaliseString "Ɓ" := by
  decide

/-- C1, amended: `NormaliseString (NormaliseString s) = NormaliseString s` holds exactly for
the strings `s` that contain none of the 23 capital letters of `escapingCodes`, the letters of
the class whose lower-case form is outside the class; so it holds for every string whose
letters are ASCII. -/
theorem C1_idempotent_iff (s : String) :
    NormaliseString (NormaliseString s) = NormaliseString s ↔
      ∀ c ∈ s.data, c.toNat ∉ escapingCodes := by
  rw [← normaliseRunes_idem_iff]
  unfold NormaliseString
  constructor
  · intro h
    exact congrArg String.data h
  · intro h
    exact congrArg String.mk h

/-- C2: if `t` is obtained from `s` by changing the case of ASCII letters, by inserting or
deleting runes that are neither letters of the class nor spaces, or by changing the length of
runs of one or more spaces to another length of one or more, then both normalise to the same
string; and `"Fight Club!!"` and `"fight   club"` both normalise to `"fight club"`. -/
theorem C2_case_punctuation_insensitive (s t : String) (h : Edits s t) :
    NormaliseString s = NormaliseString t ∧
      NormaliseString "Fight Club!!" = "fight club" ∧
      NormaliseString "fight   club" = "fight club" :=
  ⟨normaliseString_of_edits h, by decide, by decide⟩

/-- C2 at `"Fight Club!!"` and `"fight   club"`: the second is reached from the first by
lowering `F` and `C`, deleting the two exclamation marks and growing the space to three. -/
theorem C2_case_punctuation_insensitive_witness :
    Edits "Fight Club!!" "fight   club" ∧
      NormaliseString "Fight Club!!" = NormaliseString "fight   club" :=
  have h : Edits "Fight Club!!" "fight   club" :=
    Relation.ReflTransGen.refl
      |>.tail (Edit.lower [] "ight Club!!".data 'F' 'f' (by decide) (by decide) (by decide))
      |>.tail (Edit.lower "fight ".data "lub!!".data 'C' 'c' (by decide) (by decide) (by decide))
      |>.tail (Edit.delete "fight club".data "!".data '!' (by decide))
      |>.tail (Edit.delete "fight club".data [] '!' (by decide))
      |>.tail (Edit.spaces "fight".data "club".data 1 3 (by decide) (by decide))
  ⟨h, (C2_case_punctuation_insensitive _ _ h).1⟩

/-! ## Lemmas on the storage operations -/

@[simp] theorem InsertFilm_watchers (db : DB) (f : storage.Film) :
    (InsertFilm db f).1.watchers = db.watchers := rfl

@[simp] theorem InsertFilm_chats (db : DB) (f : storage.Film) :
    (InsertFilm db f).1.chats = db.chats := rfl

@[simp] theorem InsertMessage_watchers (db : DB) (m : Message) :
    (InsertMessage db m).1.watchers = db.watchers := rfl

@[simp] theorem InsertMessage_chats (db : DB) (m : Message) :
    (InsertMessage db m).1.chats = db.chats := rfl

@[simp] theorem InsertMessage_films (db : DB) (m : Message) :
    (InsertMessage db m).1.films = db.films := rfl

@[simp] theorem UpdateChatStatus_watchers (db : DB) (c u : Int) (st : ChatStatus) :
    (UpdateChatStatus db c u st).1.watchers = db.watchers := by
  unfold UpdateChatStatus; split <;> rfl

@[simp] theorem Subscribe_watchers (db : DB) (c u : Int) :
    (Subscribe db c u).1.watchers = db.watchers := by
  unfold Subscribe; split <;> rfl

@[simp] theorem Unsubscribe_watchers (db : DB) (c u : Int) :
    (Unsubscribe db c u).1.watchers = db.watchers := by
  unfold Unsubscribe; split <;> rfl

@[simp] theorem InsertWatcher_chats (db : DB) (c : Int) (k : String) :
    (InsertWatcher db c k).1.chats = db.chats := by
  unfold InsertWatcher; simp only; split_ifs <;> rfl

@[simp] theorem RemoveWatcher_chats (db : DB) (c : Int) (k : String) :
    (RemoveWatcher db c k).1.chats = db.chats := by
  unfold RemoveWatcher; split <;> rfl

/-- What `InsertWatcher` does to table `watchers`: nothing, with no row affected, or one row is
added whose normalised keywords are `NormaliseString` of its trimmed, non-empty keywords. -/
theorem InsertWatcher_cases (db : DB) (c : Int) (k : String) :
    (InsertWatcher db c k = (db, 0) ∧
        (len (Trim k) = 0 ∨ watcherExists db c (Trim k) = true)) ∨
      ((InsertWatcher db c k).2 = 1 ∧ len (Trim k) ≠ 0 ∧ watcherExists db c (Trim k) = false ∧
        (InsertWatcher db c k).1.watchers =
          db.watchers ++ [⟨c, Trim k, NormaliseString (Trim k)⟩]) := by
  unfold InsertWatcher
  simp only
  by_cases h1 : len (Trim k) = 0
  · simp [h1]
  · by_cases h2 : watcherExists db c (Trim k) = true
    · simp [h1, h2]
    · simp [h1, h2]

/-- What `RemoveWatcher` does to table `watchers`: rows are taken out, none is changed. -/
theorem RemoveWatcher_watchers (db : DB) (c : Int) (k : String) :
    (RemoveWatcher db c k).1.watchers = db.watchers ∨
      (RemoveWatcher db c k).1.watchers = db.watchers.filter (fun w => !isWatcher c k w) := by
  unfold RemoveWatcher
  split
  · exact Or.inl rfl
  · exact Or.inr rfl

/-- A step leaves the rows of `watchers` as they are, takes rows out, or adds one row at the
end whose normalised keywords are derived from its keywords. -/
theorem Step_watchers {db db' : DB} (h : Step db db') :
    db'.watchers.Sublist db.watchers ∨
      ∃ c kw, db'.watchers = db.watchers ++ [⟨c, kw, NormaliseString kw⟩] := by
  cases h with
  | insertFilm f => exact Or.inl (by simp)
  | insertMessage m => exact Or.inl (by simp)
  | updateChatStatus c u st => exact Or.inl (by simp)
  | subscribe c u => exact Or.inl (by simp)
  | unsubscribe c u => exact Or.inl (by simp)
  | insertWatcher c k =>
    rcases InsertWatcher_cases db c k with h | h
    · exact Or.inl (by rw [h.1])
    · exact Or.inr ⟨c, Trim k, h.2.2.2⟩
  | removeWatcher c k =>
    rcases RemoveWatcher_watchers db c k with h | h
    · exact Or.inl (by rw [h])
    · exact Or.inl (by rw [h]; exact List.filter_sublist _)

/-- An invariant of table `watchers` that holds of the empty table, survives taking rows out
and holds of every row that `InsertWatcher` adds, holds in every reachable database. -/
theorem Reachable_watchers_forall (P : WatcherRow → Prop)
    (hP : ∀ (c : Int) (k : String), len (Trim k) ≠ 0 → P ⟨c, Trim k, NormaliseString (Trim k)⟩)
    {db : DB} (h : Reachable db) : ∀ w ∈ db.watchers, P w := by
  induction h with
  | refl => intro w hw; simp [DB.empty] at hw
  | @tail b _ _ hstep ih =>
    cases hstep with
    | insertFilm f => simpa using ih
    | insertMessage m => simpa using ih
    | updateChatStatus c u st => simpa using ih
    | subscribe c u => simpa using ih
    | unsubscribe c u => simpa using ih
    | insertWatcher c k =>
      rcases InsertWatcher_cases b c k with h | h
      · rw [h.1]; exact ih
      · intro w hw
        rw [h.2.2.2] at hw
        rcases List.mem_append.1 hw with hw | hw
        · exact ih w hw
        · rw [List.mem_singleton.1 hw]; exact hP c k h.2.1
    | removeWatcher c k =>
      rcases RemoveWatcher_watchers b c k with h | h
      · rw [h]; exact ih
      · intro w hw
        rw [h] at hw
        exact ih w (List.mem_filter.1 hw).1

/-! ## Lemmas on `Trim` and on the `NOCASE` comparison -/

/-- The runes of `Trim s`, with Mathlib's name for dropping at the right end. -/
theorem Trim_data (s : String) :
    (Trim s).data = (s.data.dropWhile (· = ' ')).rdropWhile (· = ' ') := rfl

theorem dropWhile_eq_self_of_prefix {p : Char → Bool} {a b : List Char} (hb : b <+: a)
    (ha : a.dropWhile p = a) : b.dropWhile p = b := by
  cases b with
  | nil => rfl
  | cons x b =>
    obtain ⟨t, rfl⟩ := hb
    have hx : ¬(p x = true) := by
      have := (List.dropWhile_eq_self_iff).1 ha (by simp)
      simpa using this
    simp [List.dropWhile_cons, hx]

theorem Trim_Trim (s : String) : Trim (Trim s) = Trim s := by
  have h1 : ((Trim s).data.dropWhile (· = ' ')) = (Trim s).data := by
    rw [Trim_data]
    exact dropWhile_eq_self_of_prefix (List.rdropWhile_prefix _ _) (List.dropWhile_idempotent _ _)
  have h2 : (Trim (Trim s)).data = (Trim s).data := by
    rw [Trim_data (Trim s), h1, Trim_data, List.rdropWhile_idempotent]
  calc Trim (Trim s) = ⟨(Trim (Trim s)).data⟩ := rfl
    _ = ⟨(Trim s).data⟩ := by rw [h2]
    _ = Trim s := rfl

theorem toNat_space : (' ' : Char).toNat = 32 := rfl

theorem nocaseRune_eq_space (c : Char) : nocaseRune c = ' ' ↔ c = ' ' := by
  unfold nocaseRune
  split
  · rename_i h
    constructor
    · intro he
      have := congrArg Char.toNat he
      rw [toNat_ofNat_of_lt _ (by omega), toNat_space] at this
      omega
    · rintro rfl
      rw [toNat_space] at h
      omega
  · rfl

theorem map_nocaseRune_dropWhile (l : List Char) :
    (l.dropWhile (· = ' ')).map nocaseRune = (l.map nocaseRune).dropWhile (· = ' ') := by
  rw [List.dropWhile_map]
  congr 2
  funext c
  simp [nocaseRune_eq_space]

theorem map_nocaseRune_rdropWhile (l : List Char) :
    (l.rdropWhile (· = ' ')).map nocaseRune = (l.map nocaseRune).rdropWhile (· = ' ') := by
  unfold List.rdropWhile
  rw [List.map_reverse, map_nocaseRune_dropWhile, List.map_reverse]

/-- Trimming and folding commute. -/
theorem nocaseKey_Trim (s : String) :
    nocaseKey (Trim s) =
      ((nocaseKey s).dropWhile (· = ' ')).rdropWhile (· = ' ') := by
  unfold nocaseKey
  rw [Trim_data, map_nocaseRune_rdropWhile, map_nocaseRune_dropWhile]

theorem nocaseEq_iff (a b : String) : nocaseEq a b = true ↔ nocaseKey a = nocaseKey b := by
  unfold nocaseEq
  simp

theorem nocaseEq_Trim {a b : String} (h : nocaseEq a b = true) :
    nocaseEq (Trim a) (Trim b) = true := by
  rw [nocaseEq_iff] at *
  rw [nocaseKey_Trim, nocaseKey_Trim, h]

theorem nocaseEq_refl (a : String) : nocaseEq a a = true := by
  rw [nocaseEq_iff]

theorem len_eq_zero_iff (s : String) : len s = 0 ↔ s.data = [] := by
  unfold len String.utf8ByteSize
  cases s with
  | mk l =>
    cases l with
    | nil => simp [String.utf8ByteSize.go]
    | cons c l =>
      simp only [String.utf8ByteSize.go]
      have := c.utf8Size_pos
      constructor
      · intro h; omega
      · intro h; simp at h

theorem len_eq_zero_of_nocaseEq {a b : String} (h : nocaseEq a b = true) (ha : len a = 0) :
    len b = 0 := by
  rw [len_eq_zero_iff] at *
  rw [nocaseEq_iff] at h
  unfold nocaseKey at h
  rw [ha] at h
  simpa using h.symm

/-! ## Lemmas on table `chats` -/

theorem isChat_self (c u : Int) (st : ChatStatus) (sub : Option Bool) :
    isChat c u ⟨c, u, st, sub⟩ = true := by
  simp [isChat]

theorem isChat_iff (c u : Int) (r : ChatRow) :
    isChat c u r = true ↔ r.chat_id = c ∧ r.user_id = u := by
  simp [isChat]

theorem GetChatStatus_congr {db db' : DB} (h : db.chats = db'.chats) (c u : Int) :
    GetChatStatus db c u = GetChatStatus db' c u := by
  unfold GetChatStatus; rw [h]

theorem chatExists_congr {db db' : DB} (h : db.chats = db'.chats) (c u : Int) :
    chatExists db c u = chatExists db' c u := by
  unfold chatExists; rw [h]

/-- A status written by `UpdateChatStatus` is the status read back by `GetChatStatus`. -/
theorem GetChatStatus_UpdateChatStatus (db : DB) (c u : Int) (st : ChatStatus) :
    GetChatStatus (UpdateChatStatus db c u st).1 c u = st := by
  unfold UpdateChatStatus
  split
  · rename_i hex
    unfold chatExists at hex
    obtain ⟨r, hr, hrc⟩ := List.any_eq_true.1 hex
    unfold GetChatStatus updateChat
    simp only [List.find?_map]
    have hcomp : (isChat c u ∘ fun r => if isChat c u r = true then { r with status := st } else r)
        = isChat c u := by
      funext r
      by_cases h : isChat c u r = true
      · simp only [Function.comp, h, if_true]
        rw [isChat_iff] at h ⊢
        exact h
      · have h' : isChat c u r = false := by simpa using h
        simp [Function.comp, h']
    rw [hcomp]
    cases hf : List.find? (isChat c u) db.chats with
    | none =>
      rw [List.find?_eq_none] at hf
      exact absurd hrc (hf r hr)
    | some r' =>
      have := List.find?_some hf
      simp [this]
  · rename_i hex
    unfold chatExists at hex
    unfold GetChatStatus insertChat
    have hnone : List.find? (isChat c u) db.chats = none := by
      rw [List.find?_eq_none]
      intro x hx hp
      exact hex (List.any_eq_true.2 ⟨x, hx, hp⟩)
    simp only [List.find?_append, hnone, Option.none_or, List.find?_cons, isChat_self,
      List.find?_nil]

/-- The statement of `Subscribe` and `Unsubscribe` leaves every status as it is. -/
theorem GetChatStatus_setSubscribed (db : DB) (c u : Int) (v : Bool) (c' u' : Int) :
    GetChatStatus (setSubscribed db c u v).1 c' u' = GetChatStatus db c' u' := by
  unfold GetChatStatus setSubscribed
  simp only [List.find?_map]
  have hcomp : (isChat c' u' ∘ fun r => if isChat c u r = true then { r with subscribed := some v }
      else r) = isChat c' u' := by
    funext r
    by_cases h : isChat c u r = true
    · simp only [Function.comp, h, if_true]; rfl
    · have h' : isChat c u r = false := by simpa using h
      simp [Function.comp, h']
  rw [hcomp]
  cases List.find? (isChat c' u') db.chats with
  | none => rfl
  | some r =>
    simp only [Option.map_some']
    split <;> rfl

theorem GetChatStatus_Subscribe (db : DB) (c u c' u' : Int) :
    GetChatStatus (Subscribe db c u).1 c' u' = GetChatStatus db c' u' := by
  unfold Subscribe
  split
  · rfl
  · exact GetChatStatus_setSubscribed db c u true c' u'

theorem GetChatStatus_Unsubscribe (db : DB) (c u c' u' : Int) :
    GetChatStatus (Unsubscribe db c u).1 c' u' = GetChatStatus db c' u' := by
  unfold Unsubscribe
  split
  · rfl
  · exact GetChatStatus_setSubscribed db c u false c' u'

/-! ## Lemmas on the webhook handler -/

theorem isCommand_eq_false (text : String) (h : isCommand text = false) :
    HasPrefix text "/start" = false ∧ HasPrefix text "/stop" = false ∧
      HasPrefix text "/list" = false ∧ HasPrefix text "/add" = false ∧
      HasPrefix text "/remove" = false := by
  unfold isCommand at h
  simp only [Bool.or_eq_false_iff] at h
  tauto

/-- The handler on a text that is not a command: the status decides the reply, and the status
is then set to `ChatIdle`. -/
theorem webhook_of_not_command (db : DB) (m : WebhookUpdateMessage)
    (h : isCommand m.Text = false) :
    webhook db m =
      ((UpdateChatStatus
          (freeText (InsertMessage db ⟨m.MessageId, m.From.Id, m.From.FirstName, m.Chat.Id,
              m.Chat.FirstName, m.Text⟩).1 m.Chat.Id m.Text
            (GetChatStatus db m.Chat.Id m.From.Id)).1
          m.Chat.Id m.From.Id ChatStatus.ChatIdle).1,
        Response.withoutKeyboard
          (freeText (InsertMessage db ⟨m.MessageId, m.From.Id, m.From.FirstName, m.Chat.Id,
              m.Chat.FirstName, m.Text⟩).1 m.Chat.Id m.Text
            (GetChatStatus db m.Chat.Id m.From.Id)).2) := by
  obtain ⟨h1, h2, h3, h4, h5⟩ := isCommand_eq_false _ h
  unfold webhook
  simp only [h1, h2, h3, h4, h5]
  rfl

theorem freeText_chats (db : DB) (c : Int) (t : String) (st : ChatStatus) :
    (freeText db c t st).1.chats = db.chats := by
  unfold freeText
  split_ifs <;> simp

/-- On a command the handler leaves table `watchers` as it is. -/
theorem webhook_watchers_of_command (db : DB) (m : WebhookUpdateMessage)
    (h : isCommand m.Text = true) : (webhook db m).1.watchers = db.watchers := by
  unfold webhook
  simp only
  split_ifs with h1 h2 h3 h4 h5
  · simp
  · simp
  · simp
  · simp
  · simp
  · exfalso
    unfold isCommand at h
    simp [h1, h2, h3, h4, h5] at h

/-! ## Invariants of table `watchers` -/

theorem Reachable_derived {db : DB} (h : Reachable db) :
    ∀ w ∈ db.watchers, w.keywords_normalised = NormaliseString w.keywords :=
  Reachable_watchers_forall
    (fun w => w.keywords_normalised = NormaliseString w.keywords) (fun _ _ _ => rfl) h

/-- The keywords of a stored watcher are trimmed and not empty. -/
theorem Reachable_trimmed {db : DB} (h : Reachable db) :
    ∀ w ∈ db.watchers, Trim w.keywords = w.keywords ∧ len w.keywords ≠ 0 :=
  Reachable_watchers_forall
    (fun w => Trim w.keywords = w.keywords ∧ len w.keywords ≠ 0)
    (fun _ k hk => ⟨Trim_Trim k, hk⟩) h

theorem watcherExists_eq_false_iff (db : DB) (c : Int) (k : String) :
    watcherExists db c k = false ↔
      ∀ w ∈ db.watchers, ¬(w.chat_id = c ∧ nocaseEq w.keywords k = true) := by
  unfold watcherExists
  rw [← Bool.not_eq_true, List.any_eq_true]
  simp

theorem watcherExists_eq_true_iff (db : DB) (c : Int) (k : String) :
    watcherExists db c k = true ↔
      ∃ w ∈ db.watchers, w.chat_id = c ∧ nocaseEq w.keywords k = true := by
  unfold watcherExists
  rw [List.any_eq_true]
  simp

/-- No two stored watchers of one chat have keywords that `NOCASE` takes for equal. -/
theorem Reachable_unique {db : DB} (h : Reachable db) :
    db.watchers.Pairwise
      (fun a b => ¬(a.chat_id = b.chat_id ∧ nocaseEq a.keywords b.keywords = true)) := by
  induction h with
  | refl => simp [DB.empty]
  | @tail b _ _ hstep ih =>
    cases hstep with
    | insertFilm f => simpa using ih
    | insertMessage m => simpa using ih
    | updateChatStatus c u st => simpa using ih
    | subscribe c u => simpa using ih
    | unsubscribe c u => simpa using ih
    | insertWatcher c k =>
      rcases InsertWatcher_cases b c k with h | h
      · rw [h.1]; exact ih
      · rw [h.2.2.2, List.pairwise_append]
        refine ⟨ih, List.pairwise_singleton _ _, ?_⟩
        intro a ha x hx
        rw [List.mem_singleton.1 hx]
        exact (watcherExists_eq_false_iff b c (Trim k)).1 h.2.2.1 a ha
    | removeWatcher c k =>
      rcases RemoveWatcher_watchers b c k with h | h
      · rw [h]; exact ih
      · rw [h]; exact ih.sublist (List.filter_sublist _)

/-! ## The reply to `/add` -/

theorem freeText_add (db : DB) (c : Int) (t : String) :
    freeText db c t ChatStatus.ChatWaitingForWatcherToAdd =
      ((InsertWatcher db c t).1,
        MakeResponseForWatcherAdded c
          (if (InsertWatcher db c t).2 = 0 then
            "This looks like an invalid or already existing watcher. 🧐" else "")) := by
  unfold freeText
  simp

theorem freeText_remove (db : DB) (c : Int) (t : String) :
    freeText db c t ChatStatus.ChatWaitingForWatcherToRemove =
      ((RemoveWatcher db c t).1,
        MakeResponseForWatcherRemoved c
          (if (RemoveWatcher db c t).2 = 0 then
            "Couldn't find a watcher named like that." else "")) := by
  unfold freeText
  simp

/-- The effect of `InsertWatcher` on table `watchers` depends on that table only. -/
theorem InsertWatcher_congr {db db' : DB} (h : db.watchers = db'.watchers) (c : Int)
    (k : String) :
    (InsertWatcher db c k).1.watchers = (InsertWatcher db' c k).1.watchers ∧
      (InsertWatcher db c k).2 = (InsertWatcher db' c k).2 := by
  unfold InsertWatcher watcherExists
  simp only [h]
  split_ifs <;> simp [h]

/-- The effect of `RemoveWatcher` on table `watchers` depends on that table only. -/
theorem RemoveWatcher_congr {db db' : DB} (h : db.watchers = db'.watchers) (c : Int)
    (k : String) :
    (RemoveWatcher db c k).1.watchers = (RemoveWatcher db' c k).1.watchers ∧
      (RemoveWatcher db c k).2 = (RemoveWatcher db' c k).2 := by
  unfold RemoveWatcher watcherExists
  simp only [h]
  split_ifs <;> simp [h]

theorem MakeResponseForWatcherAdded_empty (c : Int) :
    MakeResponseForWatcherAdded c "" =
      NewMessage c "Watcher added ✨. Use `/list` to list your watchers." := rfl

theorem MakeResponseForWatcherAdded_invalid (c : Int) :
    MakeResponseForWatcherAdded c "This looks like an invalid or already existing watcher. 🧐" =
      NewMessage c "This looks like an invalid or already existing watcher. 🧐" := rfl

theorem MakeResponseForWatcherRemoved_empty (c : Int) :
    MakeResponseForWatcherRemoved c "" = NewMessage c "Watcher removed 🗑." := rfl

theorem MakeResponseForWatcherRemoved_notFound (c : Int) :
    MakeResponseForWatcherRemoved c "Couldn't find a watcher named like that." =
      NewMessage c "Couldn't find a watcher named like that." := rfl

/-- The watchers after a text that is not a command, sent in the state that waits for the
keywords to add, and the response. -/
theorem webhook_add_reply (db : DB) (m : WebhookUpdateMessage) (hnc : isCommand m.Text = false)
    (hst : GetChatStatus db m.Chat.Id m.From.Id = ChatStatus.ChatWaitingForWatcherToAdd) :
    (webhook db m).1.watchers = (InsertWatcher db m.Chat.Id m.Text).1.watchers ∧
      (webhook db m).2 = Response.withoutKeyboard (MakeResponseForWatcherAdded m.Chat.Id
        (if (InsertWatcher db m.Chat.Id m.Text).2 = 0 then
          "This looks like an invalid or already existing watcher. 🧐" else "")) := by
  rw [webhook_of_not_command db m hnc, hst, freeText_add]
  simp only [UpdateChatStatus_watchers]
  have hcg := InsertWatcher_congr (InsertMessage_watchers db ⟨m.MessageId, m.From.Id,
    m.From.FirstName, m.Chat.Id, m.Chat.FirstName, m.Text⟩) m.Chat.Id m.Text
  rw [hcg.1, hcg.2]
  exact ⟨rfl, rfl⟩

theorem webhook_remove_reply (db : DB) (m : WebhookUpdateMessage)
    (hnc : isCommand m.Text = false)
    (hst : GetChatStatus db m.Chat.Id m.From.Id = ChatStatus.ChatWaitingForWatcherToRemove) :
    (webhook db m).1.watchers = (RemoveWatcher db m.Chat.Id m.Text).1.watchers ∧
      (webhook db m).2 = Response.withoutKeyboard (MakeResponseForWatcherRemoved m.Chat.Id
        (if (RemoveWatcher db m.Chat.Id m.Text).2 = 0 then
          "Couldn't find a watcher named like that." else "")) := by
  rw [webhook_of_not_command db m hnc, hst, freeText_remove]
  simp only [UpdateChatStatus_watchers]
  have hcg := RemoveWatcher_congr (InsertMessage_watchers db ⟨m.MessageId, m.From.Id,
    m.From.FirstName, m.Chat.Id, m.Chat.FirstName, m.Text⟩) m.Chat.Id m.Text
  rw [hcg.1, hcg.2]
  exact ⟨rfl, rfl⟩

/-- The handler on a text that starts with `/add` (and with none of the prefixes tested
before it). -/
theorem webhook_add (db : DB) (m : WebhookUpdateMessage) (h : HasPrefix m.Text "/add" = true)
    (h1 : HasPrefix m.Text "/start" = false) (h2 : HasPrefix m.Text "/stop" = false)
    (h3 : HasPrefix m.Text "/list" = false) :
    webhook db m =
      ((UpdateChatStatus (InsertMessage db ⟨m.MessageId, m.From.Id, m.From.FirstName, m.Chat.Id,
          m.Chat.FirstName, m.Text⟩).1 m.Chat.Id m.From.Id
          ChatStatus.ChatWaitingForWatcherToAdd).1,
        Response.withoutKeyboard (MakeResponseForAddCommand m.Chat.Id)) := by
  unfold webhook
  simp [h, h1, h2, h3]

/-- The scenario of C3 on any database in which the chat has no watcher. -/
theorem add_dune (db : DB) (m1 m2 : WebhookUpdateMessage) (h1 : m1.Text = "/add")
    (h2 : m2.Text = "Dune Part Two") (hc : m2.Chat.Id = m1.Chat.Id)
    (hu : m2.From.Id = m1.From.Id) (hno : ∀ w ∈ db.watchers, w.chat_id ≠ m1.Chat.Id) :
    (webhook (webhook db m1).1 m2).1.watchers =
        db.watchers ++ [⟨m1.Chat.Id, "Dune Part Two", "dune part two"⟩] ∧
      (webhook (webhook db m1).1 m2).2 = Response.withoutKeyboard
        (NewMessage m1.Chat.Id "Watcher added ✨. Use `/list` to list your watchers.") := by
  have e1 := webhook_add db m1 (by rw [h1]; decide) (by rw [h1]; decide) (by rw [h1]; decide)
    (by rw [h1]; decide)
  have hw1 : (webhook db m1).1.watchers = db.watchers := by rw [e1]; simp
  have hs1 : GetChatStatus (webhook db m1).1 m2.Chat.Id m2.From.Id =
      ChatStatus.ChatWaitingForWatcherToAdd := by
    rw [e1, hc, hu]
    exact GetChatStatus_UpdateChatStatus _ _ _ _
  have hnc : isCommand m2.Text = false := by rw [h2]; decide
  obtain ⟨r1, r2⟩ := webhook_add_reply (webhook db m1).1 m2 hnc hs1
  have hT : Trim "Dune Part Two" = "Dune Part Two" := by decide
  have hN : NormaliseString "Dune Part Two" = "dune part two" := by decide
  rcases InsertWatcher_cases (webhook db m1).1 m2.Chat.Id m2.Text with h | h
  · exfalso
    rw [h2, hT] at h
    rcases h.2 with h | h
    · exact absurd h (by decide)
    · obtain ⟨w, hw, hwc, _⟩ := (watcherExists_eq_true_iff _ _ _).1 h
      rw [hw1] at hw
      exact hno w hw (hwc.trans hc)
  · rw [r1, r2, h.1, h.2.2.2, hw1, h2, hT, hN, hc]
    exact ⟨rfl, by rw [if_neg (by decide), MakeResponseForWatcherAdded_empty]⟩

/-! ## The reply to `/remove`: what holds -/

/-- When no watcher of the chat equals the text under `NOCASE`, the reply to `/remove` leaves
the watchers as they are and answers that no watcher was found. -/
theorem webhook_remove_no_match (db : DB) (m : WebhookUpdateMessage)
    (hnc : isCommand m.Text = false)
    (hst : GetChatStatus db m.Chat.Id m.From.Id = ChatStatus.ChatWaitingForWatcherToRemove)
    (hno : watcherExists db m.Chat.Id m.Text = false) :
    (webhook db m).1.watchers = db.watchers ∧
      (webhook db m).2 = Response.withoutKeyboard
        (NewMessage m.Chat.Id "Couldn't find a watcher named like that.") := by
  obtain ⟨r1, r2⟩ := webhook_remove_reply db m hnc hst
  have hrm : RemoveWatcher db m.Chat.Id m.Text = (db, 0) := by
    unfold RemoveWatcher
    simp [hno]
  rw [r1, r2, hrm]
  exact ⟨rfl, by rw [if_pos rfl, MakeResponseForWatcherRemoved_notFound]⟩

/-- When a watcher of the chat has exactly the text as its keywords, the reply to `/remove`
deletes it: at least one row is affected, no watcher of the chat with these keywords is left,
the text is no longer listed by `GetWatchers`, and the response is "Watcher removed". -/
theorem webhook_remove_exact (db : DB) (m : WebhookUpdateMessage) (w : WatcherRow)
    (hnc : isCommand m.Text = false)
    (hst : GetChatStatus db m.Chat.Id m.From.Id = ChatStatus.ChatWaitingForWatcherToRemove)
    (hw : w ∈ db.watchers) (hc : w.chat_id = m.Chat.Id) (hk : w.keywords = m.Text) :
    0 < (RemoveWatcher db m.Chat.Id m.Text).2 ∧
      (webhook db m).1.watchers =
        db.watchers.filter (fun w => !isWatcher m.Chat.Id m.Text w) ∧
      m.Text ∉ GetWatchers (webhook db m).1 m.Chat.Id ∧
      (webhook db m).2 = Response.withoutKeyboard
        (NewMessage m.Chat.Id "Watcher removed 🗑.") := by
  obtain ⟨r1, r2⟩ := webhook_remove_reply db m hnc hst
  have hex : watcherExists db m.Chat.Id m.Text = true :=
    (watcherExists_eq_true_iff _ _ _).2 ⟨w, hw, hc, by rw [hk]; exact nocaseEq_refl _⟩
  have hiw : isWatcher m.Chat.Id m.Text w = true := by
    simp [isWatcher, hc, hk]
  have hcount : 0 < db.watchers.countP (isWatcher m.Chat.Id m.Text) :=
    List.countP_pos_iff.2 ⟨w, hw, hiw⟩
  have hrm : RemoveWatcher db m.Chat.Id m.Text =
      (⟨db.films, db.messages, db.chats,
        db.watchers.filter (fun w => !isWatcher m.Chat.Id m.Text w)⟩,
        ((db.watchers.countP (isWatcher m.Chat.Id m.Text) : Nat) : Int)) := by
    unfold RemoveWatcher
    simp [hex]
  have hpos : 0 < (RemoveWatcher db m.Chat.Id m.Text).2 := by
    rw [hrm]
    show (0 : Int) < ((db.watchers.countP (isWatcher m.Chat.Id m.Text) : Nat) : Int)
    exact_mod_cast hcount
  have hw' : (webhook db m).1.watchers =
      db.watchers.filter (fun w => !isWatcher m.Chat.Id m.Text w) := by
    rw [r1, hrm]
  refine ⟨hpos, hw', ?_, ?_⟩
  · unfold GetWatchers
    rw [hw']
    intro hmem
    have hmem2 := (List.perm_insertionSort _ _).mem_iff.1 hmem
    obtain ⟨x, hx, hxk⟩ := List.mem_map.1 hmem2
    have hx1 := List.mem_filter.1 hx
    have hx2 := List.mem_filter.1 hx1.1
    have : isWatcher m.Chat.Id m.Text x = true := by
      have hcx : x.chat_id = m.Chat.Id := by simpa using hx1.2
      simp [isWatcher, hcx, hxk]
    rw [this] at hx2
    simp at hx2
  · rw [r2, if_neg (by omega), MakeResponseForWatcherRemoved_empty]

/-! ## Claims on watchers -/

/-- C3: in every reachable database each watcher has `keywords_normalised` equal to
`NormaliseString` of the `keywords` of the same row; `InsertWatcher` adds nothing or one such
row, and a call of any operation leaves the stored rows as they are or takes rows out (no field
of a row is ever rewritten). And when the chat has no watcher, `/add` followed by
`Dune Part Two` from the same sender adds exactly the watcher with keywords `Dune Part Two`
and normalised keywords `dune part two`, and the response is the "Watcher added"
confirmation. -/
theorem C3_normalised_keywords (db : DB) (h : Reachable db) :
    (∀ w ∈ db.watchers, w.keywords_normalised = NormaliseString w.keywords) ∧
      (∀ (c : Int) (k : String),
        (InsertWatcher db c k).1.watchers = db.watchers ∨
          (InsertWatcher db c k).1.watchers =
            db.watchers ++ [⟨c, Trim k, NormaliseString (Trim k)⟩]) ∧
      (∀ db', Step db db' →
        db'.watchers.Sublist db.watchers ∨
          ∃ c kw, db'.watchers = db.watchers ++ [⟨c, kw, NormaliseString kw⟩]) ∧
      (∀ m1 m2 : WebhookUpdateMessage, m1.Text = "/add" → m2.Text = "Dune Part Two" →
        m2.Chat.Id = m1.Chat.Id → m2.From.Id = m1.From.Id →
        (∀ w ∈ db.watchers, w.chat_id ≠ m1.Chat.Id) →
        (webhook (webhook db m1).1 m2).1.watchers =
            db.watchers ++ [⟨m1.Chat.Id, "Dune Part Two", "dune part two"⟩] ∧
          (webhook (webhook db m1).1 m2).2 = Response.withoutKeyboard
            (NewMessage m1.Chat.Id "Watcher added ✨. Use `/list` to list your watchers.")) := by
  refine ⟨Reachable_derived h, ?_, fun db' hs => Step_watchers hs, ?_⟩
  · intro c k
    rcases InsertWatcher_cases db c k with h | h
    · exact Or.inl (by rw [h.1])
    · exact Or.inr h.2.2.2
  · intro m1 m2 h1 h2 hc hu hno
    exact add_dune db m1 m2 h1 h2 hc hu hno

/-- C3 at the database that holds the watcher `Fight Club` of chat 7. -/
theorem C3_normalised_keywords_witness :
    Reachable (InsertWatcher DB.empty 7 "Fight Club").1 ∧
      (∀ w ∈ (InsertWatcher DB.empty 7 "Fight Club").1.watchers,
        w.keywords_normalised = NormaliseString w.keywords) ∧
      (webhook (webhook (InsertWatcher DB.empty 7 "Fight Club").1 (textMessage 1 2 "/add")).1
          (textMessage 1 2 "Dune Part Two")).1.watchers =
        [⟨7, "Fight Club", "fight club"⟩, ⟨1, "Dune Part Two", "dune part two"⟩] :=
  have hr : Reachable (InsertWatcher DB.empty 7 "Fight Club").1 :=
    Relation.ReflTransGen.refl |>.tail (Step.insertWatcher DB.empty 7 "Fight Club")
  ⟨hr, (C3_normalised_keywords _ hr).1,
    ((C3_normalised_keywords _ hr).2.2.2 (textMessage 1 2 "/add")
      (textMessage 1 2 "Dune Part Two") rfl rfl rfl rfl (by decide)).1⟩

/-- C4, as stated, fails for letters outside ASCII: chat 1 has the watcher `École` and waits
for keywords; the reply `école` differs from it only in the case of the first letter (both
have the same lower-case form), yet `InsertWatcher` reports one row affected, a second watcher
is stored and the response is the "Watcher added" confirmation. -/
theorem C4_non_ascii_case_is_added :
    (webhook (webhook (webhook DB.empty (textMessage 1 2 "/add")).1
        (textMessage 1 2 "École")).1 (textMessage 1 2 "/add")).1.watchers =
        [⟨1, "École", "école"⟩] ∧
      GetChatStatus (webhook (webhook (webhook DB.empty (textMessage 1 2 "/add")).1
        (textMessage 1 2 "École")).1 (textMessage 1 2 "/add")).1 1 2 =
        ChatStatus.ChatWaitingForWatcherToAdd ∧
      ToLower "école".data = ToLower "École".data ∧
      (InsertWatcher (webhook (webhook (webhook DB.empty (textMessage 1 2 "/add")).1
        (textMessage 1 2 "École")).1 (textMessage 1 2 "/add")).1 1 "école").2 = 1 ∧
      (webhook (webhook (webhook (webhook DB.empty (textMessage 1 2 "/add")).1
        (textMessage 1 2 "École")).1 (textMessage 1 2 "/add")).1
        (textMessage 1 2 "école")).1.watchers =
        [⟨1, "École", "école"⟩, ⟨1, "école", "école"⟩] ∧
      (webhook (webhook (webhook (webhook DB.empty (textMessage 1 2 "/add")).1
        (textMessage 1 2 "École")).1 (textMessage 1 2 "/add")).1
        (textMessage 1 2 "école")).2 = Response.withoutKeyboard
          (NewMessage 1 "Watcher added ✨. Use `/list` to list your watchers.") := by
  decide

/-- C4, amended: in a reachable database, when the chat has a watcher whose keywords equal the
text up to the case of ASCII letters (the comparison of `watcherExists`), a reply that is not
a command, sent while the chat waits for keywords to add, leaves the database of
`InsertWatcher` and the watchers after the handler unchanged, reports 0 rows affected, and the
response is the "invalid or already existing watcher" message. -/
theorem C4_existing_watcher_not_added (db : DB) (m : WebhookUpdateMessage) (w : WatcherRow)
    (hr : Reachable db) (hw : w ∈ db.watchers) (hc : w.chat_id = m.Chat.Id)
    (hcase : nocaseEq w.keywords m.Text = true) (hnc : isCommand m.Text = false)
    (hst : GetChatStatus db m.Chat.Id m.From.Id = ChatStatus.ChatWaitingForWatcherToAdd) :
    InsertWatcher db m.Chat.Id m.Text = (db, 0) ∧
      (webhook db m).1.watchers = db.watchers ∧
      (webhook db m).2 = Response.withoutKeyboard
        (NewMessage m.Chat.Id "This looks like an invalid or already existing watcher. 🧐") := by
  have hins : InsertWatcher db m.Chat.Id m.Text = (db, 0) := by
    rcases InsertWatcher_cases db m.Chat.Id m.Text with h | h
    · exact h.1
    · exfalso
      have ht := (Reachable_trimmed hr w hw).1
      have h2 := nocaseEq_Trim hcase
      rw [ht] at h2
      exact (watcherExists_eq_false_iff db _ _).1 h.2.2.1 w hw ⟨hc, h2⟩
  obtain ⟨r1, r2⟩ := webhook_add_reply db m hnc hst
  refine ⟨hins, ?_, ?_⟩
  · rw [r1, hins]
  · rw [r2, hins, if_pos rfl, MakeResponseForWatcherAdded_invalid]

/-- C4 at chat 1 with the watcher `Fight Club` and the reply `fight club`. -/
theorem C4_existing_watcher_not_added_witness :
    (webhook (UpdateChatStatus (InsertWatcher DB.empty 1 "Fight Club").1 1 2
        ChatStatus.ChatWaitingForWatcherToAdd).1 (textMessage 1 2 "fight club")).1.watchers =
        [⟨1, "Fight Club", "fight club"⟩] ∧
      (webhook (UpdateChatStatus (InsertWatcher DB.empty 1 "Fight Club").1 1 2
        ChatStatus.ChatWaitingForWatcherToAdd).1 (textMessage 1 2 "fight club")).2 =
        Response.withoutKeyboard
          (NewMessage 1 "This looks like an invalid or already existing watcher. 🧐") :=
  (C4_existing_watcher_not_added
    (UpdateChatStatus (InsertWatcher DB.empty 1 "Fight Club").1 1 2
      ChatStatus.ChatWaitingForWatcherToAdd).1
    (textMessage 1 2 "fight club") ⟨1, "Fight Club", "fight club"⟩
    (Relation.ReflTransGen.refl
      |>.tail (Step.insertWatcher DB.empty 1 "Fight Club")
      |>.tail (Step.updateChatStatus _ 1 2 ChatStatus.ChatWaitingForWatcherToAdd))
    (by decide) rfl (by decide) (by decide) (by decide)).2

/-- C5, as stated, fails: `Fight Club` and `Fight Club!` are different keywords for
`watcherExists`, so both are stored for chat 1, and both have the normalised keywords
`fight club`. -/
theorem C5_same_normalised_keywords_twice :
    (InsertWatcher (InsertWatcher DB.empty 1 "Fight Club").1 1 "Fight Club!").1.watchers =
      [⟨1, "Fight Club", "fight club"⟩, ⟨1, "Fight Club!", "fight club"⟩] := by
  decide

/-- C5, amended: in every database reachable from the empty one by calls of the storage
operations, no two watchers of the same chat have keywords that are equal up to the case of
ASCII letters (the `NOCASE` comparison of `watcherExists`). -/
theorem C5_keywords_unique_per_chat (db : DB) (h : Reachable db) :
    db.watchers.Pairwise
      (fun a b => ¬(a.chat_id = b.chat_id ∧ nocaseEq a.keywords b.keywords = true)) :=
  Reachable_unique h

/-- C5, amended, at the database after three calls of `InsertWatcher` for chat 1, the last
with keywords that differ from the first in case only: two watchers are stored. -/
theorem C5_keywords_unique_per_chat_witness :
    (InsertWatcher (InsertWatcher (InsertWatcher DB.empty 1 "Fight Club").1 1
        "Fight Club!").1 1 "FIGHT CLUB").1.watchers.length = 2 ∧
      (InsertWatcher (InsertWatcher (InsertWatcher DB.empty 1 "Fight Club").1 1
        "Fight Club!").1 1 "FIGHT CLUB").1.watchers.Pairwise
        (fun a b => ¬(a.chat_id = b.chat_id ∧ nocaseEq a.keywords b.keywords = true)) :=
  ⟨by decide,
    C5_keywords_unique_per_chat _
      (Relation.ReflTransGen.refl
        |>.tail (Step.insertWatcher DB.empty 1 "Fight Club")
        |>.tail (Step.insertWatcher _ 1 "Fight Club!")
        |>.tail (Step.insertWatcher _ 1 "FIGHT CLUB"))⟩

/-- C6 at its failing input: chat 1 has the watcher `Fight Club` and waits for the watcher to
remove; the reply `fight club` equals the keywords up to letter case and `watcherExists`
finds the row, but the `DELETE` compares the keywords as they are: no row is affected, the
watcher stays listed and the response is the "Couldn't find" message. -/
theorem C6_remove_other_case_keeps_watcher :
    (webhook (webhook (webhook DB.empty (textMessage 1 2 "/add")).1
        (textMessage 1 2 "Fight Club")).1 (textMessage 1 2 "/remove")).1.watchers =
        [⟨1, "Fight Club", "fight club"⟩] ∧
      GetChatStatus (webhook (webhook (webhook DB.empty (textMessage 1 2 "/add")).1
        (textMessage 1 2 "Fight Club")).1 (textMessage 1 2 "/remove")).1 1 2 =
        ChatStatus.ChatWaitingForWatcherToRemove ∧
      watcherExists (webhook (webhook (webhook DB.empty (textMessage 1 2 "/add")).1
        (textMessage 1 2 "Fight Club")).1 (textMessage 1 2 "/remove")).1 1 "fight club" = true ∧
      (RemoveWatcher (webhook (webhook (webhook DB.empty (textMessage 1 2 "/add")).1
        (textMessage 1 2 "Fight Club")).1 (textMessage 1 2 "/remove")).1 1 "fight club").2 = 0 ∧
      GetWatchers (webhook (webhook (webhook (webhook DB.empty (textMessage 1 2 "/add")).1
        (textMessage 1 2 "Fight Club")).1 (textMessage 1 2 "/remove")).1
        (textMessage 1 2 "fight club")).1 1 = ["Fight Club"] ∧
      (webhook (webhook (webhook (webhook DB.empty (textMessage 1 2 "/add")).1
        (textMessage 1 2 "Fight Club")).1 (textMessage 1 2 "/remove")).1
        (textMessage 1 2 "fight club")).2 = Response.withoutKeyboard
          (NewMessage 1 "Couldn't find a watcher named like that.") := by
  decide

/-! ## The rows of one chat -/

theorem chatRows_map_if (l : List ChatRow) (c u : Int) (g : ChatRow → ChatRow)
    (hg : ∀ r, isChat c u (g r) = isChat c u r) :
    (l.map (fun r => if isChat c u r = true then g r else r)).filter (isChat c u) =
      (l.filter (isChat c u)).map g := by
  induction l with
  | nil => rfl
  | cons r l ih =>
    by_cases h : isChat c u r = true
    · have hgr : isChat c u (g r) = true := by rw [hg, h]
      simp only [List.map_cons, h, if_true, List.filter_cons, hgr, ih]
    · have h' : isChat c u r = false := by simpa using h
      simp [List.map_cons, h', List.filter_cons, ih]

theorem chatRows_map_if_other (l : List ChatRow) (c u c' u' : Int) (g : ChatRow → ChatRow)
    (hg : ∀ r, isChat c' u' (g r) = isChat c' u' r) :
    ((l.map (fun r => if isChat c u r = true then g r else r)).filter (isChat c' u')).length =
      (l.filter (isChat c' u')).length := by
  induction l with
  | nil => rfl
  | cons r l ih =>
    have hp : isChat c' u' (if isChat c u r = true then g r else r) = isChat c' u' r := by
      split
      · exact hg r
      · rfl
    simp only [List.map_cons, List.filter_cons, hp]
    split <;> simp [ih]

theorem chatRows_eq_nil_of_not_exists (db : DB) (c u : Int) (h : chatExists db c u = false) :
    chatRows db c u = [] := by
  unfold chatRows
  rw [List.filter_eq_nil_iff]
  intro r hr hp
  unfold chatExists at h
  have : db.chats.any (isChat c u) = true := List.any_eq_true.2 ⟨r, hr, hp⟩
  rw [h] at this
  exact absurd this (by decide)

theorem chatExists_iff_chatRows_ne_nil (db : DB) (c u : Int) :
    chatExists db c u = true ↔ chatRows db c u ≠ [] := by
  constructor
  · intro h hnil
    unfold chatExists at h
    obtain ⟨r, hr, hp⟩ := List.any_eq_true.1 h
    have : r ∈ chatRows db c u := List.mem_filter.2 ⟨hr, hp⟩
    rw [hnil] at this
    simp at this
  · intro h
    by_contra hn
    exact h (chatRows_eq_nil_of_not_exists db c u (by simpa using hn))

/-- After `UpdateChatStatus` the chat has a row, and every row of the chat holds the status. -/
theorem chatRows_UpdateChatStatus (db : DB) (c u : Int) (st : ChatStatus) :
    chatRows (UpdateChatStatus db c u st).1 c u =
      if chatExists db c u = true then (chatRows db c u).map (fun r => { r with status := st })
      else [⟨c, u, st, none⟩] := by
  unfold UpdateChatStatus
  split
  · unfold updateChat chatRows
    exact chatRows_map_if db.chats c u (fun r => { r with status := st }) (fun _ => rfl)
  · rename_i h
    have hnil := chatRows_eq_nil_of_not_exists db c u (by simpa using h)
    unfold chatRows at hnil ⊢
    unfold insertChat
    simp only [List.filter_append, hnil, List.nil_append, List.filter_cons, isChat_self, if_true,
      List.filter_nil]

theorem chatRows_setSubscribed (db : DB) (c u : Int) (v : Bool) :
    chatRows (setSubscribed db c u v).1 c u =
      (chatRows db c u).map (fun r => { r with subscribed := some v }) := by
  unfold setSubscribed chatRows
  exact chatRows_map_if db.chats c u (fun r => { r with subscribed := some v }) (fun _ => rfl)

/-- The number of rows of any `(chatId, userId)` after a call of `UpdateChatStatus`. -/
theorem chatRows_length_UpdateChatStatus (db : DB) (c u c' u' : Int) (st : ChatStatus)
    (h : (chatRows db c' u').length ≤ 1) :
    (chatRows (UpdateChatStatus db c u st).1 c' u').length ≤ 1 := by
  unfold UpdateChatStatus
  split
  · unfold updateChat chatRows
    rw [chatRows_map_if_other db.chats c u c' u' (fun r => { r with status := st })
      (fun _ => rfl)]
    exact h
  · rename_i hex
    unfold insertChat chatRows
    simp only [List.filter_append, List.length_append]
    by_cases hp : isChat c' u' ⟨c, u, st, none⟩ = true
    · obtain ⟨hc, hu⟩ := (isChat_iff _ _ _).1 hp
      simp only at hc hu
      subst hc hu
      have hnil := chatRows_eq_nil_of_not_exists db c u (by simpa using hex)
      unfold chatRows at hnil
      simp [hnil, List.filter_cons, hp]
    · have hp' : isChat c' u' ⟨c, u, st, none⟩ = false := by simpa using hp
      unfold chatRows at h
      simp [List.filter_cons, hp']
      exact h

theorem chatRows_length_setSubscribed (db : DB) (c u c' u' : Int) (v : Bool) :
    (chatRows (setSubscribed db c u v).1 c' u').length = (chatRows db c' u').length := by
  unfold setSubscribed chatRows
  exact chatRows_map_if_other db.chats c u c' u' (fun r => { r with subscribed := some v })
    (fun _ => rfl)

/-- In a reachable database there is at most one row of `chats` per `(chatId, userId)`. -/
theorem Reachable_chats_unique {db : DB} (h : Reachable db) (c' u' : Int) :
    (chatRows db c' u').length ≤ 1 := by
  induction h with
  | refl => simp [chatRows, DB.empty]
  | @tail b _ _ hstep ih =>
    cases hstep with
    | insertFilm f => exact ih
    | insertMessage m => exact ih
    | updateChatStatus c u st => exact chatRows_length_UpdateChatStatus b c u c' u' st ih
    | subscribe c u =>
      unfold Subscribe
      split
      · exact ih
      · rw [chatRows_length_setSubscribed]; exact ih
    | unsubscribe c u =>
      unfold Unsubscribe
      split
      · exact ih
      · rw [chatRows_length_setSubscribed]; exact ih
    | insertWatcher c k =>
      unfold chatRows at ih ⊢
      rw [InsertWatcher_chats]; exact ih
    | removeWatcher c k =>
      unfold chatRows at ih ⊢
      rw [RemoveWatcher_chats]; exact ih

/-- With at most one row for the chat before, `UpdateChatStatus` leaves exactly one row, with
the status written. -/
theorem chatRows_UpdateChatStatus_of_unique (db : DB) (c u : Int) (st : ChatStatus)
    (h : (chatRows db c u).length ≤ 1) :
    ∃ s, chatRows (UpdateChatStatus db c u st).1 c u = [⟨c, u, st, s⟩] := by
  rw [chatRows_UpdateChatStatus]
  split
  · rename_i hex
    have hne := (chatExists_iff_chatRows_ne_nil db c u).1 hex
    cases hrows : chatRows db c u with
    | nil => exact absurd hrows hne
    | cons r rest =>
      rw [hrows] at h
      have hrest : rest = [] := by
        cases rest with
        | nil => rfl
        | cons _ _ => simp at h
      subst hrest
      have hr : r ∈ chatRows db c u := by rw [hrows]; exact List.mem_cons_self _ _
      obtain ⟨hc, hu⟩ := (isChat_iff c u r).1 (List.mem_filter.1 hr).2
      refine ⟨r.subscribed, ?_⟩
      simp [hc, hu]
  · exact ⟨none, rfl⟩

/-- The rows of the sender after `/start` or `/stop`: `UpdateChatStatus` to `ChatIdle`, then
the flag is written. -/
theorem chatRows_toggle (db : DB) (c u : Int) (v : Bool) (h : (chatRows db c u).length ≤ 1) :
    chatRows (setSubscribed (UpdateChatStatus db c u ChatStatus.ChatIdle).1 c u v).1 c u =
      [⟨c, u, ChatStatus.ChatIdle, some v⟩] := by
  obtain ⟨s, hs⟩ := chatRows_UpdateChatStatus_of_unique db c u ChatStatus.ChatIdle h
  rw [chatRows_setSubscribed, hs]
  rfl

theorem chatExists_UpdateChatStatus (db : DB) (c u : Int) (st : ChatStatus) :
    chatExists (UpdateChatStatus db c u st).1 c u = true := by
  rw [chatExists_iff_chatRows_ne_nil, chatRows_UpdateChatStatus]
  split
  · rename_i hex
    have hne := (chatExists_iff_chatRows_ne_nil db c u).1 hex
    simpa using hne
  · simp

/-- Every row of the chat holds the status that `UpdateChatStatus` wrote. -/
theorem status_of_mem_chatRows_UpdateChatStatus (db : DB) (c u : Int) (st : ChatStatus) :
    ∀ r ∈ chatRows (UpdateChatStatus db c u st).1 c u, r.status = st := by
  rw [chatRows_UpdateChatStatus]
  split
  · intro r hr
    obtain ⟨r', _, rfl⟩ := List.mem_map.1 hr
    rfl
  · intro r hr
    rw [List.mem_singleton.1 hr]

/-! ## Command prefixes -/

theorem HasPrefix_iff (s pre : String) : HasPrefix s pre = true ↔ ∃ r, pre.data ++ r = s.data := by
  unfold HasPrefix
  rw [List.isPrefixOf_iff_prefix]
  rfl

/-- A text that starts with `/stop` does not start with `/start`. -/
theorem not_start_of_stop (t : String) (h : HasPrefix t "/stop" = true) :
    HasPrefix t "/start" = false := by
  obtain ⟨r, hr⟩ := (HasPrefix_iff _ _).1 h
  unfold HasPrefix
  rw [← hr]
  rfl

/-- A text that starts with `/list` starts with neither `/start` nor `/stop`. -/
theorem not_start_stop_of_list (t : String) (h : HasPrefix t "/list" = true) :
    HasPrefix t "/start" = false ∧ HasPrefix t "/stop" = false := by
  obtain ⟨r, hr⟩ := (HasPrefix_iff _ _).1 h
  unfold HasPrefix
  rw [← hr]
  exact ⟨rfl, rfl⟩

/-- A text that starts with `/add` starts with none of the prefixes tested before it. -/
theorem not_earlier_of_add (t : String) (h : HasPrefix t "/add" = true) :
    HasPrefix t "/start" = false ∧ HasPrefix t "/stop" = false ∧
      HasPrefix t "/list" = false := by
  obtain ⟨r, hr⟩ := (HasPrefix_iff _ _).1 h
  unfold HasPrefix
  rw [← hr]
  exact ⟨rfl, rfl, rfl⟩

/-- A text that starts with `/remove` starts with none of the prefixes tested before it. -/
theorem not_earlier_of_remove (t : String) (h : HasPrefix t "/remove" = true) :
    HasPrefix t "/start" = false ∧ HasPrefix t "/stop" = false ∧
      HasPrefix t "/list" = false ∧ HasPrefix t "/add" = false := by
  obtain ⟨r, hr⟩ := (HasPrefix_iff _ _).1 h
  unfold HasPrefix
  rw [← hr]
  exact ⟨rfl, rfl, rfl, rfl⟩

/-! ## The handler on the five commands -/

theorem webhook_start (db : DB) (m : WebhookUpdateMessage)
    (h : HasPrefix m.Text "/start" = true) :
    (webhook db m).1 =
      (Subscribe (UpdateChatStatus (InsertMessage db ⟨m.MessageId, m.From.Id, m.From.FirstName,
        m.Chat.Id, m.Chat.FirstName, m.Text⟩).1 m.Chat.Id m.From.Id ChatStatus.ChatIdle).1
        m.Chat.Id m.From.Id).1 := by
  unfold webhook
  simp [h]

theorem webhook_stop (db : DB) (m : WebhookUpdateMessage)
    (h : HasPrefix m.Text "/stop" = true) :
    (webhook db m).1 =
      (Unsubscribe (UpdateChatStatus (InsertMessage db ⟨m.MessageId, m.From.Id, m.From.FirstName,
        m.Chat.Id, m.Chat.FirstName, m.Text⟩).1 m.Chat.Id m.From.Id ChatStatus.ChatIdle).1
        m.Chat.Id m.From.Id).1 := by
  unfold webhook
  simp [h, not_start_of_stop _ h]

theorem webhook_list (db : DB) (m : WebhookUpdateMessage)
    (h : HasPrefix m.Text "/list" = true) :
    (webhook db m).1 =
      (UpdateChatStatus (InsertMessage db ⟨m.MessageId, m.From.Id, m.From.FirstName,
        m.Chat.Id, m.Chat.FirstName, m.Text⟩).1 m.Chat.Id m.From.Id ChatStatus.ChatIdle).1 := by
  obtain ⟨h1, h2⟩ := not_start_stop_of_list _ h
  unfold webhook
  simp [h, h1, h2]

theorem webhook_remove (db : DB) (m : WebhookUpdateMessage)
    (h : HasPrefix m.Text "/remove" = true) :
    (webhook db m).1 =
      (UpdateChatStatus (InsertMessage db ⟨m.MessageId, m.From.Id, m.From.FirstName,
        m.Chat.Id, m.Chat.FirstName, m.Text⟩).1 m.Chat.Id m.From.Id
        ChatStatus.ChatWaitingForWatcherToRemove).1 := by
  obtain ⟨h1, h2, h3, h4⟩ := not_earlier_of_remove _ h
  unfold webhook
  simp [h, h1, h2, h3, h4]

/-! ## Claims on the state machine -/

/-- C7: whatever the database (so whatever the current state of the sender), after a message
whose text starts with none of the command prefixes the state read back for the sender is
`ChatIdle`, the sender has a row in `chats`, and every row of the sender holds `ChatIdle`;
this does not depend on whether a watcher was added or removed. -/
theorem C7_free_text_resets_state (db : DB) (m : WebhookUpdateMessage)
    (h : isCommand m.Text = false) :
    GetChatStatus (webhook db m).1 m.Chat.Id m.From.Id = ChatStatus.ChatIdle ∧
      chatExists (webhook db m).1 m.Chat.Id m.From.Id = true ∧
      ∀ r ∈ chatRows (webhook db m).1 m.Chat.Id m.From.Id, r.status = ChatStatus.ChatIdle := by
  rw [webhook_of_not_command db m h]
  exact ⟨GetChatStatus_UpdateChatStatus _ _ _ _, chatExists_UpdateChatStatus _ _ _ _,
    status_of_mem_chatRows_UpdateChatStatus _ _ _ _⟩

/-- C7 at a chat that waits for keywords and receives the empty text (the add is rejected). -/
theorem C7_free_text_resets_state_witness :
    GetChatStatus (webhook DB.empty (textMessage 1 2 "/add")).1 1 2 =
        ChatStatus.ChatWaitingForWatcherToAdd ∧
      (webhook (webhook DB.empty (textMessage 1 2 "/add")).1 (textMessage 1 2 "")).1.watchers
        = [] ∧
      GetChatStatus (webhook (webhook DB.empty (textMessage 1 2 "/add")).1
        (textMessage 1 2 "")).1 1 2 = ChatStatus.ChatIdle :=
  ⟨by decide, by decide,
    (C7_free_text_resets_state (webhook DB.empty (textMessage 1 2 "/add")).1
      (textMessage 1 2 "") (by decide)).1⟩

/-- C8: whatever the database, a text that starts with `/start`, `/stop` or `/list` leaves the
sender in `ChatIdle`, a text that starts with `/add` in `ChatWaitingForWatcherToAdd`, a text
that starts with `/remove` in `ChatWaitingForWatcherToRemove`, whatever follows the prefix;
and in each of these cases table `watchers` is left as it is. -/
theorem C8_command_dispatch (db : DB) (m : WebhookUpdateMessage) :
    (HasPrefix m.Text "/start" = true ∨ HasPrefix m.Text "/stop" = true ∨
        HasPrefix m.Text "/list" = true →
        GetChatStatus (webhook db m).1 m.Chat.Id m.From.Id = ChatStatus.ChatIdle) ∧
      (HasPrefix m.Text "/add" = true →
        GetChatStatus (webhook db m).1 m.Chat.Id m.From.Id =
          ChatStatus.ChatWaitingForWatcherToAdd) ∧
      (HasPrefix m.Text "/remove" = true →
        GetChatStatus (webhook db m).1 m.Chat.Id m.From.Id =
          ChatStatus.ChatWaitingForWatcherToRemove) ∧
      (isCommand m.Text = true → (webhook db m).1.watchers = db.watchers) := by
  refine ⟨?_, ?_, ?_, webhook_watchers_of_command db m⟩
  · rintro (h | h | h)
    · rw [webhook_start db m h, GetChatStatus_Subscribe]
      exact GetChatStatus_UpdateChatStatus _ _ _ _
    · rw [webhook_stop db m h, GetChatStatus_Unsubscribe]
      exact GetChatStatus_UpdateChatStatus _ _ _ _
    · rw [webhook_list db m h]
      exact GetChatStatus_UpdateChatStatus _ _ _ _
  · intro h
    obtain ⟨h1, h2, h3⟩ := not_earlier_of_add _ h
    rw [webhook_add db m h h1 h2 h3]
    exact GetChatStatus_UpdateChatStatus _ _ _ _
  · intro h
    rw [webhook_remove db m h]
    exact GetChatStatus_UpdateChatStatus _ _ _ _

/-- C8 at the text `/addXYZ`, sent to a chat that has a watcher: the sender then waits for the
keywords to add and the watcher is still the only one. -/
theorem C8_command_dispatch_witness :
    HasPrefix "/addXYZ" "/add" = true ∧
      GetChatStatus (webhook (InsertWatcher DB.empty 1 "Fight Club").1
        (textMessage 1 2 "/addXYZ")).1 1 2 = ChatStatus.ChatWaitingForWatcherToAdd ∧
      (webhook (InsertWatcher DB.empty 1 "Fight Club").1 (textMessage 1 2 "/addXYZ")).1.watchers
        = [⟨1, "Fight Club", "fight club"⟩] :=
  ⟨by decide,
    (C8_command_dispatch (InsertWatcher DB.empty 1 "Fight Club").1
      (textMessage 1 2 "/addXYZ")).2.1 (by decide),
    ((C8_command_dispatch (InsertWatcher DB.empty 1 "Fight Club").1
      (textMessage 1 2 "/addXYZ")).2.2.2 (by decide)).trans (by decide)⟩

/-- C9: in every reachable database, whether or not the sender has a row in `chats`, a text
that starts with `/start` leaves exactly one row for `(chatId, userId)`, with
`subscribed = true` and status `ChatIdle`, and a text that starts with `/stop` leaves exactly
one such row, with `subscribed = false` and status `ChatIdle`. -/
theorem C9_subscription_toggle (db : DB) (m : WebhookUpdateMessage) (h : Reachable db) :
    (HasPrefix m.Text "/start" = true →
        chatRows (webhook db m).1 m.Chat.Id m.From.Id =
          [⟨m.Chat.Id, m.From.Id, ChatStatus.ChatIdle, some true⟩]) ∧
      (HasPrefix m.Text "/stop" = true →
        chatRows (webhook db m).1 m.Chat.Id m.From.Id =
          [⟨m.Chat.Id, m.From.Id, ChatStatus.ChatIdle, some false⟩]) := by
  have hu : (chatRows (InsertMessage db ⟨m.MessageId, m.From.Id, m.From.FirstName, m.Chat.Id,
      m.Chat.FirstName, m.Text⟩).1 m.Chat.Id m.From.Id).length ≤ 1 :=
    Reachable_chats_unique h m.Chat.Id m.From.Id
  constructor
  · intro hs
    rw [webhook_start db m hs]
    unfold Subscribe
    rw [chatExists_UpdateChatStatus]
    exact chatRows_toggle _ _ _ true hu
  · intro hs
    rw [webhook_stop db m hs]
    unfold Unsubscribe
    rw [chatExists_UpdateChatStatus]
    exact chatRows_toggle _ _ _ false hu

/-- C9 at the empty database, where the sender has no row yet, for the texts `/start` and
`/stop now`. -/
theorem C9_subscription_toggle_witness :
    chatRows (webhook DB.empty (textMessage 1 2 "/start")).1 1 2 =
        [⟨1, 2, ChatStatus.ChatIdle, some true⟩] ∧
      chatRows (webhook DB.empty (textMessage 1 2 "/stop now")).1 1 2 =
        [⟨1, 2, ChatStatus.ChatIdle, some false⟩] :=
  ⟨(C9_subscription_toggle DB.empty (textMessage 1 2 "/start") Relation.ReflTransGen.refl).1
      (by decide),
    (C9_subscription_toggle DB.empty (textMessage 1 2 "/stop now")
      Relation.ReflTransGen.refl).2 (by decide)⟩

/-! ## Lemmas on the discovery pass -/

theorem FilmExists_InsertFilm (db : DB) (row : storage.Film) (id : String) :
    FilmExists (InsertFilm db row).1 id = (FilmExists db id || row.Id == id) := by
  unfold FilmExists InsertFilm
  simp [List.any_append]

/-- The calls made by the notification loop are `sendNotification` calls only. -/
theorem sendNotifications_events (w : World) (l : List MethodSendPhoto) :
    ∀ e ∈ (sendNotifications w l).1, ∃ n, e = Event.sendNotification n := by
  induction l with
  | nil => intro e he; simp [sendNotifications] at he
  | cons n rest ih =>
    intro e he
    unfold sendNotifications at he
    split at he
    · rcases List.mem_cons.1 he with h | h
      · exact ⟨n, h⟩
      · exact ih e h
    · exact ⟨n, List.mem_singleton.1 he⟩

theorem filterMap_eq_nil_of_forall {α β : Type} (f : α → Option β) (l : List α)
    (h : ∀ a ∈ l, f a = none) : l.filterMap f = [] := by
  induction l with
  | nil => rfl
  | cons a l ih =>
    rw [List.filterMap_cons, h a (List.mem_cons_self _ _)]
    exact ih (fun b hb => h b (List.mem_cons_of_mem _ hb))

/-- The shape of a pass: either the first film is skipped, or the pass stops at the scraper, or
the film is inserted and matched and the pass goes on, or stops, after the notifications. -/
theorem fetch_cons (w : World) (db : DB) (film : cinemacity.Film) (rest : List cinemacity.Film) :
    (FilmExists db film.Id = true ∧
        fetchMoviesAndSendUpdates w db (film :: rest) = fetchMoviesAndSendUpdates w db rest) ∨
      (FilmExists db film.Id = false ∧
        fetchMoviesAndSendUpdates w db (film :: rest) = ⟨db, [], false⟩) ∨
      (FilmExists db film.Id = false ∧ ∃ (row : storage.Film) (sent : List Event),
        row.Id = film.Id ∧ (∀ e ∈ sent, ∃ n, e = Event.sendNotification n) ∧
        (fetchMoviesAndSendUpdates w db (film :: rest) =
            ⟨(InsertFilm db row).1,
              [Event.insertFilm row, Event.matchQuery film.Id] ++ sent, false⟩ ∨
          fetchMoviesAndSendUpdates w db (film :: rest) =
            ⟨(fetchMoviesAndSendUpdates w (InsertFilm db row).1 rest).db,
              [Event.insertFilm row, Event.matchQuery film.Id] ++ sent ++
                (fetchMoviesAndSendUpdates w (InsertFilm db row).1 rest).events,
              (fetchMoviesAndSendUpdates w (InsertFilm db row).1 rest).completed⟩)) := by
  by_cases hex : FilmExists db film.Id = true
  · left
    refine ⟨hex, ?_⟩
    rw [fetchMoviesAndSendUpdates, if_pos hex]
  · right
    have hex' : FilmExists db film.Id = false := by simpa using hex
    cases hro : w.GetRomanianName film.Link with
    | none =>
      left
      refine ⟨hex', ?_⟩
      rw [fetchMoviesAndSendUpdates, if_neg hex]
      simp only [hro]
    | some romanianName =>
      right
      refine ⟨hex', ⟨film.Id, romanianName, film.Name, film.Link, film.PosterLink⟩, ?_⟩
      cases hq : GetWatchersMatchingQuery w.fts
          (InsertFilm db ⟨film.Id, romanianName, film.Name, film.Link, film.PosterLink⟩).1
          film.Name romanianName with
      | none =>
        refine ⟨[], rfl, by simp, Or.inl ?_⟩
        rw [fetchMoviesAndSendUpdates, if_neg hex]
        simp only [hro, hq, List.append_nil]
      | some watcherMatches =>
        refine ⟨(sendNotifications w (watcherMatches.map
          (fun chatId => NewNotification chatId film.Name film.Link film.PosterLink))).1, rfl,
          sendNotifications_events w _, ?_⟩
        by_cases hs : (sendNotifications w (watcherMatches.map
          (fun chatId => NewNotification chatId film.Name film.Link film.PosterLink))).2 = true
        · right
          rw [fetchMoviesAndSendUpdates, if_neg hex]
          simp only [hro, hq, hs, if_true]
        · left
          rw [fetchMoviesAndSendUpdates, if_neg hex]
          simp only [hro, hq, hs]
          rfl

theorem insertedIds_calls (db : DB) (row : storage.Film) (id : String) (sent evs : List Event)
    (c : Bool) (hs : ∀ e ∈ sent, ∃ n, e = Event.sendNotification n) :
    insertedIds ⟨db, [Event.insertFilm row, Event.matchQuery id] ++ sent ++ evs, c⟩ =
      row.Id :: insertedIds ⟨db, evs, c⟩ := by
  unfold insertedIds
  simp only [List.filterMap_append]
  rw [filterMap_eq_nil_of_forall _ sent (fun e he => by obtain ⟨n, rfl⟩ := hs e he; rfl)]
  rfl

theorem insertedFilms_calls (db : DB) (row : storage.Film) (id : String)
    (sent evs : List Event) (c : Bool) (hs : ∀ e ∈ sent, ∃ n, e = Event.sendNotification n) :
    insertedFilms ⟨db, [Event.insertFilm row, Event.matchQuery id] ++ sent ++ evs, c⟩ =
      row :: insertedFilms ⟨db, evs, c⟩ := by
  unfold insertedFilms
  simp only [List.filterMap_append]
  rw [filterMap_eq_nil_of_forall _ sent (fun e he => by obtain ⟨n, rfl⟩ := hs e he; rfl)]
  rfl

theorem matchedIds_calls (db : DB) (row : storage.Film) (id : String) (sent evs : List Event)
    (c : Bool) (hs : ∀ e ∈ sent, ∃ n, e = Event.sendNotification n) :
    matchedIds ⟨db, [Event.insertFilm row, Event.matchQuery id] ++ sent ++ evs, c⟩ =
      id :: matchedIds ⟨db, evs, c⟩ := by
  unfold matchedIds
  simp only [List.filterMap_append]
  rw [filterMap_eq_nil_of_forall _ sent (fun e he => by obtain ⟨n, rfl⟩ := hs e he; rfl)]
  rfl

theorem insertedIds_congr (p q : Pass) (h : p.events = q.events) :
    insertedIds p = insertedIds q := by
  unfold insertedIds; rw [h]

theorem insertedFilms_congr (p q : Pass) (h : p.events = q.events) :
    insertedFilms p = insertedFilms q := by
  unfold insertedFilms; rw [h]

theorem matchedIds_congr (p q : Pass) (h : p.events = q.events) :
    matchedIds p = matchedIds q := by
  unfold matchedIds; rw [h]

/-- The films after a pass are the films before it followed by the rows the pass inserted,
and the pass writes to no other table. -/
theorem fetch_db (w : World) (db : DB) (films : List cinemacity.Film) :
    (fetchMoviesAndSendUpdates w db films).db.films =
        db.films ++ insertedFilms (fetchMoviesAndSendUpdates w db films) ∧
      (fetchMoviesAndSendUpdates w db films).db.watchers = db.watchers ∧
      (fetchMoviesAndSendUpdates w db films).db.chats = db.chats ∧
      (fetchMoviesAndSendUpdates w db films).db.messages = db.messages := by
  induction films generalizing db with
  | nil => simp [fetchMoviesAndSendUpdates, insertedFilms]
  | cons film rest ih =>
    rcases fetch_cons w db film rest with ⟨_, h⟩ | ⟨_, h⟩ | ⟨_, row, sent, _, hs, h | h⟩
    · rw [h]; exact ih db
    · rw [h]; simp [insertedFilms]
    · rw [h]
      have := insertedFilms_calls (InsertFilm db row).1 row film.Id sent [] false hs
      rw [List.append_nil] at this
      rw [this]
      simp [insertedFilms, InsertFilm]
    · rw [h]
      obtain ⟨i1, i2, i3, i4⟩ := ih (InsertFilm db row).1
      rw [insertedFilms_calls _ row film.Id sent _ _ hs]
      refine ⟨?_, i2, i3, i4⟩
      simp only
      rw [i1]
      rw [insertedFilms_congr ⟨(fetchMoviesAndSendUpdates w (InsertFilm db row).1 rest).db,
        (fetchMoviesAndSendUpdates w (InsertFilm db row).1 rest).events,
        (fetchMoviesAndSendUpdates w (InsertFilm db row).1 rest).completed⟩
        (fetchMoviesAndSendUpdates w (InsertFilm db row).1 rest) rfl]
      simp [InsertFilm]

/-- The match-and-notify step runs for the inserted films, in the same order, and the ids of
the inserted rows are the inserted ids. -/
theorem fetch_ids (w : World) (db : DB) (films : List cinemacity.Film) :
    matchedIds (fetchMoviesAndSendUpdates w db films) =
        insertedIds (fetchMoviesAndSendUpdates w db films) ∧
      (insertedFilms (fetchMoviesAndSendUpdates w db films)).map (·.Id) =
        insertedIds (fetchMoviesAndSendUpdates w db films) := by
  induction films generalizing db with
  | nil => simp [fetchMoviesAndSendUpdates, insertedFilms, insertedIds, matchedIds]
  | cons film rest ih =>
    rcases fetch_cons w db film rest with ⟨_, h⟩ | ⟨_, h⟩ | ⟨_, row, sent, hrow, hs, h | h⟩
    · rw [h]; exact ih db
    · rw [h]; simp [insertedFilms, insertedIds, matchedIds]
    · rw [h]
      have a := insertedFilms_calls (InsertFilm db row).1 row film.Id sent [] false hs
      have b := insertedIds_calls (InsertFilm db row).1 row film.Id sent [] false hs
      have c := matchedIds_calls (InsertFilm db row).1 row film.Id sent [] false hs
      rw [List.append_nil] at a b c
      rw [a, b, c]
      simp [insertedFilms, insertedIds, matchedIds, hrow]
    · rw [h]
      obtain ⟨i1, i2⟩ := ih (InsertFilm db row).1
      rw [insertedFilms_calls _ row film.Id sent _ _ hs, insertedIds_calls _ row film.Id sent _ _ hs,
        matchedIds_calls _ row film.Id sent _ _ hs]
      constructor
      · rw [hrow]
        congr 1
      · rw [List.map_cons]
        congr 1

/-- A film that a pass inserts was not stored before the pass. -/
theorem fetch_inserted_new (w : World) (db : DB) (films : List cinemacity.Film) :
    ∀ id ∈ insertedIds (fetchMoviesAndSendUpdates w db films), FilmExists db id = false := by
  induction films generalizing db with
  | nil => intro id hid; simp [fetchMoviesAndSendUpdates, insertedIds] at hid
  | cons film rest ih =>
    rcases fetch_cons w db film rest with ⟨_, h⟩ | ⟨_, h⟩ | ⟨hex, row, sent, hrow, hs, h | h⟩
    · rw [h]; exact ih db
    · rw [h]; intro id hid; simp [insertedIds] at hid
    · rw [h]
      have b := insertedIds_calls (InsertFilm db row).1 row film.Id sent [] false hs
      rw [List.append_nil] at b
      rw [b]
      intro id hid
      simp only [insertedIds, List.filterMap_nil, List.mem_singleton] at hid
      rw [hid, hrow]; exact hex
    · rw [h, insertedIds_calls _ row film.Id sent _ _ hs]
      intro id hid
      rcases List.mem_cons.1 hid with hid | hid
      · rw [hid, hrow]; exact hex
      · have := ih (InsertFilm db row).1 id hid
        rw [FilmExists_InsertFilm, Bool.or_eq_false_iff] at this
        exact this.1

/-- No id is inserted twice in a pass. -/
theorem fetch_inserted_nodup (w : World) (db : DB) (films : List cinemacity.Film) :
    (insertedIds (fetchMoviesAndSendUpdates w db films)).Nodup := by
  induction films generalizing db with
  | nil => simp [fetchMoviesAndSendUpdates, insertedIds]
  | cons film rest ih =>
    rcases fetch_cons w db film rest with ⟨_, h⟩ | ⟨_, h⟩ | ⟨hex, row, sent, hrow, hs, h | h⟩
    · rw [h]; exact ih db
    · rw [h]; simp [insertedIds]
    · rw [h]
      have b := insertedIds_calls (InsertFilm db row).1 row film.Id sent [] false hs
      rw [List.append_nil] at b
      rw [b]
      simp [insertedIds]
    · rw [h, insertedIds_calls _ row film.Id sent _ _ hs]
      refine List.nodup_cons.2 ⟨?_, ih (InsertFilm db row).1⟩
      intro hmem
      have := fetch_inserted_new w (InsertFilm db row).1 rest row.Id hmem
      rw [FilmExists_InsertFilm, Bool.or_eq_false_iff] at this
      simp at this

theorem FilmExists_of_fetch (w : World) (db : DB) (films : List cinemacity.Film) (id : String)
    (h : FilmExists db id = true) :
    FilmExists (fetchMoviesAndSendUpdates w db films).db id = true := by
  unfold FilmExists at h ⊢
  rw [(fetch_db w db films).1, List.any_append, h]
  rfl

/-- After a pass that ran to its end every film of the feed is stored. -/
theorem fetch_completed_exists (w : World) (db : DB) (films : List cinemacity.Film)
    (hc : (fetchMoviesAndSendUpdates w db films).completed = true) :
    ∀ f ∈ films, FilmExists (fetchMoviesAndSendUpdates w db films).db f.Id = true := by
  induction films generalizing db with
  | nil => intro f hf; simp at hf
  | cons film rest ih =>
    rcases fetch_cons w db film rest with ⟨hex, h⟩ | ⟨_, h⟩ | ⟨_, row, sent, hrow, hs, h | h⟩
    · rw [h] at hc ⊢
      intro f hf
      rcases List.mem_cons.1 hf with hf | hf
      · rw [hf]; exact FilmExists_of_fetch w db rest film.Id hex
      · exact ih db hc f hf
    · rw [h] at hc; simp at hc
    · rw [h] at hc; simp at hc
    · rw [h] at hc ⊢
      intro f hf
      rcases List.mem_cons.1 hf with hf | hf
      · rw [hf]
        apply FilmExists_of_fetch
        rw [FilmExists_InsertFilm, hrow]
        simp
      · exact ih (InsertFilm db row).1 hc f hf

/-- A pass over a feed whose films are all stored does nothing. -/
theorem fetch_all_stored (w : World) (db : DB) (films : List cinemacity.Film)
    (h : ∀ f ∈ films, FilmExists db f.Id = true) :
    fetchMoviesAndSendUpdates w db films = ⟨db, [], true⟩ := by
  induction films with
  | nil => rfl
  | cons film rest ih =>
    rw [fetchMoviesAndSendUpdates, if_pos (h film (List.mem_cons_self _ _))]
    exact ih (fun f hf => h f (List.mem_cons_of_mem _ hf))

/-! ## Claim on the discovery pass -/

/-- C10: for every feed (which may repeat an id), every database and every behaviour of the
scraper, the index and the transport, one pass adds to table `films` exactly the rows it
inserted, their ids are pairwise distinct and none was stored before the pass; the
match-and-notify step runs for exactly these ids, once each, in the same order; and after a
pass that ran to its end, a second pass over the same feed leaves the database as it is and
makes no call at all (no insert, no match, no notification). -/
theorem C10_discovery_dedup (w w' : World) (db : DB) (films : List cinemacity.Film) :
    (fetchMoviesAndSendUpdates w db films).db.films =
        db.films ++ insertedFilms (fetchMoviesAndSendUpdates w db films) ∧
      (insertedFilms (fetchMoviesAndSendUpdates w db films)).map (·.Id) =
        insertedIds (fetchMoviesAndSendUpdates w db films) ∧
      (insertedIds (fetchMoviesAndSendUpdates w db films)).Nodup ∧
      (∀ id ∈ insertedIds (fetchMoviesAndSendUpdates w db films), FilmExists db id = false) ∧
      matchedIds (fetchMoviesAndSendUpdates w db films) =
        insertedIds (fetchMoviesAndSendUpdates w db films) ∧
      ((fetchMoviesAndSendUpdates w db films).completed = true →
        fetchMoviesAndSendUpdates w' (fetchMoviesAndSendUpdates w db films).db films =
          ⟨(fetchMoviesAndSendUpdates w db films).db, [], true⟩) :=
  ⟨(fetch_db w db films).1, (fetch_ids w db films).2, fetch_inserted_nodup w db films,
    fetch_inserted_new w db films, (fetch_ids w db films).1,
    fun hc => fetch_all_stored w' _ films (fetch_completed_exists w db films hc)⟩

/-- C10 at a feed that lists the id `a` twice, on a database with one watcher: the pass runs
to its end, inserts `a` and `b` once each, and a second pass over the same feed changes
nothing and makes no call. -/
theorem C10_discovery_dedup_witness :
    (fetchMoviesAndSendUpdates exampleWorld (InsertWatcher DB.empty 1 "Dune").1
        [⟨"a", "Dune", "l1", "p1"⟩, ⟨"b", "Heat", "l2", "p2"⟩,
          ⟨"a", "Dune again", "l3", "p3"⟩]).completed = true ∧
      insertedIds (fetchMoviesAndSendUpdates exampleWorld (InsertWatcher DB.empty 1 "Dune").1
        [⟨"a", "Dune", "l1", "p1"⟩, ⟨"b", "Heat", "l2", "p2"⟩,
          ⟨"a", "Dune again", "l3", "p3"⟩]) = ["a", "b"] ∧
      fetchMoviesAndSendUpdates exampleWorld
        (fetchMoviesAndSendUpdates exampleWorld (InsertWatcher DB.empty 1 "Dune").1
          [⟨"a", "Dune", "l1", "p1"⟩, ⟨"b", "Heat", "l2", "p2"⟩,
            ⟨"a", "Dune again", "l3", "p3"⟩]).db
        [⟨"a", "Dune", "l1", "p1"⟩, ⟨"b", "Heat", "l2", "p2"⟩, ⟨"a", "Dune again", "l3", "p3"⟩] =
        ⟨(fetchMoviesAndSendUpdates exampleWorld (InsertWatcher DB.empty 1 "Dune").1
          [⟨"a", "Dune", "l1", "p1"⟩, ⟨"b", "Heat", "l2", "p2"⟩,
            ⟨"a", "Dune again", "l3", "p3"⟩]).db, [], true⟩ :=
  ⟨by decide, by decide,
    (C10_discovery_dedup exampleWorld exampleWorld (InsertWatcher DB.empty 1 "Dune").1
      [⟨"a", "Dune", "l1", "p1"⟩, ⟨"b", "Heat", "l2", "p2"⟩,
        ⟨"a", "Dune again", "l3", "p3"⟩]).2.2.2.2.2 (by decide)⟩

/-! ## The handler and the pass stay within the reachable databases -/

theorem Reachable_freeText {db : DB} (h : Reachable db) (c : Int) (t : String)
    (st : ChatStatus) : Reachable (freeText db c t st).1 := by
  unfold freeText
  split_ifs
  · exact h.tail (Step.insertWatcher db c t)
  · exact h.tail (Step.removeWatcher db c t)
  · exact h

/-- The webhook handler takes a reachable database to a reachable database. -/
theorem Reachable_webhook {db : DB} (h : Reachable db) (m : WebhookUpdateMessage) :
    Reachable (webhook db m).1 := by
  have h0 := h.tail (Step.insertMessage db ⟨m.MessageId, m.From.Id, m.From.FirstName,
    m.Chat.Id, m.Chat.FirstName, m.Text⟩)
  unfold webhook
  simp only
  split_ifs
  · exact (h0.tail (Step.updateChatStatus _ _ _ _)).tail (Step.subscribe _ _ _)
  · exact (h0.tail (Step.updateChatStatus _ _ _ _)).tail (Step.unsubscribe _ _ _)
  · exact h0.tail (Step.updateChatStatus _ _ _ _)
  · exact h0.tail (Step.updateChatStatus _ _ _ _)
  · exact h0.tail (Step.updateChatStatus _ _ _ _)
  · exact (Reachable_freeText h0 _ _ _).tail (Step.updateChatStatus _ _ _ _)

/-- A discovery pass takes a reachable database to a reachable database. -/
theorem Reachable_fetch (w : World) {db : DB} (h : Reachable db)
    (films : List cinemacity.Film) : Reachable (fetchMoviesAndSendUpdates w db films).db := by
  induction films generalizing db with
  | nil => exact h
  | cons film rest ih =>
    rcases fetch_cons w db film rest with ⟨_, e⟩ | ⟨_, e⟩ | ⟨_, row, sent, _, _, e | e⟩
    · rw [e]; exact ih h
    · rw [e]; exact h
    · rw [e]; exact h.tail (Step.insertFilm db row)
    · rw [e]; exact ih (h.tail (Step.insertFilm db row))

/-! ## The reply to `/remove` for a chat without watchers -/

theorem GetWatchers_congr {db db' : DB} (h : db.watchers = db'.watchers) (c : Int) :
    GetWatchers db c = GetWatchers db' c := by
  unfold GetWatchers; rw [h]

theorem GetWatchers_eq_nil (db : DB) (c : Int) (h : ∀ w ∈ db.watchers, w.chat_id ≠ c) :
    GetWatchers db c = [] := by
  unfold GetWatchers
  have : db.watchers.filter (fun w => w.chat_id == c) = [] := by
    rw [List.filter_eq_nil_iff]
    intro w hw
    simpa using h w hw
  rw [this]
  rfl

/-- The response of the handler to a text that starts with `/remove`. -/
theorem webhook_remove_response (db : DB) (m : WebhookUpdateMessage)
    (h : HasPrefix m.Text "/remove" = true) :
    (webhook db m).2 =
      Response.withKeyboard (MakeResponseForRemoveCommand (GetWatchers db m.Chat.Id) m.Chat.Id) := by
  obtain ⟨h1, h2, h3, h4⟩ := not_earlier_of_remove _ h
  unfold webhook
  simp only [h, h1, h2, h3, h4]
  simp only [Bool.false_eq_true, if_false, if_true]
  congr 2
  exact GetWatchers_congr (by simp) _

theorem watcherExists_eq_false_of_no_watcher (db : DB) (c : Int) (k : String)
    (h : ∀ w ∈ db.watchers, w.chat_id ≠ c) : watcherExists db c k = false := by
  rw [watcherExists_eq_false_iff]
  intro w hw hh
  exact h w hw hh.1

/-! ## Claim on `/remove` without watchers -/

/-- C13: when the chat has no watcher, a text that starts with `/remove` is answered by the
message "You have no watchers, ..." with an empty keyboard, and the sender then waits for the
watcher to remove; the next text of the same sender that is not a command is answered by
"Couldn't find a watcher named like that.", the sender is then in `ChatIdle`, and table
`watchers` is as it was. -/
theorem C13_remove_without_watchers (db : DB) (m1 m2 : WebhookUpdateMessage)
    (h1 : HasPrefix m1.Text "/remove" = true) (h2 : isCommand m2.Text = false)
    (hc : m2.Chat.Id = m1.Chat.Id) (hu : m2.From.Id = m1.From.Id)
    (hno : ∀ w ∈ db.watchers, w.chat_id ≠ m1.Chat.Id) :
    (webhook db m1).2 = Response.withKeyboard
        (NewMessageWithKeyboard m1.Chat.Id "You have no watchers, add some using `/add`" []) ∧
      GetChatStatus (webhook db m1).1 m1.Chat.Id m1.From.Id =
        ChatStatus.ChatWaitingForWatcherToRemove ∧
      (webhook (webhook db m1).1 m2).2 = Response.withoutKeyboard
        (NewMessage m1.Chat.Id "Couldn't find a watcher named like that.") ∧
      GetChatStatus (webhook (webhook db m1).1 m2).1 m1.Chat.Id m1.From.Id =
        ChatStatus.ChatIdle ∧
      (webhook (webhook db m1).1 m2).1.watchers = db.watchers := by
  have hw1 : (webhook db m1).1.watchers = db.watchers := by
    rw [webhook_remove db m1 h1]; simp
  have hs1 : GetChatStatus (webhook db m1).1 m1.Chat.Id m1.From.Id =
      ChatStatus.ChatWaitingForWatcherToRemove := by
    rw [webhook_remove db m1 h1]
    exact GetChatStatus_UpdateChatStatus _ _ _ _
  have hno1 : ∀ w ∈ (webhook db m1).1.watchers, w.chat_id ≠ m2.Chat.Id := by
    rw [hw1, hc]; exact hno
  have hs1' : GetChatStatus (webhook db m1).1 m2.Chat.Id m2.From.Id =
      ChatStatus.ChatWaitingForWatcherToRemove := by rw [hc, hu]; exact hs1
  obtain ⟨r1, r2⟩ := webhook_remove_no_match (webhook db m1).1 m2 h2 hs1'
    (watcherExists_eq_false_of_no_watcher _ _ _ hno1)
  refine ⟨?_, hs1, ?_, ?_, ?_⟩
  · rw [webhook_remove_response db m1 h1, GetWatchers_eq_nil db _ hno]
    rfl
  · rw [r2, hc]
  · rw [webhook_of_not_command _ m2 h2, ← hc, ← hu]
    exact GetChatStatus_UpdateChatStatus _ _ _ _
  · rw [r1, hw1]

/-- C13 at the empty database, for `/remove` followed by `Dune`. -/
theorem C13_remove_without_watchers_witness :
    (webhook DB.empty (textMessage 1 2 "/remove")).2 = Response.withKeyboard
        (NewMessageWithKeyboard 1 "You have no watchers, add some using `/add`" []) ∧
      (webhook (webhook DB.empty (textMessage 1 2 "/remove")).1 (textMessage 1 2 "Dune")).2 =
        Response.withoutKeyboard (NewMessage 1 "Couldn't find a watcher named like that.") ∧
      GetChatStatus (webhook (webhook DB.empty (textMessage 1 2 "/remove")).1
        (textMessage 1 2 "Dune")).1 1 2 = ChatStatus.ChatIdle :=
  have h := C13_remove_without_watchers DB.empty (textMessage 1 2 "/remove")
    (textMessage 1 2 "Dune") (by decide) (by decide) rfl rfl (by decide)
  ⟨h.1, h.2.2.1, h.2.2.2.1⟩

/-! ## The keyboard of `MakeResponseForRemoveCommand` -/

theorem foldl_len (s : List String) (n : Nat) :
    s.foldl (fun l v => l + len v) n = n + charsInSliceOfStrings s := by
  unfold charsInSliceOfStrings
  induction s generalizing n with
  | nil => simp
  | cons v s ih =>
    simp only [List.foldl_cons]
    rw [ih (n + len v), ih (0 + len v)]
    omega

theorem charsInSliceOfStrings_nil : charsInSliceOfStrings [] = 0 := rfl

theorem charsInSliceOfStrings_cons (v : String) (s : List String) :
    charsInSliceOfStrings (v :: s) = len v + charsInSliceOfStrings s := by
  unfold charsInSliceOfStrings
  rw [List.foldl_cons, foldl_len]
  unfold charsInSliceOfStrings
  omega

/-- The loop over the watchers keeps their order, closes a row only once it has reached 30
bytes, and adds to a row only while it has fewer than 30 bytes. -/
theorem buttonLoop_spec (l : List String) (rows : List (List String)) (row : List String)
    (hrows : ∀ r ∈ rows, ClosedRow r) (hrow : charsInSliceOfStrings row.dropLast < 30) :
    ((buttonLoop l (rows, row)).1 ++ [(buttonLoop l (rows, row)).2]).flatten =
        rows.flatten ++ row ++ l ∧
      (∀ r ∈ (buttonLoop l (rows, row)).1, ClosedRow r) ∧
      charsInSliceOfStrings (buttonLoop l (rows, row)).2.dropLast < 30 ∧
      (l ≠ [] → (buttonLoop l (rows, row)).2 ≠ []) := by
  induction l generalizing rows row with
  | nil =>
    refine ⟨?_, hrows, hrow, fun h => absurd rfl h⟩
    simp [buttonLoop]
  | cons v rest ih =>
    by_cases hfull : charsInSliceOfStrings row ≥ 30
    · have hstep : buttonLoop (v :: rest) (rows, row) = buttonLoop rest (rows ++ [row], [v]) := by
        rw [buttonLoop, if_pos hfull]
      have hne : row ≠ [] := by
        intro h
        rw [h, charsInSliceOfStrings_nil] at hfull
        omega
      have hrows' : ∀ r ∈ rows ++ [row], ClosedRow r := by
        intro r hr
        rcases List.mem_append.1 hr with hr | hr
        · exact hrows r hr
        · rw [List.mem_singleton.1 hr]; exact ⟨hne, hrow, hfull⟩
      obtain ⟨i1, i2, i3, i4⟩ := ih (rows ++ [row]) [v] hrows'
        (by simp [charsInSliceOfStrings_nil])
      rw [hstep]
      refine ⟨?_, i2, i3, ?_⟩
      · rw [i1]; simp
      · intro _
        cases rest with
        | nil => simp [buttonLoop]
        | cons _ _ => exact i4 (by simp)
    · have hstep : buttonLoop (v :: rest) (rows, row) = buttonLoop rest (rows, row ++ [v]) := by
        rw [buttonLoop, if_neg hfull]
      obtain ⟨i1, i2, i3, i4⟩ := ih rows (row ++ [v]) hrows
        (by rw [List.dropLast_concat]; omega)
      rw [hstep]
      refine ⟨?_, i2, i3, ?_⟩
      · rw [i1]; simp
      · intro _
        cases rest with
        | nil => simp [buttonLoop]
        | cons _ _ => exact i4 (by simp)

/-- The count of `charsInSliceOfStrings` is the sum of the numbers of bytes of the strings. -/
theorem charsInSliceOfStrings_eq_sum (s : List String) :
    charsInSliceOfStrings s = (s.map String.utf8ByteSize).sum := by
  induction s with
  | nil => rfl
  | cons v s ih =>
    rw [charsInSliceOfStrings_cons, ih, List.map_cons, List.sum_cons]
    rfl

/-! ## Claim on the keyboard -/

/-- C15: for every non-empty list of watchers the rows of the keyboard of
`MakeResponseForRemoveCommand`, one after the other, are exactly the list; no row is empty; in
every row the numbers of bytes (UTF-8) of the buttons before the last one sum to fewer than
30; and in every row but the last the numbers of bytes of the buttons sum to 30 or more. -/
theorem C15_keyboard_rows (watchers : List String) (chatId : Int) (h : watchers ≠ []) :
    (MakeResponseForRemoveCommand watchers chatId).ReplyMarkup.Keyboard.flatten = watchers ∧
      (∀ r ∈ (MakeResponseForRemoveCommand watchers chatId).ReplyMarkup.Keyboard, r ≠ []) ∧
      (∀ r ∈ (MakeResponseForRemoveCommand watchers chatId).ReplyMarkup.Keyboard,
        (r.dropLast.map String.utf8ByteSize).sum < 30) ∧
      (∀ r ∈ (MakeResponseForRemoveCommand watchers chatId).ReplyMarkup.Keyboard.dropLast,
        30 ≤ (r.map String.utf8ByteSize).sum) := by
  have hlen : ¬(watchers.length = 0) := by
    intro h0
    exact h (List.length_eq_zero.1 h0)
  have hk : (MakeResponseForRemoveCommand watchers chatId).ReplyMarkup.Keyboard =
      (buttonLoop watchers ([], [])).1 ++ [(buttonLoop watchers ([], [])).2] := by
    unfold MakeResponseForRemoveCommand
    rw [if_neg hlen]
    rfl
  obtain ⟨i1, i2, i3, i4⟩ := buttonLoop_spec watchers [] [] (by simp)
    (by simp [charsInSliceOfStrings_nil])
  rw [hk]
  refine ⟨?_, ?_, ?_, ?_⟩
  · rw [i1]; simp
  · intro r hr
    rcases List.mem_append.1 hr with hr | hr
    · exact (i2 r hr).1
    · rw [List.mem_singleton.1 hr]; exact i4 h
  · intro r hr
    rw [← charsInSliceOfStrings_eq_sum]
    rcases List.mem_append.1 hr with hr | hr
    · exact (i2 r hr).2.1
    · rw [List.mem_singleton.1 hr]; exact i3
  · intro r hr
    rw [List.dropLast_concat] at hr
    rw [← charsInSliceOfStrings_eq_sum]
    exact (i2 r hr).2.2

/-- C15 at four watchers of 4, 12, 14 and 2 bytes, the third of 12 runes: the first row holds
the first three (the third was added while the row had 16 bytes) and is closed at 30 bytes,
where its 28 runes would have kept it open; the second row holds the fourth. -/
theorem C15_keyboard_rows_witness :
    ["Dune", "Grand Budape", "Îngerii nopț", "Up"] ≠ [] ∧
      (MakeResponseForRemoveCommand ["Dune", "Grand Budape", "Îngerii nopț", "Up"]
        1).ReplyMarkup.Keyboard = [["Dune", "Grand Budape", "Îngerii nopț"], ["Up"]] ∧
      (["Dune", "Grand Budape", "Îngerii nopț"].map String.utf8ByteSize).sum = 30 ∧
      (["Dune", "Grand Budape", "Îngerii nopț"].map String.length).sum = 28 ∧
      (∀ r ∈ (MakeResponseForRemoveCommand ["Dune", "Grand Budape", "Îngerii nopț", "Up"]
          1).ReplyMarkup.Keyboard, (r.dropLast.map String.utf8ByteSize).sum < 30) ∧
      ∀ r ∈ (MakeResponseForRemoveCommand ["Dune", "Grand Budape", "Îngerii nopț", "Up"]
          1).ReplyMarkup.Keyboard.dropLast, 30 ≤ (r.map String.utf8ByteSize).sum :=
  ⟨by decide, by decide, by decide, by decide,
    (C15_keyboard_rows ["Dune", "Grand Budape", "Îngerii nopț", "Up"] 1 (by decide)).2.2⟩


/-! ## The tokens of the full-text query -/

theorem splitRunes_ne_nil (sep : Char) (l : List Char) : splitRunes sep l ≠ [] := by
  cases l with
  | nil => simp [splitRunes]
  | cons c rest =>
    unfold splitRunes
    split
    · simp
    · split <;> simp

theorem splitRunes_cons_sep (sep : Char) (rest : List Char) :
    splitRunes sep (sep :: rest) = [] :: splitRunes sep rest := by
  rw [splitRunes, if_pos rfl]

theorem splitRunes_cons_of_ne (sep c : Char) (rest : List Char) (h : c ≠ sep) :
    splitRunes sep (c :: rest) =
      (c :: (splitRunes sep rest).headD []) ::
        (splitRunes sep rest).tail := by
  rw [splitRunes, if_neg h]
  have hne := splitRunes_ne_nil sep rest
  cases hs : splitRunes sep rest with
  | nil => exact absurd hs hne
  | cons p ps => simp

/-- A piece of `Split` holds runes of the text only, and never the separator. -/
theorem mem_splitRunes (sep : Char) (l : List Char) :
    ∀ piece ∈ splitRunes sep l, ∀ c ∈ piece, c ∈ l ∧ c ≠ sep := by
  induction l with
  | nil =>
    intro piece hp c hc
    simp [splitRunes] at hp
    rw [hp] at hc
    simp at hc
  | cons d rest ih =>
    intro piece hp c hc
    by_cases hd : d = sep
    · rw [hd, splitRunes_cons_sep] at hp
      rcases List.mem_cons.1 hp with hp | hp
      · rw [hp] at hc; simp at hc
      · exact ⟨List.mem_cons_of_mem _ (ih piece hp c hc).1, (ih piece hp c hc).2⟩
    · rw [splitRunes_cons_of_ne sep d rest hd] at hp
      rcases List.mem_cons.1 hp with hp | hp
      · rw [hp] at hc
        rcases List.mem_cons.1 hc with hc | hc
        · rw [hc]; exact ⟨List.mem_cons_self _ _, hd⟩
        · have hne := splitRunes_ne_nil sep rest
          have hmem : (splitRunes sep rest).headD [] ∈ splitRunes sep rest := by
            cases hs : splitRunes sep rest with
            | nil => exact absurd hs hne
            | cons p ps => simp
          have := ih _ hmem c hc
          exact ⟨List.mem_cons_of_mem _ this.1, this.2⟩
      · have := ih piece (List.mem_of_mem_tail hp) c hc
        exact ⟨List.mem_cons_of_mem _ this.1, this.2⟩

/-- The first piece of `Split` is empty exactly when the text is empty or begins with the
separator. -/
theorem head_splitRunes_eq_nil (sep : Char) (l : List Char) :
    (splitRunes sep l).headD [] = [] ↔ l = [] ∨ l.head? = some sep := by
  cases l with
  | nil => simp [splitRunes]
  | cons c rest =>
    by_cases hc : c = sep
    · simp [hc, splitRunes_cons_sep]
    · simp [splitRunes_cons_of_ne sep c rest hc, hc]

/-- In a text without two spaces in a row, a piece after the first is empty exactly when the
text ends with a space. -/
theorem nil_mem_tail_splitRunes (l : List Char) (h : noDoubleSpace l) :
    [] ∈ (splitRunes ' ' l).tail ↔ l.getLast? = some ' ' := by
  induction l with
  | nil => simp [splitRunes]
  | cons c rest ih =>
    obtain ⟨h1, h2⟩ := h
    by_cases hc : c = ' '
    · subst hc
      rw [splitRunes_cons_sep, List.tail_cons]
      have hhead : rest.head? ≠ some ' ' := fun hh => h1 ⟨rfl, hh⟩
      have hmem : [] ∈ splitRunes ' ' rest ↔
          (splitRunes ' ' rest).headD [] = [] ∨
            [] ∈ (splitRunes ' ' rest).tail := by
        have hne := splitRunes_ne_nil ' ' rest
        cases hs : splitRunes ' ' rest with
        | nil => exact absurd hs hne
        | cons p ps =>
          simp only [List.mem_cons, List.headD_cons, List.tail_cons]
          constructor
          · rintro (hh | hh)
            · exact Or.inl hh.symm
            · exact Or.inr hh
          · rintro (hh | hh)
            · exact Or.inl hh.symm
            · exact Or.inr hh
      rw [hmem, head_splitRunes_eq_nil, ih h2]
      cases rest with
      | nil => simp
      | cons d rest' =>
        simp only [List.head?_cons, Option.some.injEq] at hhead
        simp [List.getLast?_cons_cons, hhead]
    · rw [splitRunes_cons_of_ne ' ' c rest hc, List.tail_cons, ih h2]
      cases rest with
      | nil => simp [hc]
      | cons d rest' => simp [List.getLast?_cons_cons]

theorem noDoubleSpace_replaceR2 (l : List Char) : noDoubleSpace (replaceR2 l) := by
  induction l with
  | nil => exact trivial
  | cons c rest ih =>
    rw [replaceR2_cons]
    split
    · exact ih
    · rename_i h
      refine ⟨?_, ih⟩
      rw [head?_replaceR2]
      exact h

theorem noDoubleSpace_map_ToLowerRune (l : List Char) (h : noDoubleSpace l) :
    noDoubleSpace (l.map ToLowerRune) := by
  induction l with
  | nil => exact trivial
  | cons c rest ih =>
    obtain ⟨h1, h2⟩ := h
    refine ⟨?_, ih h2⟩
    rintro ⟨e1, e2⟩
    apply h1
    refine ⟨(ToLowerRune_eq_space c).1 e1, ?_⟩
    cases rest with
    | nil => simp at e2
    | cons d r =>
      simp only [List.map_cons, List.head?_cons, Option.some.injEq] at e2
      simp [(ToLowerRune_eq_space d).1 e2]

theorem noDoubleSpace_normaliseRunes (l : List Char) : noDoubleSpace (normaliseRunes l) := by
  unfold normaliseRunes ToLower
  exact noDoubleSpace_map_ToLowerRune _ (noDoubleSpace_replaceR2 _)

/-- A rune of the normalised text is the lower-case form of a rune of the class. -/
theorem mem_normaliseRunes (l : List Char) (c : Char) (h : c ∈ normaliseRunes l) :
    ∃ d, d ∈ l ∧ inClass d = true ∧ ToLowerRune d = c := by
  unfold normaliseRunes ToLower at h
  obtain ⟨d, hd, rfl⟩ := List.mem_map.1 h
  have := List.mem_filter.1 (mem_of_mem_replaceR2 _ _ hd)
  exact ⟨d, this.1, this.2, rfl⟩

/-- What holds of the tokens of the query for all titles: the query is the tokens joined by
` OR `; no token holds a space, and each of its runes is the lower-case form of a rune of the
class; and the tokens are all non-empty exactly when the normalised text is not empty and
neither begins nor ends with a space. -/
theorem preparedQuery_tokens (query1 query2 : String) :
    preparedQuery query1 query2 =
        Join (Split (NormaliseString (query1 ++ " " ++ query2)) ' ') " OR " ∧
      (∀ token ∈ Split (NormaliseString (query1 ++ " " ++ query2)) ' ', ∀ c ∈ token.data,
        c ≠ ' ' ∧ ∃ d, inClass d = true ∧ ToLowerRune d = c) ∧
      ((∀ token ∈ Split (NormaliseString (query1 ++ " " ++ query2)) ' ', token ≠ "") ↔
        ((NormaliseString (query1 ++ " " ++ query2)).data ≠ [] ∧
          (NormaliseString (query1 ++ " " ++ query2)).data.head? ≠ some ' ' ∧
          (NormaliseString (query1 ++ " " ++ query2)).data.getLast? ≠ some ' ')) := by
  refine ⟨rfl, ?_, ?_⟩
  · intro token ht c hc
    unfold Split at ht
    obtain ⟨piece, hp, rfl⟩ := List.mem_map.1 ht
    obtain ⟨hmem, hne⟩ := mem_splitRunes ' ' _ piece hp c hc
    obtain ⟨d, _, hd1, hd2⟩ := mem_normaliseRunes _ c hmem
    exact ⟨hne, d, hd1, hd2⟩
  · have hnd : noDoubleSpace (NormaliseString (query1 ++ " " ++ query2)).data :=
      noDoubleSpace_normaliseRunes _
    have hne := splitRunes_ne_nil ' ' (NormaliseString (query1 ++ " " ++ query2)).data
    have h1 := head_splitRunes_eq_nil ' ' (NormaliseString (query1 ++ " " ++ query2)).data
    have h2 := nil_mem_tail_splitRunes _ hnd
    have hall : (∀ token ∈ Split (NormaliseString (query1 ++ " " ++ query2)) ' ', token ≠ "") ↔
        [] ∉ splitRunes ' ' (NormaliseString (query1 ++ " " ++ query2)).data := by
      unfold Split
      constructor
      · intro h hmem
        exact h ⟨[]⟩ (List.mem_map.2 ⟨[], hmem, rfl⟩) rfl
      · intro h token ht hempty
        obtain ⟨piece, hp, rfl⟩ := List.mem_map.1 ht
        have : piece = [] := congrArg String.data hempty
        rw [this] at hp
        exact h hp
    rw [hall]
    generalize (NormaliseString (query1 ++ " " ++ query2)).data = l at *
    cases hs : splitRunes ' ' l with
    | nil => exact absurd hs hne
    | cons p ps =>
      simp only [hs, List.headD_cons, List.tail_cons] at h1 h2
      simp only [List.mem_cons, not_or]
      constructor
      · rintro ⟨a, b⟩
        have a' : ¬(p = []) := fun hh => a hh.symm
        rw [h1] at a'
        rw [h2] at b
        exact ⟨fun hh => a' (Or.inl hh), fun hh => a' (Or.inr hh), b⟩
      · rintro ⟨a, b, c⟩
        refine ⟨?_, ?_⟩
        · intro hh
          rcases h1.1 hh.symm with h | h
          · exact a h
          · exact b h
        · rw [h2]; exact c

/-! ## Claim on the full-text query -/

/-- C14 at its failing input, the film `300` with the Romanian name
`300 - Eroii de la Termopile`: the digits and the dash are removed, the normalised text begins
with a space, and the first token, the first operand of `OR`, is empty. For the titles of the
claim the query is the one the claim gives. -/
theorem C14_first_token_empty :
    NormaliseString ("300" ++ " " ++ "300 - Eroii de la Termopile") =
        " eroii de la termopile" ∧
      Split (NormaliseString ("300" ++ " " ++ "300 - Eroii de la Termopile")) ' ' =
        ["", "eroii", "de", "la", "termopile"] ∧
      preparedQuery "300" "300 - Eroii de la Termopile" =
        " OR eroii OR de OR la OR termopile" ∧
      preparedQuery "1917" "1917" = " OR " ∧
      preparedQuery "Dune: Part Two" "Dune Partea a Doua" =
        "dune OR part OR two OR dune OR partea OR a OR doua" := by
  decide

open config

/-! ## `readFile` on the input of its test and on lines without an assignment -/

/-- On the text of `TestReadFile` the map has exactly the eight entries of the test's table. -/
theorem readFile_testText : readFile testText = testTable := by
  decide

theorem matchAssignmentAt_eq_none (l : List Char) (h : '=' ∉ l) :
    matchAssignmentAt l = none := by
  unfold matchAssignmentAt
  simp only
  split
  · rfl
  · split
    · rfl
    · rename_i c v heq
      split
      · rename_i hc
        exfalso
        apply h
        have h1 : c ∈ (l.dropWhile isWordRune).dropWhile isReSpace := by
          rw [heq]; exact List.mem_cons_self _ _
        have h2 := (List.dropWhile_sublist _).subset
          ((List.dropWhile_sublist _).subset h1)
        rw [← hc]; exact h2
      · rfl

theorem findAssignment_eq_none (l : List Char) (h : '=' ∉ l) : findAssignment l = none := by
  induction l with
  | nil => rfl
  | cons c rest ih =>
    rw [findAssignment, matchAssignmentAt_eq_none _ h]
    exact ih (fun hh => h (List.mem_cons_of_mem _ hh))

theorem TrimSpace_sublist (s : String) : (TrimSpace s).data.Sublist s.data := by
  unfold TrimSpace
  simp only
  refine List.Sublist.trans ?_ (List.dropWhile_sublist IsSpace)
  rw [← List.reverse_reverse (List.dropWhile IsSpace s.data)]
  rw [List.reverse_sublist]
  simp only [List.reverse_reverse]
  exact List.dropWhile_sublist _

/-- A line without `=` sets no value; in particular a blank line sets none. -/
theorem parseLine_eq_none_of_no_assignment (text : String) (h : '=' ∉ text.data) :
    parseLine text = none := by
  unfold parseLine
  simp only
  split
  · rfl
  · rw [findAssignment_eq_none _ (fun hh => h ((TrimSpace_sublist text).subset hh))]




/-! ## Lemmas on dropping runes at the ends of a text -/

theorem dropWhile_eq_self_of_head {p : Char → Bool} (l : List Char)
    (h : ∀ c, l.head? = some c → p c = false) : l.dropWhile p = l := by
  cases l with
  | nil => rfl
  | cons c rest =>
    have := h c rfl
    simp [List.dropWhile_cons, this]

theorem rdropWhile_eq_self_of_last {p : Char → Bool} (l : List Char)
    (h : ∀ c, l.getLast? = some c → p c = false) : l.rdropWhile p = l := by
  unfold List.rdropWhile
  rw [dropWhile_eq_self_of_head, List.reverse_reverse]
  intro c hc
  rw [List.head?_reverse] at hc
  exact h c hc

theorem rdropWhile_append_of_all {p : Char → Bool} (a b : List Char)
    (hb : ∀ c ∈ b, p c = true) : (a ++ b).rdropWhile p = a.rdropWhile p := by
  unfold List.rdropWhile
  rw [List.reverse_append, List.dropWhile_append_of_pos]
  intro c hc
  exact hb c (List.mem_reverse.1 hc)

/-- Dropping at the right end stops at a rune that is not dropped. -/
theorem rdropWhile_append_cons {p : Char → Bool} (a b : List Char) (c : Char)
    (hc : p c = false) : (a ++ c :: b).rdropWhile p = a ++ c :: b.rdropWhile p := by
  unfold List.rdropWhile
  rw [List.reverse_append, List.reverse_cons, List.append_assoc, List.dropWhile_append]
  split
  · rename_i he
    have : List.dropWhile p b.reverse = [] := by simpa using he
    simp [this, List.dropWhile_cons, hc]
  · simp

theorem takeWhile_append_of_head {p : Char → Bool} (a b : List Char)
    (ha : ∀ c ∈ a, p c = true) (hb : ∀ c, b.head? = some c → p c = false) :
    (a ++ b).takeWhile p = a := by
  rw [List.takeWhile_append_of_pos ha]
  cases b with
  | nil => simp
  | cons c rest =>
    have := hb c rfl
    simp [List.takeWhile_cons, this]

theorem dropWhile_append_of_head {p : Char → Bool} (a b : List Char)
    (ha : ∀ c ∈ a, p c = true) (hb : ∀ c, b.head? = some c → p c = false) :
    (a ++ b).dropWhile p = b := by
  rw [List.dropWhile_append_of_pos ha, dropWhile_eq_self_of_head b hb]

theorem TrimSpace_data (s : String) :
    (TrimSpace s).data = (s.data.dropWhile IsSpace).rdropWhile IsSpace := rfl

theorem TrimCutset_data (s cutset : String) :
    (TrimCutset s cutset).data =
      (s.data.dropWhile (fun c => cutset.data.contains c)).rdropWhile
        (fun c => cutset.data.contains c) := rfl

/-- A text that neither begins nor ends with a rune of `unicode.IsSpace` is left as it is by
`TrimSpace`. -/
theorem TrimSpace_eq_self (l : List Char) (hh : ∀ c, l.head? = some c → IsSpace c = false)
    (hl : ∀ c, l.getLast? = some c → IsSpace c = false) : TrimSpace ⟨l⟩ = ⟨l⟩ := by
  apply congrArg String.mk
  show (l.dropWhile IsSpace).rdropWhile IsSpace = l
  rw [dropWhile_eq_self_of_head l hh, rdropWhile_eq_self_of_last l hl]

theorem isWordRune_not_IsSpace (c : Char) (h : isWordRune c = true) : IsSpace c = false := by
  unfold isWordRune at h
  unfold IsSpace
  simp only [Bool.or_eq_true, Bool.and_eq_true, decide_eq_true_eq, beq_iff_eq] at h
  simp only [Bool.or_eq_false_iff, Bool.and_eq_false_iff, decide_eq_false_iff_not,
    beq_eq_false_iff_ne]
  omega

theorem isWordRune_not_isReSpace (c : Char) (h : isWordRune c = true) : isReSpace c = false := by
  by_contra hcon
  have hs : isReSpace c = true := by simpa using hcon
  unfold isReSpace at hs
  simp only [Bool.or_eq_true, decide_eq_true_eq] at hs
  rcases hs with ((((rfl | rfl) | rfl) | rfl) | rfl) <;> exact absurd h (by decide)

theorem isReSpace_IsSpace (c : Char) (h : isReSpace c = true) : IsSpace c = true := by
  unfold isReSpace at h
  simp only [Bool.or_eq_true, decide_eq_true_eq] at h
  rcases h with ((((rfl | rfl) | rfl) | rfl) | rfl) <;> decide


/-! ## The two patterns of `readFile` on lines of a known shape -/

/-- The first pattern on a line that begins with a key, runes of `\s`, an `=` and a rest that
does not consist of runes of `\s` only: the groups are the key and the rest without its
leading runes of `\s`. -/
theorem findAssignment_of_key (key ws2 rest : List Char) (hkey : key ≠ [])
    (hkeyw : ∀ c ∈ key, isWordRune c = true) (hws2 : ∀ c ∈ ws2, isReSpace c = true)
    (hrest : rest.dropWhile isReSpace ≠ []) :
    findAssignment (key ++ ws2 ++ '=' :: rest) = some (key, rest.dropWhile isReSpace) := by
  have hhead : ∀ c, (ws2 ++ '=' :: rest).head? = some c → isWordRune c = false := by
    intro c hc
    cases ws2 with
    | nil =>
      simp only [List.nil_append, List.head?_cons, Option.some.injEq] at hc
      rw [← hc]; decide
    | cons d ws =>
      simp only [List.cons_append, List.head?_cons, Option.some.injEq] at hc
      have hd := hws2 d (List.mem_cons_self _ _)
      rw [hc] at hd
      by_contra hcon
      have := isWordRune_not_isReSpace c (by simpa using hcon)
      rw [this] at hd
      exact absurd hd (by decide)
  have hhead2 : ∀ c, ('=' :: rest).head? = some c → isReSpace c = false := by
    intro c hc
    simp only [List.head?_cons, Option.some.injEq] at hc
    rw [← hc]; decide
  have hm : matchAssignmentAt (key ++ ws2 ++ '=' :: rest) =
      some (key, rest.dropWhile isReSpace) := by
    unfold matchAssignmentAt
    simp only
    rw [List.append_assoc, takeWhile_append_of_head key _ hkeyw hhead,
      dropWhile_append_of_head key _ hkeyw hhead,
      dropWhile_append_of_head ws2 _ hws2 hhead2]
    simp [hkey, hrest]
  cases hk : key ++ ws2 ++ '=' :: rest with
  | nil =>
    exfalso
    cases key with
    | nil => exact hkey rfl
    | cons _ _ => simp at hk
  | cons c l =>
    rw [findAssignment, ← hk, hm]

theorem closeQuoted_eq_none (l : List Char) (h : '"' ∉ l) (n : Nat) (last : Char) :
    closeQuoted n last l = none := by
  induction l generalizing n last with
  | nil => rfl
  | cons c rest ih =>
    rw [closeQuoted, ih (fun hh => h (List.mem_cons_of_mem _ hh))]
    have hc : c ≠ '"' := fun hh => h (hh ▸ List.mem_cons_self _ _)
    simp [hc]

/-- The second pattern finds nothing in a text without a double quote. -/
theorem findQuoted_eq_none (l : List Char) (h : '"' ∉ l) : findQuoted l = none := by
  induction l with
  | nil => rfl
  | cons c rest ih =>
    have hc : c ≠ '"' := fun hh => h (hh ▸ List.mem_cons_self _ _)
    rw [findQuoted, if_neg hc]
    exact ih (fun hh => h (List.mem_cons_of_mem _ hh))

/-- The first piece of `Split` is the text up to the first separator. -/
theorem headD_splitRunes_append (sep : Char) (a b : List Char) (ha : sep ∉ a)
    (hb : b = [] ∨ b.head? = some sep) : (splitRunes sep (a ++ b)).headD [] = a := by
  induction a with
  | nil =>
    rcases hb with rfl | hb
    · rfl
    · cases b with
      | nil => rfl
      | cons c rest =>
        simp only [List.head?_cons, Option.some.injEq] at hb
        rw [List.nil_append, hb, splitRunes_cons_sep]
        rfl
  | cons c rest ih =>
    have hc : c ≠ sep := fun hh => ha (hh ▸ List.mem_cons_self _ _)
    rw [List.cons_append, splitRunes_cons_of_ne sep c _ hc]
    simp only [List.headD_cons]
    rw [ih (fun hh => ha (List.mem_cons_of_mem _ hh))]

theorem contains_cutset (c : Char) : ("\" ".data.contains c) = (c == '"' || c == ' ') := by
  show List.elem c ['"', ' '] = _
  simp only [List.elem]
  cases (c == '"') <;> cases (c == ' ') <;> rfl

/-- The last trim of `readFile` on a value that neither begins nor ends with a quote or a
space, followed by spaces. -/
theorem TrimCutset_value (value sp : List Char)
    (hh : ∀ c, value.head? = some c → c ≠ '"' ∧ c ≠ ' ')
    (hl : ∀ c, value.getLast? = some c → c ≠ '"' ∧ c ≠ ' ') (hsp : ∀ c ∈ sp, c = ' ') :
    TrimCutset ⟨value ++ sp⟩ "\" " = ⟨value⟩ := by
  apply congrArg String.mk
  show ((value ++ sp).dropWhile (fun c => "\" ".data.contains c)).rdropWhile
    (fun c => "\" ".data.contains c) = value
  have hcut : (fun c => "\" ".data.contains c) = (fun c => c == '"' || c == ' ') := by
    funext c; exact contains_cutset c
  rw [hcut]
  cases value with
  | nil =>
    rw [List.nil_append, List.dropWhile_eq_nil_iff.2 (fun c hc => by simp [hsp c hc])]
    rfl
  | cons v0 vs =>
    have h0 := hh v0 rfl
    rw [dropWhile_eq_self_of_head (v0 :: vs ++ sp) (by
      intro c hc
      simp only [List.cons_append, List.head?_cons, Option.some.injEq] at hc
      rw [← hc]; simp [h0.1, h0.2])]
    rw [rdropWhile_append_of_all _ sp (fun c hc => by simp [hsp c hc])]
    exact rdropWhile_eq_self_of_last _ (fun c hc => by
      have := hl c hc
      simp [this.1, this.2])


theorem headD_map_mk (l : List (List Char)) :
    (l.map String.mk).headD "" = ⟨l.headD []⟩ := by
  cases l <;> rfl

theorem mem_of_head? {l : List Char} {c : Char} (h : l.head? = some c) : c ∈ l := by
  cases l with
  | nil => simp at h
  | cons d rest =>
    simp only [List.head?_cons, Option.some.injEq] at h
    rw [← h]; exact List.mem_cons_self _ _

theorem mem_of_getLast? {l : List Char} {c : Char} (h : l.getLast? = some c) : c ∈ l :=
  List.mem_of_getLast?_eq_some h

theorem space_IsSpace : IsSpace ' ' = true := by decide

/-- The body of the loop on a line that, once trimmed, is a key, runes of `\s`, `=`, runes of
`\s`, a value without quote or hash, spaces, and either nothing more or a hash and a comment
without a quote: the value is set for the key. -/
theorem parseLine_unquoted_core (text : String) (key ws2 ws3 value sp hashpart : List Char)
    (ht : (TrimSpace text).data = key ++ ws2 ++ '=' :: (ws3 ++ (value ++ sp ++ hashpart)))
    (hkey : key ≠ []) (hkeyw : ∀ c ∈ key, isWordRune c = true)
    (hws2 : ∀ c ∈ ws2, isReSpace c = true) (hws3 : ∀ c ∈ ws3, isReSpace c = true)
    (hv : value ≠ []) (hvh : ∀ c, value.head? = some c → IsSpace c = false)
    (hvl : ∀ c, value.getLast? = some c → IsSpace c = false)
    (hvq : '"' ∉ value) (hvhash : '#' ∉ value) (hsp : ∀ c ∈ sp, c = ' ')
    (hhash : hashpart = [] ∨ hashpart.head? = some '#') (hhq : '"' ∉ hashpart)
    (hlast : ∀ c, (value ++ sp ++ hashpart).getLast? = some c → IsSpace c = false) :
    parseLine text = some (⟨key⟩, ⟨value⟩) := by
  have hMhead : ∀ c, (value ++ sp ++ hashpart).head? = some c → IsSpace c = false := by
    intro c hc
    cases value with
    | nil => exact absurd rfl hv
    | cons v0 vs => exact hvh c (by simpa using hc)
  have hMne : value ++ sp ++ hashpart ≠ [] := by
    cases value with
    | nil => exact absurd rfl hv
    | cons v0 vs => simp
  have hdrop : (ws3 ++ (value ++ sp ++ hashpart)).dropWhile isReSpace =
      value ++ sp ++ hashpart := by
    apply dropWhile_append_of_head _ _ hws3
    intro c hc
    by_contra hcon
    have := isReSpace_IsSpace c (by simpa using hcon)
    rw [hMhead c hc] at this
    exact absurd this (by decide)
  have hfind : findAssignment (TrimSpace text).data = some (key, value ++ sp ++ hashpart) := by
    rw [ht, findAssignment_of_key key ws2 _ hkey hkeyw hws2 (by rw [hdrop]; exact hMne), hdrop]
  have hlen : ¬(len (TrimSpace text) = 0) := by
    rw [len_eq_zero_iff, ht]
    cases key with
    | nil => exact absurd rfl hkey
    | cons _ _ => simp
  have hk : TrimSpace ⟨key⟩ = ⟨key⟩ :=
    TrimSpace_eq_self key
      (fun c hc => isWordRune_not_IsSpace c (hkeyw c (mem_of_head? hc)))
      (fun c hc => isWordRune_not_IsSpace c (hkeyw c (mem_of_getLast? hc)))
  have hM : TrimSpace ⟨value ++ sp ++ hashpart⟩ = ⟨value ++ sp ++ hashpart⟩ :=
    TrimSpace_eq_self _ hMhead hlast
  have hq : findQuoted (value ++ sp ++ hashpart) = none := by
    apply findQuoted_eq_none
    intro hmem
    rcases List.mem_append.1 hmem with hmem | hmem
    · rcases List.mem_append.1 hmem with hmem | hmem
      · exact hvq hmem
      · exact absurd (hsp _ hmem) (by decide)
    · exact hhq hmem
  have hsplit : (Split ⟨value ++ sp ++ hashpart⟩ '#').headD "" = ⟨value ++ sp⟩ := by
    unfold Split
    rw [headD_map_mk]
    apply congrArg String.mk
    apply headD_splitRunes_append '#' (value ++ sp) hashpart _ hhash
    intro hmem
    rcases List.mem_append.1 hmem with hmem | hmem
    · exact hvhash hmem
    · exact absurd (hsp _ hmem) (by decide)
  have htrim : TrimCutset ⟨value ++ sp⟩ "\" " = ⟨value⟩ := by
    apply TrimCutset_value value sp _ _ hsp
    · intro c hc
      refine ⟨fun hh => hvq (hh ▸ mem_of_head? hc), fun hh => ?_⟩
      have := hvh c hc
      rw [hh, space_IsSpace] at this
      exact absurd this (by decide)
    · intro c hc
      refine ⟨fun hh => hvq (hh ▸ mem_of_getLast? hc), fun hh => ?_⟩
      have := hvl c hc
      rw [hh, space_IsSpace] at this
      exact absurd this (by decide)
  unfold parseLine
  simp only [if_neg hlen, hfind, hk, hM, hq, hsplit, htrim]


theorem getLast?_rdropWhile {p : Char → Bool} (l : List Char) (c : Char)
    (h : (l.rdropWhile p).getLast? = some c) : p c = false := by
  have hne : l.rdropWhile p ≠ [] := by
    intro hh
    rw [hh] at h
    simp at h
  have := List.rdropWhile_last_not p l hne
  rw [List.getLast?_eq_getLast _ hne] at h
  simp only [Option.some.injEq] at h
  rw [← h]
  simpa using this

theorem head?_key_append (key rest : List Char) (hkey : key ≠ [])
    (hkeyw : ∀ c ∈ key, isWordRune c = true) :
    ∀ c, (key ++ rest).head? = some c → IsSpace c = false := by
  intro c hc
  cases key with
  | nil => exact absurd rfl hkey
  | cons k0 ks =>
    simp only [List.cons_append, List.head?_cons, Option.some.injEq] at hc
    rw [← hc]
    exact isWordRune_not_IsSpace k0 (hkeyw k0 (List.mem_cons_self _ _))

/-- An assignment without quotes and without a comment: whatever runes of `unicode.IsSpace`
stand before the key and after the value, and whatever runes of `\s` stand around the `=`,
the value is set for the key. -/
theorem parseLine_unquoted (pre key ws2 ws3 value ws4 : List Char)
    (hpre : ∀ c ∈ pre, IsSpace c = true) (hkey : key ≠ [])
    (hkeyw : ∀ c ∈ key, isWordRune c = true) (hws2 : ∀ c ∈ ws2, isReSpace c = true)
    (hws3 : ∀ c ∈ ws3, isReSpace c = true) (hv : value ≠ [])
    (hvh : ∀ c, value.head? = some c → IsSpace c = false)
    (hvl : ∀ c, value.getLast? = some c → IsSpace c = false)
    (hvq : '"' ∉ value) (hvhash : '#' ∉ value) (hws4 : ∀ c ∈ ws4, IsSpace c = true) :
    parseLine ⟨pre ++ (key ++ ws2 ++ '=' :: (ws3 ++ value)) ++ ws4⟩ =
      some (⟨key⟩, ⟨value⟩) := by
  apply parseLine_unquoted_core _ key ws2 ws3 value [] [] _ hkey hkeyw hws2 hws3 hv hvh hvl hvq
    hvhash (by simp) (Or.inl rfl) (by simp)
  · intro c hc
    exact hvl c (by simpa using hc)
  · rw [TrimSpace_data]
    simp only [List.append_nil]
    rw [List.append_assoc pre, dropWhile_append_of_head pre _ hpre
      (by
        rw [List.append_assoc key, List.append_assoc key]
        exact head?_key_append key _ hkey hkeyw),
      rdropWhile_append_of_all _ ws4 hws4]
    apply rdropWhile_eq_self_of_last
    intro c hc
    apply hvl c
    rw [← hc]
    have : key ++ ws2 ++ '=' :: (ws3 ++ value) = (key ++ ws2 ++ '=' :: ws3) ++ value := by
      simp
    rw [this, List.getLast?_append_of_ne_nil _ hv]

/-- An assignment without quotes followed by a comment: when only spaces stand between the
value and the `#`, and the comment holds no double quote, the value is set for the key and
the comment is dropped. -/
theorem parseLine_unquoted_comment (pre key ws2 ws3 value sp comment : List Char)
    (hpre : ∀ c ∈ pre, IsSpace c = true) (hkey : key ≠ [])
    (hkeyw : ∀ c ∈ key, isWordRune c = true) (hws2 : ∀ c ∈ ws2, isReSpace c = true)
    (hws3 : ∀ c ∈ ws3, isReSpace c = true) (hv : value ≠ [])
    (hvh : ∀ c, value.head? = some c → IsSpace c = false)
    (hvl : ∀ c, value.getLast? = some c → IsSpace c = false)
    (hvq : '"' ∉ value) (hvhash : '#' ∉ value) (hsp : ∀ c ∈ sp, c = ' ')
    (hcq : '"' ∉ comment) :
    parseLine ⟨pre ++ (key ++ ws2 ++ '=' :: (ws3 ++ (value ++ sp))) ++ '#' :: comment⟩ =
      some (⟨key⟩, ⟨value⟩) := by
  apply parseLine_unquoted_core _ key ws2 ws3 value sp ('#' :: comment.rdropWhile IsSpace) _
    hkey hkeyw hws2 hws3 hv hvh hvl hvq hvhash hsp (Or.inr rfl)
  · intro hmem
    rcases List.mem_cons.1 hmem with hmem | hmem
    · exact absurd hmem (by decide)
    · exact hcq ((List.rdropWhile_prefix IsSpace comment).subset hmem)
  · intro c hc
    rw [List.getLast?_append_of_ne_nil _ (List.cons_ne_nil _ _)] at hc
    cases hcm : comment.rdropWhile IsSpace with
    | nil =>
      rw [hcm] at hc
      simp only [List.getLast?_singleton, Option.some.injEq] at hc
      rw [← hc]; decide
    | cons d ds =>
      rw [hcm, List.getLast?_cons_cons] at hc
      apply getLast?_rdropWhile comment c
      rw [hcm]
      exact hc
  · rw [TrimSpace_data]
    rw [List.append_assoc pre, dropWhile_append_of_head pre _ hpre
      (by
        rw [List.append_assoc key, List.append_assoc key]
        exact head?_key_append key _ hkey hkeyw),
      rdropWhile_append_cons _ _ '#' (by decide)]
    simp


/-! ## Quoted values -/

/-- The group of the second pattern after an opening quote: when the text goes on with `V`, a
quote and a rest without a quote, the group has two runes or more and its last rune is not a
backslash, the greedy group is `V`. -/
theorem closeQuoted_of_closing (V rest : List Char) (n : Nat) (last : Char)
    (hrest : '"' ∉ rest) (hlen : 2 ≤ n + V.length) (hlast : V.getLast?.getD last ≠ '\\') :
    closeQuoted n last (V ++ '"' :: rest) = some V := by
  induction V generalizing n last with
  | nil =>
    rw [List.nil_append, closeQuoted, closeQuoted_eq_none rest hrest]
    simp only [List.length_nil, Nat.add_zero] at hlen
    simp only [List.getLast?_nil, Option.getD_none] at hlast
    simp [hlen, hlast]
  | cons c V ih =>
    rw [List.cons_append, closeQuoted, ih (n + 1) c (by simp only [List.length_cons] at hlen; omega)
      (by rw [List.getLast?_cons] at hlast; simpa using hlast)]

theorem findQuoted_of_quoted (V rest : List Char) (hrest : '"' ∉ rest) (hlen : 2 ≤ V.length)
    (hlast : ∀ c, V.getLast? = some c → c ≠ '\\') :
    findQuoted ('"' :: (V ++ '"' :: rest)) = some V := by
  rw [findQuoted, if_pos rfl, closeQuoted_of_closing V rest 0 '"' hrest (by omega)]
  cases hV : V.getLast? with
  | none =>
    exfalso
    cases V with
    | nil => simp at hlen
    | cons _ _ => simp [List.getLast?_cons] at hV
  | some c => exact hlast c hV

/-- A quoted value: when the value between the quotes has two runes or more and does not end
with a backslash, and no quote follows the closing quote, the key is set to what is between
the quotes without the spaces and quotes at its two ends; what follows the closing quote is
dropped, and a `#` between the quotes is kept. -/
theorem parseLine_quoted (pre key ws2 ws3 V rest : List Char)
    (hpre : ∀ c ∈ pre, IsSpace c = true) (hkey : key ≠ [])
    (hkeyw : ∀ c ∈ key, isWordRune c = true) (hws2 : ∀ c ∈ ws2, isReSpace c = true)
    (hws3 : ∀ c ∈ ws3, isReSpace c = true) (hlen : 2 ≤ V.length)
    (hlast : ∀ c, V.getLast? = some c → c ≠ '\\') (hrest : '"' ∉ rest) :
    parseLine ⟨pre ++ (key ++ ws2 ++ '=' :: (ws3 ++ '"' :: V)) ++ '"' :: rest⟩ =
      some (⟨key⟩, TrimCutset ⟨V⟩ "\" ") := by
  have hrest' : '"' ∉ rest.rdropWhile IsSpace :=
    fun hmem => hrest ((List.rdropWhile_prefix IsSpace rest).subset hmem)
  have ht : (TrimSpace ⟨pre ++ (key ++ ws2 ++ '=' :: (ws3 ++ '"' :: V)) ++ '"' :: rest⟩).data =
      key ++ ws2 ++ '=' :: (ws3 ++ '"' :: (V ++ '"' :: rest.rdropWhile IsSpace)) := by
    rw [TrimSpace_data]
    rw [List.append_assoc pre, dropWhile_append_of_head pre _ hpre
      (by
        rw [List.append_assoc key, List.append_assoc key]
        exact head?_key_append key _ hkey hkeyw),
      rdropWhile_append_cons _ _ '"' (by decide)]
    simp
  have hMhead : ∀ c, ('"' :: (V ++ '"' :: rest.rdropWhile IsSpace)).head? = some c →
      IsSpace c = false := by
    intro c hc
    simp only [List.head?_cons, Option.some.injEq] at hc
    rw [← hc]; decide
  have hMlast : ∀ c, ('"' :: (V ++ '"' :: rest.rdropWhile IsSpace)).getLast? = some c →
      IsSpace c = false := by
    intro c hc
    rw [show '"' :: (V ++ '"' :: rest.rdropWhile IsSpace) =
      ('"' :: V) ++ '"' :: rest.rdropWhile IsSpace by simp,
      List.getLast?_append_of_ne_nil _ (List.cons_ne_nil _ _)] at hc
    cases hr : rest.rdropWhile IsSpace with
    | nil =>
      rw [hr] at hc
      simp only [List.getLast?_singleton, Option.some.injEq] at hc
      rw [← hc]; decide
    | cons d ds =>
      rw [hr, List.getLast?_cons_cons] at hc
      apply getLast?_rdropWhile rest c
      rw [hr]
      exact hc
  have hdrop : (ws3 ++ '"' :: (V ++ '"' :: rest.rdropWhile IsSpace)).dropWhile isReSpace =
      '"' :: (V ++ '"' :: rest.rdropWhile IsSpace) := by
    apply dropWhile_append_of_head _ _ hws3
    intro c hc
    simp only [List.head?_cons, Option.some.injEq] at hc
    rw [← hc]; decide
  have hfind : findAssignment
      (TrimSpace ⟨pre ++ (key ++ ws2 ++ '=' :: (ws3 ++ '"' :: V)) ++ '"' :: rest⟩).data =
      some (key, '"' :: (V ++ '"' :: rest.rdropWhile IsSpace)) := by
    rw [ht, findAssignment_of_key key ws2 _ hkey hkeyw hws2 (by rw [hdrop]; simp), hdrop]
  have hlen0 : ¬(len (TrimSpace
      ⟨pre ++ (key ++ ws2 ++ '=' :: (ws3 ++ '"' :: V)) ++ '"' :: rest⟩) = 0) := by
    rw [len_eq_zero_iff, ht]
    cases key with
    | nil => exact absurd rfl hkey
    | cons _ _ => simp
  have hk : TrimSpace ⟨key⟩ = ⟨key⟩ :=
    TrimSpace_eq_self key
      (fun c hc => isWordRune_not_IsSpace c (hkeyw c (mem_of_head? hc)))
      (fun c hc => isWordRune_not_IsSpace c (hkeyw c (mem_of_getLast? hc)))
  have hM : TrimSpace ⟨'"' :: (V ++ '"' :: rest.rdropWhile IsSpace)⟩ =
      ⟨'"' :: (V ++ '"' :: rest.rdropWhile IsSpace)⟩ :=
    TrimSpace_eq_self _ hMhead hMlast
  have hq := findQuoted_of_quoted V (rest.rdropWhile IsSpace) hrest' hlen hlast
  unfold parseLine
  simp only [if_neg hlen0, hfind, hk, hM, hq]

/-! ## The map of `readFile` -/

theorem lookup_mapSet_self (m : List (String × String)) (k v : String) :
    (mapSet m k v).lookup k = some v := by
  induction m with
  | nil => simp [mapSet, List.lookup]
  | cons e rest ih =>
    obtain ⟨k', v'⟩ := e
    unfold mapSet
    split
    · rename_i h
      simp [List.lookup, h]
    · rename_i h
      have : (k == k') = false := by
        simp only [beq_eq_false_iff_ne, ne_eq]
        exact fun hh => h hh.symm
      simp only [List.lookup, this]
      exact ih

theorem lookup_mapSet_of_ne (m : List (String × String)) (k k' v' : String) (h : k' ≠ k) :
    (mapSet m k' v').lookup k = m.lookup k := by
  induction m with
  | nil =>
    have : (k == k') = false := by
      simp only [beq_eq_false_iff_ne, ne_eq]
      exact fun hh => h hh.symm
    simp [mapSet, List.lookup, this]
  | cons e rest ih =>
    obtain ⟨a, b⟩ := e
    unfold mapSet
    split
    · rename_i hak
      have : (k == a) = false := by
        simp only [beq_eq_false_iff_ne, ne_eq]
        intro hh
        exact h (hak ▸ hh ▸ rfl)
      simp [List.lookup, this]
    · by_cases hka : (k == a) = true
      · simp [List.lookup, hka]
      · have hka' : (k == a) = false := by simpa using hka
        simp only [List.lookup, hka']
        exact ih

/-- The map after the lines `l2`, when none of them sets the key `k`. -/
theorem lookup_foldl_of_not_set (l2 : List String) (m : List (String × String)) (k : String)
    (hl : ∀ l ∈ l2, ∀ kv, parseLine l = some kv → kv.1 ≠ k) :
    (l2.foldl setLine m).lookup k = m.lookup k := by
  induction l2 generalizing m with
  | nil => rfl
  | cons l rest ih =>
    rw [List.foldl_cons, ih _ (fun l' hl' => hl l' (List.mem_cons_of_mem _ hl'))]
    unfold setLine
    cases hp : parseLine l with
    | none => rfl
    | some kv =>
      obtain ⟨k', v'⟩ := kv
      exact lookup_mapSet_of_ne m k k' v' (hl l (List.mem_cons_self _ _) (k', v') hp)

/-- The value of a key in the map that `readFile` returns is the value set by the last line
that sets the key. -/
theorem readFile_lookup (text : String) (l1 l2 : List String) (line k v : String)
    (hs : scanLines text = l1 ++ line :: l2) (hp : parseLine line = some (k, v))
    (hl : ∀ l ∈ l2, ∀ kv, parseLine l = some kv → kv.1 ≠ k) :
    (readFile text).lookup k = some v := by
  unfold readFile
  rw [hs, List.foldl_append, List.foldl_cons, lookup_foldl_of_not_set l2 _ k hl]
  unfold setLine
  rw [hp]
  exact lookup_mapSet_self _ k v

/-- Lines that set no value leave the map empty. -/
theorem readFile_of_all_none (text : String)
    (h : ∀ l ∈ scanLines text, parseLine l = none) : readFile text = [] := by
  unfold readFile
  generalize scanLines text = ls at h
  have : ∀ m : List (String × String), ls.foldl setLine m = m := by
    induction ls with
    | nil => intro m; rfl
    | cons l rest ih =>
      intro m
      rw [List.foldl_cons]
      have hm : setLine m l = m := by
        unfold setLine
        rw [h l (List.mem_cons_self _ _)]
      rw [hm]
      exact ih (fun l' hl' => h l' (List.mem_cons_of_mem _ hl')) m
  exact this []

/-! ## Claims on `readFile` -/

/-- C11 at its failing input: the line `PORT=8080 # the "main" port` is an unquoted assignment
of the value `8080` followed by a comment, and `readFile` returns a map that sends `PORT` to
`main`: the pattern of the quoted values is searched in all the text after the `=`, the
comment included. Without the quotes in the comment the value is `8080`. A tab between the
value and the `#` stays in the value, the last `strings.Trim` removing quotes and spaces
only. -/
theorem C11_quote_in_comment_taken_as_value :
    readFile "PORT=8080 # the \"main\" port\n" = [("PORT", "main")] ∧
    readFile "PORT=8080 # the main port\n" = [("PORT", "8080")] ∧
    readFile "KEY=VALUE\t# c\n" = [("KEY", "VALUE\t")] := by
  decide

/-- C12 at its failing input: in the line `KEY="a" b` the value between the quotes has one
rune, the pattern of the quoted values asks for two, and `readFile` returns a map that sends
`KEY` to the text `a" b`, the rest of the line included. With two quoted parts the pattern
runs to the last quote of the line, and a value that ends in an escaped quote loses that
quote in the last `strings.Trim`. -/
theorem C12_short_quoted_value_keeps_rest :
    readFile "KEY=\"a\" b\n" = [("KEY", "a\" b")] ∧
    readFile "KEY=\"ab\" \"cd\"\n" = [("KEY", "ab\" \"cd")] ∧
    readFile "KEY=\"a\\\"\"\n" = [("KEY", "a\\")] := by
  decide

end Matheque
